import Mathlib

/-!
# Graph store of the dependency tracker

A shallow embedding of `pkg/services/graphstore/service_store.go`: the table
`dts_graphdata`, the six SQL statements the store issues against it, and the
five operations `Put`, `Delete`, `List`, `FindUpstream` and `FindDownstream`;
of `connection.go` (driver names) and `statements.go` (statement
configuration); and of `pkg/services/keys.go` and `service_dependency.go`
(key derivation).
-/

namespace Tracker

/-! ## Keys and their text form -/

/-- One octet of a key or of a payload (`byte` in Go). -/
abbrev Byte := Fin 256

/-- Modelled from the spec: the alphabet of the key codec. `Base64encode` and
`Base64decode` are called by the store but their file is not part of the
sources; the spec (4.2) asks for a lossless byte/text codec and the names say
base64, so the standard padded alphabet is used: value `n < 64` becomes one
of `A-Z`, `a-z`, `0-9`, `+`, `/`. -/
def b64Char (n : Nat) : Char :=
  if n < 26 then Char.ofNat (65 + n)
  else if n < 52 then Char.ofNat (97 + (n - 26))
  else if n < 62 then Char.ofNat (48 + (n - 52))
  else if n = 62 then '+'
  else '/'

/-- Modelled from the spec: the inverse of `b64Char`; `none` for a character
outside the alphabet. -/
def b64Value (c : Char) : Option Nat :=
  let v := c.toNat
  if 65 ≤ v ∧ v ≤ 90 then some (v - 65)
  else if 97 ≤ v ∧ v ≤ 122 then some (v - 97 + 26)
  else if 48 ≤ v ∧ v ≤ 57 then some (v - 48 + 52)
  else if v = 43 then some 62
  else if v = 47 then some 63
  else none

/-- The octet with value `n mod 256`. -/
def byteOf (n : Nat) : Byte := ⟨n % 256, Nat.mod_lt n (by decide)⟩

/-- Modelled from the spec: base64 text of a byte string, three octets to four
characters, the last group padded with `=`. -/
def encodeGroups : List Byte → List Char
  | b0 :: b1 :: b2 :: rest =>
    let n := b0.val * 65536 + b1.val * 256 + b2.val
    b64Char (n / 262144 % 64) :: b64Char (n / 4096 % 64) :: b64Char (n / 64 % 64) ::
      b64Char (n % 64) :: encodeGroups rest
  | [b0, b1] =>
    let n := b0.val * 65536 + b1.val * 256
    [b64Char (n / 262144 % 64), b64Char (n / 4096 % 64), b64Char (n / 64 % 64), '=']
  | [b0] =>
    let n := b0.val * 65536
    [b64Char (n / 262144 % 64), b64Char (n / 4096 % 64), '=', '=']
  | [] => []

/-- Modelled from the spec: decoding of base64 text, four characters at a time.
The result is the octets decoded before the first malformed group together
with a flag that is `true` when the whole text was well formed (the Go
function returns the decoded prefix and an error). -/
def decodeGroups : List Char → List Byte × Bool
  | [] => ([], true)
  | c0 :: c1 :: c2 :: c3 :: rest =>
    match b64Value c0, b64Value c1 with
    | some v0, some v1 =>
      if c2 = '=' then
        if c3 = '=' ∧ rest = [] then
          ([byteOf ((v0 * 262144 + v1 * 4096) / 65536)], true)
        else ([], false)
      else
        match b64Value c2 with
        | none => ([], false)
        | some v2 =>
          if c3 = '=' then
            if rest = [] then
              let n := v0 * 262144 + v1 * 4096 + v2 * 64
              ([byteOf (n / 65536), byteOf (n / 256)], true)
            else ([], false)
          else
            match b64Value c3 with
            | none => ([], false)
            | some v3 =>
              let n := v0 * 262144 + v1 * 4096 + v2 * 64 + v3
              let r := decodeGroups rest
              (byteOf (n / 65536) :: byteOf (n / 256) :: byteOf n :: r.1, r.2)
    | _, _ => ([], false)
  | _ => ([], false)

/-- Modelled from the spec: `Base64encode`, the text stored in the key columns. -/
def Base64encode (key : List Byte) : String := String.mk (encodeGroups key)

/-- Modelled from the spec: `Base64decode`, returning the octets and whether
decoding succeeded (`err == nil`). -/
def Base64decode (key : String) : List Byte × Bool := decodeGroups key.data

/-! ## Messages of the store interface -/

/-- The message `store.GraphItem`: an item as callers hold it. -/
structure GraphItem where
  GraphItemType : String
  K1 : List Byte
  K2 : List Byte
  K3 : List Byte
  Encoding : Int
  GraphItemData : List Byte
  deriving DecidableEq, Repr

/-- The message `store.GraphItemPair`. -/
structure GraphItemPair where
  Node : GraphItem
  Edge : GraphItem
  deriving DecidableEq, Repr

/-- The message `store.PutRequest`. -/
structure PutRequest where
  Items : List GraphItem
  deriving DecidableEq, Repr

/-- The message `store.PutResponse` (no fields). -/
structure PutResponse where
  deriving DecidableEq, Repr

/-- The message `store.DeleteRequest`. -/
structure DeleteRequest where
  Items : List GraphItem
  deriving DecidableEq, Repr

/-- The message `store.DeleteResponse` (no fields). -/
structure DeleteResponse where
  deriving DecidableEq, Repr

/-- The message `store.ListRequest`; `Page` and `Count` are `int32` in Go, and
`Type_` is the field `Type`. -/
structure ListRequest where
  Page : Int
  Count : Int
  Type_ : String
  deriving DecidableEq, Repr

/-- The message `store.ListResponse`. -/
structure ListResponse where
  Items : List GraphItem
  deriving DecidableEq, Repr

/-- The message `store.FindRequest`. -/
structure FindRequest where
  Key : List Byte
  EdgeTypes : List String
  deriving DecidableEq, Repr

/-- The message `store.FindResponse`. -/
structure FindResponse where
  Pairs : List GraphItemPair
  deriving DecidableEq, Repr

/-- The errors the store returns: the three values of package `api` it names,
and an error of the database driver (carrying the position of the failed
statement in its batch). -/
inductive Error where
  | ErrUnsupported
  | ErrPartialInsertion
  | ErrPartialDeletion
  | driver (statement : Nat)
  deriving DecidableEq, Repr

deriving instance DecidableEq for Except

/-! ## The table `dts_graphdata` -/

/-- One row of `dts_graphdata` (`createGraphDataTable`): the key columns hold
the text of `Base64encode`, `graph_item_data` holds the payload bytes
(`string(item.GetGraphItemData())`), the two `DATETIME` columns hold instants,
and `date_deleted` is `NULL` (`none`) for a live row. -/
structure Row where
  graph_item_type : String
  k1 : String
  k2 : String
  encoding : Int
  graph_item_data : List Byte
  last_modified : Nat
  date_deleted : Option Nat
  deriving DecidableEq, Repr

/-- The five columns the read statements select for one item:
`graph_item_type, k1, k2, encoding, graph_item_data`. -/
structure Columns where
  t : String
  k1 : String
  k2 : String
  enc : Int
  data : List Byte
  deriving DecidableEq, Repr

/-- The selected columns of a row. -/
def Row.columns (r : Row) : Columns :=
  { t := r.graph_item_type, k1 := r.k1, k2 := r.k2, enc := r.encoding, data := r.graph_item_data }

/-- Statement `insertGraphData`:
`REPLACE INTO dts_graphdata (graph_item_type, k1, k2, encoding, graph_item_data,
last_modified, date_deleted) VALUES (?, ?, ?, ?, ?, ?, NULL)`.
`REPLACE` deletes the rows that conflict on the primary key and inserts the
new row; the table is kept in insertion order. -/
def insertGraphData (table : List Row) (graph_item_type k1 k2 : String) (encoding : Int)
    (graph_item_data : List Byte) (last_modified : Nat) : List Row :=
  table.filter (fun r => !(r.graph_item_type == graph_item_type && r.k1 == k1 && r.k2 == k2)) ++
    [{ graph_item_type := graph_item_type, k1 := k1, k2 := k2, encoding := encoding,
       graph_item_data := graph_item_data, last_modified := last_modified,
       date_deleted := none }]

/-- Statement `deleteGraphData`:
`UPDATE dts_graphdata SET date_deleted = ?
WHERE (graph_item_type = ? and k1 = ? and k2 = ?)`. -/
def deleteGraphData (table : List Row) (date_deleted : Nat) (graph_item_type k1 k2 : String) :
    List Row :=
  table.map (fun r =>
    if r.graph_item_type == graph_item_type && r.k1 == k1 && r.k2 == k2 then
      { r with date_deleted := some date_deleted }
    else r)

/-- Statement `listGraphData`:
`SELECT graph_item_type, k1, k2, encoding, graph_item_data FROM dts_graphdata
WHERE graph_item_type = ? LIMIT ? OFFSET ?`. Rows come in table order (the
statement has no `ORDER BY`); as in SQLite a negative `OFFSET` counts as zero
and a negative `LIMIT` as no limit. -/
def listGraphData (table : List Row) (graph_item_type : String) (limit offset : Int) :
    List Columns :=
  let matching := (table.filter (fun r => r.graph_item_type == graph_item_type)).drop offset.toNat
  ((if limit < 0 then matching else matching.take limit.toNat)).map Row.columns

/-- Statement `selectGraphDataUpstreamDependencies`, with the `%s` of
`graph_item_type IN (%s)` expanded to one placeholder per edge type:
`SELECT g1.*, g2.* FROM dts_graphdata AS g1 INNER JOIN dts_graphdata AS g2
ON g1.k1 = g2.k2 WHERE g2.k1 = ? AND g2.graph_item_type IN (...) AND
g2.k1 != g2.k2 AND g2.date_deleted IS NULL AND g1.k1 = g1.k2 AND
g1.date_deleted IS NULL`. Each result row is the columns of `g1` followed by
those of `g2`. Text is compared byte by byte, and an empty `IN ()` list
selects nothing, as in SQLite. -/
def selectGraphDataUpstreamDependencies (table : List Row) (key : String)
    (edgeTypes : List String) : List (Columns × Columns) :=
  table.flatMap (fun g1 =>
    (table.filter (fun g2 =>
      g1.k1 == g2.k2 && g2.k1 == key && edgeTypes.contains g2.graph_item_type &&
        g2.k1 != g2.k2 && g2.date_deleted.isNone && g1.k1 == g1.k2 &&
        g1.date_deleted.isNone)).map (fun g2 => (g1.columns, g2.columns)))

/-- Statement `selectGraphDataDownstreamDependencies`: as the upstream
statement with `ON g1.k2 = g2.k1` and `WHERE g2.k2 = ?`. -/
def selectGraphDataDownstreamDependencies (table : List Row) (key : String)
    (edgeTypes : List String) : List (Columns × Columns) :=
  table.flatMap (fun g1 =>
    (table.filter (fun g2 =>
      g1.k2 == g2.k1 && g2.k2 == key && edgeTypes.contains g2.graph_item_type &&
        g2.k1 != g2.k2 && g2.date_deleted.isNone && g1.k1 == g1.k2 &&
        g1.date_deleted.isNone)).map (fun g2 => (g1.columns, g2.columns)))

/-! ## The store -/

/-- The store `graphStore` together with the database behind its handles:
`rwdb` says whether the write handle is bound (`gs.rwdb != nil`), and
`dts_graphdata` is the table both handles see (`NewDatabaseConnection` makes
the read handle the write handle unless a read-only DSN of the same database
is given). -/
structure graphStore where
  rwdb : Bool
  dts_graphdata : List Row
  deriving DecidableEq, Repr

/-- The constructor `NewSQLGraphStore`: `CREATE TABLE IF NOT EXISTS` leaves an existing table
as it is and otherwise starts from the empty table. -/
def NewSQLGraphStore (rwdb : Bool) (existing : Option (List Row)) : graphStore :=
  { rwdb := rwdb, dts_graphdata := existing.getD [] }

/-- The loop shared by `Put` and `Delete`:
`for _, item := range items { _, err := gs.rwdb.Exec(stmt, ...); if err != nil
{ errors = append(errors, err) } }`. Whether the driver fails a statement is
not decided by the store: `fault i` says that the statement for the item at
position `i` of the batch fails, and a failed statement changes nothing. -/
def execEach {α : Type} (fault : Nat → Bool) (stmt : List Row → α → List Row) :
    Nat → List α → List Row → List Error → List Row × List Error
  | _, [], table, errors => (table, errors)
  | i, item :: rest, table, errors =>
    if fault i then execEach fault stmt (i + 1) rest table (errors ++ [Error.driver i])
    else execEach fault stmt (i + 1) rest (stmt table item) errors

/-- The statement `Put` executes for one item:
`Exec(insertGraphData, item.GetGraphItemType(), Base64encode(item.GetK1()),
Base64encode(item.GetK2()), item.GetEncoding(), string(item.GetGraphItemData()),
timestamp)`. -/
def execInsert (timestamp : Nat) (table : List Row) (item : GraphItem) : List Row :=
  insertGraphData table item.GraphItemType (Base64encode item.K1) (Base64encode item.K2)
    item.Encoding item.GraphItemData timestamp

/-- The statement `Delete` executes for one item:
`Exec(deleteGraphData, timestamp, key.GetGraphItemType(), Base64encode(key.GetK1()),
Base64encode(key.GetK2()))`. -/
def execDelete (timestamp : Nat) (table : List Row) (key : GraphItem) : List Row :=
  deleteGraphData table timestamp key.GraphItemType (Base64encode key.K1) (Base64encode key.K2)

/-- The method `graphStore.Put`, with `timestamp` the value of `time.Now()`. -/
protected def graphStore.Put (gs : graphStore) (fault : Nat → Bool) (timestamp : Nat)
    (req : PutRequest) : graphStore × Except Error PutResponse :=
  if gs.rwdb = false then (gs, .error .ErrUnsupported)
  else if req.Items.length = 0 then (gs, .ok {})
  else
    let r := execEach fault (execInsert timestamp) 0 req.Items gs.dts_graphdata []
    if r.2.length > 0 then ({ gs with dts_graphdata := r.1 }, .error .ErrPartialInsertion)
    else ({ gs with dts_graphdata := r.1 }, .ok {})

/-- The method `graphStore.Delete`, with `timestamp` the value of `time.Now()`. -/
protected def graphStore.Delete (gs : graphStore) (fault : Nat → Bool) (timestamp : Nat)
    (req : DeleteRequest) : graphStore × Except Error DeleteResponse :=
  if gs.rwdb = false then (gs, .error .ErrUnsupported)
  else if req.Items.length = 0 then (gs, .ok {})
  else
    let r := execEach fault (execDelete timestamp) 0 req.Items gs.dts_graphdata []
    if r.2.length > 0 then ({ gs with dts_graphdata := r.1 }, .error .ErrPartialDeletion)
    else ({ gs with dts_graphdata := r.1 }, .ok {})

/-- The function `max` on `int32`. -/
protected def max (a b : Int) : Int := if a > b then a else b

/-- The function `min` on `int32`. -/
protected def min (a b : Int) : Int := if a < b then a else b

/-- The value of an `int32` expression: the mathematical result wrapped to
`[-2^31, 2^31)`. -/
def wrapInt32 (x : Int) : Int := (x + 2147483648) % 4294967296 - 2147483648

/-- The body of the scan loops of `readGraphItems` and `readGraphItemPairs` for
one item: the error of `Base64decode` is discarded and `K3` is not set. -/
def scanGraphItem (c : Columns) : GraphItem :=
  { GraphItemType := c.t, K1 := (Base64decode c.k1).1, K2 := (Base64decode c.k2).1, K3 := [],
    Encoding := c.enc, GraphItemData := c.data }

/-- The function `readGraphItems`: one `GraphItem` per scanned row. -/
def readGraphItems (rows : List Columns) : List GraphItem :=
  rows.map scanGraphItem

/-- The function `readGraphItemPairs`: the first five columns are the node, the last five
the edge. -/
def readGraphItemPairs (rows : List (Columns × Columns)) : List GraphItemPair :=
  rows.map (fun c => { Edge := scanGraphItem c.2, Node := scanGraphItem c.1 })

/-- The method `graphStore.List`. The query on the read handle is taken to succeed. -/
protected def graphStore.List (gs : graphStore) (req : ListRequest) : Except Error ListResponse :=
  let graphItemType := req.Type_
  let page := Tracker.max req.Page 1
  let limit := Tracker.max (Tracker.min req.Count 100) 10
  let offset := wrapInt32 ((page - 1) * limit)
  let rows := listGraphData gs.dts_graphdata graphItemType limit offset
  .ok { Items := readGraphItems rows }

/-- The method `graphStore.FindUpstream`. The edge types fill the `IN (...)` list
of the statement; the query on the read handle is taken to succeed. -/
protected def graphStore.FindUpstream (gs : graphStore) (req : FindRequest) :
    Except Error FindResponse :=
  let rows := selectGraphDataUpstreamDependencies gs.dts_graphdata (Base64encode req.Key)
    req.EdgeTypes
  .ok { Pairs := readGraphItemPairs rows }

/-- The method `graphStore.FindDownstream`, built like `FindUpstream`. -/
protected def graphStore.FindDownstream (gs : graphStore) (req : FindRequest) :
    Except Error FindResponse :=
  let rows := selectGraphDataDownstreamDependencies gs.dts_graphdata (Base64encode req.Key)
    req.EdgeTypes
  .ok { Pairs := readGraphItemPairs rows }

/-! ## The scenario of `TestNewSQLGraphStore_sqlite` -/

/-- A test key: the ASCII bytes of a decimal string such as `"1001"`. -/
def testKey (d : Nat) : List Byte := [byteOf (48 + d), byteOf 48, byteOf 48, byteOf (48 + d)]

/-- An item with empty payload, encoding 0. -/
def testItem (t : String) (k1 k2 k3 : List Byte) : GraphItem :=
  { GraphItemType := t, K1 := k1, K2 := k2, K3 := k3, Encoding := 0, GraphItemData := [] }

/-- The `data` of the test. -/
def testData : List GraphItem :=
  [testItem "node" (testKey 1) (testKey 1) [], testItem "node" (testKey 2) (testKey 2) [],
   testItem "node" (testKey 3) (testKey 3) [], testItem "node" (testKey 4) (testKey 4) [],
   testItem "node" (testKey 5) (testKey 5) [], testItem "node" (testKey 6) (testKey 6) [],
   testItem "edge" (testKey 1) (testKey 2) [], testItem "edge" (testKey 2) (testKey 3) [],
   testItem "edge" (testKey 2) (testKey 4) [], testItem "edge" (testKey 4) (testKey 6) [],
   testItem "edge" (testKey 3) (testKey 5) (testKey 1),
   testItem "edge" (testKey 3) (testKey 5) (testKey 2)]

/-- A driver that fails no statement. -/
def noFault : Nat → Bool := fun _ => false

/-- The store of the test after `Put` of `data` at instant 1. -/
def testStore : graphStore :=
  ((NewSQLGraphStore true none).Put noFault 1 { Items := testData }).1

/-- The test store after the node `3003` has been deleted at instant 2. -/
def testStoreNodeDeleted : graphStore :=
  (testStore.Delete noFault 2 { Items := [testItem "node" (testKey 3) (testKey 3) []] }).1

/-- A store holding the chain `1001 -> 2002 -> 3003`, written at instant 1. -/
def chainStore : graphStore :=
  ((NewSQLGraphStore true none).Put noFault 1 { Items :=
    [testItem "node" (testKey 1) (testKey 1) [], testItem "node" (testKey 2) (testKey 2) [],
     testItem "node" (testKey 3) (testKey 3) [], testItem "edge" (testKey 1) (testKey 2) [],
     testItem "edge" (testKey 2) (testKey 3) []] }).1

/-- A store into which two edges `3003 -> 5005` that differ only in `K3` were
put, with their two nodes. -/
def multiEdgeStore : graphStore :=
  ((NewSQLGraphStore true none).Put noFault 1 { Items :=
    [testItem "node" (testKey 3) (testKey 3) [], testItem "node" (testKey 5) (testKey 5) [],
     testItem "edge" (testKey 3) (testKey 5) (testKey 1),
     testItem "edge" (testKey 3) (testKey 5) (testKey 2)] }).1

/-- A store into which one node was put at instant 1 and deleted at instant 2. -/
def deletedNodeStore : graphStore :=
  (((NewSQLGraphStore true none).Put noFault 1
      { Items := [testItem "node" (testKey 1) (testKey 1) []] }).1.Delete noFault 2
      { Items := [testItem "node" (testKey 1) (testKey 1) []] }).1

/-! ## Vocabulary of the properties -/

/-- The item a read returns for a row. -/
def Row.item (r : Row) : GraphItem := scanGraphItem r.columns

/-- The row `Put` writes for an item at instant `timestamp`. -/
def GraphItem.row (item : GraphItem) (timestamp : Nat) : Row :=
  { graph_item_type := item.GraphItemType, k1 := Base64encode item.K1,
    k2 := Base64encode item.K2, encoding := item.Encoding,
    graph_item_data := item.GraphItemData, last_modified := timestamp, date_deleted := none }

/-- A row is live when it carries no tombstone. -/
def Row.live (r : Row) : Prop := r.date_deleted = none

instance (r : Row) : Decidable r.live := by unfold Row.live; infer_instance

/-- The row has the identity `(itemType, k1, k2)` of the item. -/
def Row.hasIdentityOf (r : Row) (item : GraphItem) : Prop :=
  r.graph_item_type = item.GraphItemType ∧ r.k1 = Base64encode item.K1 ∧
    r.k2 = Base64encode item.K2

instance (r : Row) (item : GraphItem) : Decidable (r.hasIdentityOf item) := by
  unfold Row.hasIdentityOf; infer_instance

/-- Two items have the same identity `(itemType, k1, k2)`. -/
def GraphItem.sameIdentity (a b : GraphItem) : Prop :=
  a.GraphItemType = b.GraphItemType ∧ a.K1 = b.K1 ∧ a.K2 = b.K2

instance (a b : GraphItem) : Decidable (a.sameIdentity b) := by
  unfold GraphItem.sameIdentity; infer_instance

/-- Both key columns of the row hold the text of some key, as every row
written by `Put` does. -/
def Row.keysEncoded (r : Row) : Prop :=
  Base64encode (Base64decode r.k1).1 = r.k1 ∧ Base64encode (Base64decode r.k2).1 = r.k2

instance (r : Row) : Decidable r.keysEncoded := by unfold Row.keysEncoded; infer_instance

/-- Every row of the store holds encoded keys. -/
def graphStore.keysEncoded (gs : graphStore) : Prop :=
  ∀ r ∈ gs.dts_graphdata, r.keysEncoded

instance (gs : graphStore) : Decidable gs.keysEncoded := by
  unfold graphStore.keysEncoded; infer_instance

/-- The columns `Delete` never writes. -/
def Row.kept (r : Row) : String × String × String × Int × List Byte × Nat :=
  (r.graph_item_type, r.k1, r.k2, r.encoding, r.graph_item_data, r.last_modified)

/-- The effect of the delete statement on one row. -/
def stampRow (timestamp : Nat) (r : Row) (key : GraphItem) : Row :=
  if r.graph_item_type == key.GraphItemType && r.k1 == Base64encode key.K1 &&
      r.k2 == Base64encode key.K2 then
    { r with date_deleted := some timestamp }
  else r

/-- The row with `last_modified` set aside: two rows agree on every other
column exactly when their `stripped` forms are equal. -/
def Row.stripped (r : Row) : Row := { r with last_modified := 0 }

/-- The row has the identity of no item of the batch. -/
def noIdentityIn (items : List GraphItem) (r : Row) : Bool :=
  items.all (fun x => !decide (r.hasIdentityOf x))

/-- The item as reads return it: `K3` has no column and comes back empty. -/
def GraphItem.stored (item : GraphItem) : GraphItem := { item with K3 := [] }

/-! ## Package `graphstore`: driver names -/

/-- The constant `mysql`: the driver name for MySQL. -/
def mysql : String := "mysql"

/-- The constant `sqlite`: the driver name for SQLite. -/
def sqlite : String := "sqlite3"

/-- The constant `postgres`: the driver name for PostgreSQL. -/
def postgres : String := "pgx"

/-- The function `ResolveDriverName`: the driver name and the error (`none` for
`nil`, otherwise the message built by `fmt.Errorf("%s not supported, ...",
dbmsName)`). -/
def ResolveDriverName (dbmsName : String) : String × Option String :=
  if dbmsName = "mysql" then (mysql, none)
  else if dbmsName = "sqlite" then (sqlite, none)
  else if dbmsName = "postgres" then (postgres, none)
  else ("", some (dbmsName ++
    " not supported, specify one of the supported systems; mysql/postgres/sqlite"))

/-- A store like the test store, opened without a write handle. -/
def readOnlyStore : graphStore := { testStore with rwdb := false }

/-! ## Vocabulary of batches -/

/-- The items of a batch whose statements the driver did not fail, in batch
order; positions are counted from `i`. -/
def executed {α : Type} (fault : Nat → Bool) (i : Nat) (items : List α) : List α :=
  ((items.enumFrom i).filter (fun p => !fault p.1)).map Prod.snd

/-- The errors of the statements the driver failed, in batch order. -/
def failures {α : Type} (fault : Nat → Bool) (i : Nat) (items : List α) : List Error :=
  ((items.enumFrom i).filter (fun p => fault p.1)).map (fun p => Error.driver p.1)

/-- The row has the identity of some item of the batch. -/
def Row.matchesAny (r : Row) (items : List GraphItem) : Bool :=
  items.any (fun x => decide (r.hasIdentityOf x))

/-- The row with the instant of its tombstone set aside: two rows agree on
every column and on being tombstoned exactly when their `untimed` forms are
equal. -/
def Row.untimed (r : Row) : Row := { r with date_deleted := r.date_deleted.map (fun _ => 0) }

/-- The test store with the node `3003` deleted at instant 2 and again at
instant 3. -/
def testStoreNodeDeletedTwice : graphStore :=
  (testStoreNodeDeleted.Delete noFault 3
    { Items := [testItem "node" (testKey 3) (testKey 3) []] }).1

/-- A driver that fails the second statement of a batch only. -/
def secondFails : Nat → Bool := fun i => i == 1

/-- A batch of three nodes. -/
def threeNodes : List GraphItem :=
  [testItem "node" (testKey 1) (testKey 1) [], testItem "node" (testKey 2) (testKey 2) [],
   testItem "node" (testKey 3) (testKey 3) []]

/-! ## Package `graphstore`: statement configuration -/

/-- The struct `Statements`: the SQL text of the six statements of the store. -/
structure Statements where
  CreateGraphDataTable : String
  InsertGraphData : String
  DeleteGraphData : String
  ListGraphData : String
  SelectGraphDataUpstreamDependencies : String
  SelectGraphDataDownstreamDependencies : String
  deriving DecidableEq, Repr

/-- The six fields of `Statements`. -/
inductive StatementName where
  | createGraphDataTable
  | insertGraphData
  | deleteGraphData
  | listGraphData
  | selectGraphDataUpstreamDependencies
  | selectGraphDataDownstreamDependencies
  deriving DecidableEq, Repr

/-- The `json` tag of a field of `Statements`. -/
def StatementName.tag : StatementName → String
  | .createGraphDataTable => "createGraphDataTable"
  | .insertGraphData => "insertGraphData"
  | .deleteGraphData => "deleteGraphData"
  | .listGraphData => "listGraphData"
  | .selectGraphDataUpstreamDependencies => "selectGraphDataUpstreamDependencies"
  | .selectGraphDataDownstreamDependencies => "selectGraphDataDownstreamDependencies"

/-- Reading a field of `Statements`. -/
def Statements.get (s : Statements) : StatementName → String
  | .createGraphDataTable => s.CreateGraphDataTable
  | .insertGraphData => s.InsertGraphData
  | .deleteGraphData => s.DeleteGraphData
  | .listGraphData => s.ListGraphData
  | .selectGraphDataUpstreamDependencies => s.SelectGraphDataUpstreamDependencies
  | .selectGraphDataDownstreamDependencies => s.SelectGraphDataDownstreamDependencies

/-- Assigning a field of `Statements`. -/
def Statements.set (s : Statements) (n : StatementName) (v : String) : Statements :=
  match n with
  | .createGraphDataTable => { s with CreateGraphDataTable := v }
  | .insertGraphData => { s with InsertGraphData := v }
  | .deleteGraphData => { s with DeleteGraphData := v }
  | .listGraphData => { s with ListGraphData := v }
  | .selectGraphDataUpstreamDependencies => { s with SelectGraphDataUpstreamDependencies := v }
  | .selectGraphDataDownstreamDependencies =>
    { s with SelectGraphDataDownstreamDependencies := v }

/-- The six field names, in the order of the struct. -/
def StatementName.all : List StatementName :=
  [.createGraphDataTable, .insertGraphData, .deleteGraphData, .listGraphData,
   .selectGraphDataUpstreamDependencies, .selectGraphDataDownstreamDependencies]

/-- A value of a key of a YAML document as the decoder of a string field sees
it: a text; a number or boolean, which the library `ghodss/yaml` turns into
the text `formatted` when the key names a string field; `null`; or a value of
another kind (sequence, mapping). -/
inductive YAMLValue where
  | text (s : String)
  | scalar (formatted : String)
  | null
  | other
  deriving DecidableEq, Repr

/-- A document as the YAML parser of `yaml.Unmarshal` (library `ghodss/yaml`)
reads it: an error for a document that is rejected as a whole (not YAML, or a
top level that is not a mapping), or the keys of its top-level mapping with
their values, in document order. The YAML syntax itself belongs to the library
and is not modelled. -/
abbrev YAMLDocument := Except String (List (String × YAMLValue))

/-- The Go map the YAML parser builds from the top-level mapping: one value
per key, a repeated key keeping its last value. -/
def yamlMapping (entries : List (String × YAMLValue)) : List (String × YAMLValue) :=
  entries.foldl (fun m e => m.filter (fun x => x.1 != e.1) ++ [e]) []

/-- The order of Go strings, which compares bytes: for UTF-8 texts it is the
lexicographic order of the code points. -/
def keyLess : List Char → List Char → Bool
  | [], [] => false
  | [], _ :: _ => true
  | _ :: _, [] => false
  | a :: as, b :: bs =>
    if a.toNat < b.toNat then true
    else if b.toNat < a.toNat then false
    else keyLess as bs

/-- Insertion of a key and its value before the first greater key. -/
def insertByKey (e : String × YAMLValue) : List (String × YAMLValue) → List (String × YAMLValue)
  | [] => [e]
  | x :: xs => if keyLess e.1.data x.1.data then e :: x :: xs else x :: insertByKey e xs

/-- The JSON object the library makes of the document, which the JSON decoder
then reads: the keys of the map in increasing order (`json.Marshal` writes the
keys of a map sorted). -/
def jsonObject (entries : List (String × YAMLValue)) : List (String × YAMLValue) :=
  (yamlMapping entries).foldr insertByKey []

/-- Case folding of one character of a key, as the JSON decoder compares keys
with field tags: ASCII letters without regard to case, and the two letters
U+017F and U+212A as `s` and `k`. -/
def foldRune (c : Char) : Char :=
  if 65 ≤ c.toNat ∧ c.toNat ≤ 90 then Char.ofNat (c.toNat + 32)
  else if c.toNat = 383 then Char.ofNat 115
  else if c.toNat = 8490 then Char.ofNat 107
  else c

/-- The field a key of the document names, if any. -/
def fieldNamed (key : String) : Option StatementName :=
  StatementName.all.find? (fun n => key.data.map foldRune == n.tag.data.map foldRune)

/-- The decoding of one key of the JSON object into the struct: a key that
names no field is skipped, a text is assigned, a number or boolean is assigned
as the text the library made of it, `null` leaves the field as it is, and a
sequence or mapping is a type error (decoding goes on and the first error is
reported at the end). -/
def unmarshalEntry (acc : Statements × Option String) (entry : String × YAMLValue) :
    Statements × Option String :=
  match fieldNamed entry.1 with
  | none => acc
  | some n =>
    match entry.2 with
    | .text s => (acc.1.set n s, acc.2)
    | .scalar s => (acc.1.set n s, acc.2)
    | .null => acc
    | .other =>
      (acc.1, acc.2.orElse (fun _ =>
        some ("json: cannot unmarshal into Go struct field Statements." ++ n.tag ++
          " of type string")))

/-- The call `yaml.Unmarshal(contents, statements)`: the struct after decoding
and the error. The keys are decoded in the order of the JSON object. -/
def yamlUnmarshal (contents : YAMLDocument) (statements : Statements) :
    Statements × Option String :=
  match contents with
  | .error e => (statements, some e)
  | .ok entries => (jsonObject entries).foldl unmarshalEntry (statements, none)

/-- The function `LoadStatements`: decoding starts from the zero value
`&Statements{}`. -/
def LoadStatements (contents : YAMLDocument) : Except String Statements :=
  let statements : Statements := ⟨"", "", "", "", "", ""⟩
  match yamlUnmarshal contents statements with
  | (_, some err) => .error err
  | (loaded, none) => .ok loaded

/-- The constant `sqlStatements`, as the YAML library reads it: six keys, each
with a literal block scalar. -/
def sqlStatements : YAMLDocument :=
  .ok [
    ("createGraphDataTable", .text "CREATE TABLE IF NOT EXISTS dts_graphdata(\n    graph_item_type VARCHAR(55),\n    k1 CHAR(64),\n    k2 CHAR(64),\n    encoding TINYINT,\n    graph_item_data TEXT,\n    last_modified DATETIME,\n    date_deleted DATETIME DEFAULT NULL,\n    PRIMARY KEY (graph_item_type, k1, k2)\n);\n"),
    ("insertGraphData", .text "REPLACE INTO dts_graphdata \n(graph_item_type, k1, k2, encoding, graph_item_data, last_modified, date_deleted)\nVALUES (:graph_item_type, :k1, :k2, :encoding, :graph_item_data, :last_modified, NULL);\n"),
    ("deleteGraphData", .text "UPDATE dts_graphdata\nSET date_deleted = :date_deleted\nWHERE (graph_item_type = :graph_item_type and k1 = :k1 and k2 = :k2);\n"),
    ("listGraphData", .text "SELECT graph_item_type, k1, k2, encoding, graph_item_data\nFROM dts_graphdata\nWHERE graph_item_type = :graph_item_type \nLIMIT :limit OFFSET :offset;\n"),
    ("selectGraphDataUpstreamDependencies", .text "SELECT g1.graph_item_type, g1.k1, g1.k2, g1.encoding, g1.graph_item_data,\n        g2.graph_item_type, g2.k1, g2.k2, g2.encoding, g2.graph_item_data\nFROM dts_graphdata AS g1\nINNER JOIN dts_graphdata AS g2 ON g1.k1 = g2.k2\nWHERE g2.k1 = :key \nAND g2.graph_item_type IN (:edge_types) \nAND g2.k1 != g2.k2 \nAND g2.date_deleted IS NULL\nAND g1.k1 = g1.k2 \nAND g1.date_deleted IS NULL;\n"),
    ("selectGraphDataDownstreamDependencies", .text "SELECT g1.graph_item_type, g1.k1, g1.k2, g1.encoding, g1.graph_item_data,\n        g2.graph_item_type, g2.k1, g2.k2, g2.encoding, g2.graph_item_data\nFROM dts_graphdata AS g1\nINNER JOIN dts_graphdata AS g2 ON g1.k2 = g2.k1\nWHERE g2.k2 = :key \nAND g2.graph_item_type IN (:edge_types) \nAND g2.k1 != g2.k2 \nAND g2.date_deleted IS NULL\nAND g1.k1 = g1.k2 \nAND g1.date_deleted IS NULL;\n")]

/-- The function `DefaultStatements`. The second branch stands for the
`panic` of the source, which is not reached since `sqlStatements` loads. -/
def DefaultStatements : Statements :=
  match LoadStatements sqlStatements with
  | .ok statements => statements
  | .error _ => ⟨"", "", "", "", "", ""⟩

/-- An override document that specifies one statement only. -/
def overrideInsertOnly : YAMLDocument :=
  .ok [("insertGraphData", .text "INSERT INTO dts_graphdata VALUES (?, ?, ?, ?, ?, ?, NULL);")]

/-- The text a value gives to a string field, if any. -/
def YAMLValue.text? : YAMLValue → Option String
  | .text s => some s
  | .scalar s => some s
  | .null => none
  | .other => none

/-- The key of the entry names the statement `n`. -/
def namesStatement (n : StatementName) (entry : String × YAMLValue) : Bool :=
  fieldNamed entry.1 == some n

/-- The texts that the entries of a list give for a statement, in the order of
the list. -/
def specifiedTexts (entries : List (String × YAMLValue)) (n : StatementName) : List String :=
  (entries.filter (namesStatement n)).filterMap (fun entry => entry.2.text?)

/-- An override document that gives a number for one statement. -/
def overrideNumber : YAMLDocument :=
  .ok [("insertGraphData", .scalar "5")]

/-- An override document with two keys for one statement that differ in the
case of a letter, and a repeated key for another. -/
def overrideTwoCases : YAMLDocument :=
  .ok [("insertGraphData", .text "first"), ("InsertGraphData", .text "second"),
       ("listGraphData", .text "one"), ("listGraphData", .text "two")]

/-! ## The hash of the Go library `crypto/sha256` (FIPS 180-4) -/

/-- Addition of 32-bit words. -/
def sha256.add32 (x y : Nat) : Nat := (x + y) % 4294967296

/-- Rotation of a 32-bit word to the right by `n` bits. -/
def sha256.rotr (n x : Nat) : Nat := ((x >>> n) ||| (x <<< (32 - n))) % 4294967296

/-- The function `Ch` of the standard. -/
def sha256.ch (x y z : Nat) : Nat := (x &&& y) ^^^ ((4294967295 - x) &&& z)

/-- The function `Maj` of the standard. -/
def sha256.maj (x y z : Nat) : Nat := (x &&& y) ^^^ (x &&& z) ^^^ (y &&& z)

/-- The function written with a capital sigma and index 0 in the standard. -/
def sha256.bsig0 (x : Nat) : Nat := sha256.rotr 2 x ^^^ sha256.rotr 13 x ^^^ sha256.rotr 22 x

/-- The function written with a capital sigma and index 1 in the standard. -/
def sha256.bsig1 (x : Nat) : Nat := sha256.rotr 6 x ^^^ sha256.rotr 11 x ^^^ sha256.rotr 25 x

/-- The function written with a small sigma and index 0 in the standard. -/
def sha256.ssig0 (x : Nat) : Nat := sha256.rotr 7 x ^^^ sha256.rotr 18 x ^^^ (x >>> 3)

/-- The function written with a small sigma and index 1 in the standard. -/
def sha256.ssig1 (x : Nat) : Nat := sha256.rotr 17 x ^^^ sha256.rotr 19 x ^^^ (x >>> 10)

/-- The sixty-four round constants: the first 32 bits of the fractional parts
of the cube roots of the first sixty-four primes. -/
def sha256.K : List Nat :=
  [1116352408, 1899447441, 3049323471, 3921009573, 961987163, 1508970993,
   2453635748, 2870763221, 3624381080, 310598401, 607225278, 1426881987,
   1925078388, 2162078206, 2614888103, 3248222580, 3835390401, 4022224774,
   264347078, 604807628, 770255983, 1249150122, 1555081692, 1996064986,
   2554220882, 2821834349, 2952996808, 3210313671, 3336571891, 3584528711,
   113926993, 338241895, 666307205, 773529912, 1294757372, 1396182291,
   1695183700, 1986661051, 2177026350, 2456956037, 2730485921, 2820302411,
   3259730800, 3345764771, 3516065817, 3600352804, 4094571909, 275423344,
   430227734, 506948616, 659060556, 883997877, 958139571, 1322822218,
   1537002063, 1747873779, 1955562222, 2024104815, 2227730452, 2361852424,
   2428436474, 2756734187, 3204031479, 3329325298]

/-- The eight working words of the hash. -/
structure sha256.State where
  a : Nat
  b : Nat
  c : Nat
  d : Nat
  e : Nat
  f : Nat
  g : Nat
  h : Nat
  deriving DecidableEq, Repr

/-- The initial hash value: the first 32 bits of the fractional parts of the
square roots of the first eight primes. -/
def sha256.init : sha256.State :=
  ⟨1779033703, 3144134277, 1013904242, 2773480762, 1359893119, 2600822924, 528734635,
   1541459225⟩

/-- One round of the compression function, with round constant `k` and
schedule word `w`. -/
def sha256.round (s : sha256.State) (k w : Nat) : sha256.State :=
  let t1 := sha256.add32 (sha256.add32 (sha256.add32 (sha256.add32 s.h (sha256.bsig1 s.e))
    (sha256.ch s.e s.f s.g)) k) w
  let t2 := sha256.add32 (sha256.bsig0 s.a) (sha256.maj s.a s.b s.c)
  ⟨sha256.add32 t1 t2, s.a, s.b, s.c, sha256.add32 s.d t1, s.e, s.f, s.g⟩

/-- The big-endian 32-bit words of a block. -/
def sha256.words : List Byte → List Nat
  | b0 :: b1 :: b2 :: b3 :: rest =>
    (b0.val * 16777216 + b1.val * 65536 + b2.val * 256 + b3.val) :: sha256.words rest
  | _ => []

/-- The message schedule grown by `n` words. -/
def sha256.extend : Nat → List Nat → List Nat
  | 0, w => w
  | n + 1, w =>
    let t := w.length
    sha256.extend n (w ++ [sha256.add32 (sha256.add32 (sha256.add32
      (sha256.ssig1 (w.getD (t - 2) 0)) (w.getD (t - 7) 0))
      (sha256.ssig0 (w.getD (t - 15) 0))) (w.getD (t - 16) 0)])

/-- The compression of one 64-byte block into the hash value. -/
def sha256.compress (s : sha256.State) (block : List Byte) : sha256.State :=
  let r := (sha256.K.zip (sha256.extend 48 (sha256.words block))).foldl
    (fun st kw => sha256.round st kw.1 kw.2) s
  ⟨sha256.add32 s.a r.a, sha256.add32 s.b r.b, sha256.add32 s.c r.c, sha256.add32 s.d r.d,
   sha256.add32 s.e r.e, sha256.add32 s.f r.f, sha256.add32 s.g r.g, sha256.add32 s.h r.h⟩

/-- The big-endian bytes of a 64-bit length. -/
def sha256.be64 (n : Nat) : List Byte :=
  [byteOf (n / 72057594037927936), byteOf (n / 281474976710656), byteOf (n / 1099511627776),
   byteOf (n / 4294967296), byteOf (n / 16777216), byteOf (n / 65536), byteOf (n / 256),
   byteOf n]

/-- The padded message: a `1` bit, zero bits, and the length in bits, up to a
multiple of 64 bytes. -/
def sha256.pad (data : List Byte) : List Byte :=
  data ++ [byteOf 128] ++ List.replicate ((119 - data.length % 64) % 64) (byteOf 0) ++
    sha256.be64 (8 * data.length)

/-- The compression of the first `n` blocks of a message. -/
def sha256.blocks : Nat → List Byte → sha256.State → sha256.State
  | 0, _, s => s
  | n + 1, data, s => sha256.blocks n (data.drop 64) (sha256.compress s (data.take 64))

/-- The big-endian bytes of a 32-bit word. -/
def sha256.wordBytes (w : Nat) : List Byte :=
  [byteOf (w / 16777216), byteOf (w / 65536), byteOf (w / 256), byteOf w]

/-- The function `sha256.Sum256`: the digest of a byte string. -/
def sha256.Sum256 (data : List Byte) : List Byte :=
  let p := sha256.pad data
  let s := sha256.blocks (p.length / 64) p sha256.init
  sha256.wordBytes s.a ++ sha256.wordBytes s.b ++ sha256.wordBytes s.c ++ sha256.wordBytes s.d ++
    sha256.wordBytes s.e ++ sha256.wordBytes s.f ++ sha256.wordBytes s.g ++ sha256.wordBytes s.h

/-- The running hash `hash.Hash` returned by `sha256.New()`, by its contract:
it stands for the bytes written to it so far. -/
structure sha256.digest where
  written : List Byte
  deriving DecidableEq, Repr

/-- The function `sha256.New`. -/
def sha256.New : sha256.digest := ⟨[]⟩

/-- The method `Write` of the running hash: more data is added to it. -/
def sha256.digest.Write (d : sha256.digest) (p : List Byte) : sha256.digest :=
  ⟨d.written ++ p⟩

/-- The method `Sum` of the running hash: the digest of everything written is
appended to `b`. -/
def sha256.digest.Sum (d : sha256.digest) (b : List Byte) : List Byte :=
  b ++ sha256.Sum256 d.written

/-! ## Package `services`: key derivation -/

/-- The message `schema.Source`; a Go string is a byte string, and
`XXX_unrecognized` stands for whatever else the message carries. -/
structure Source where
  Url : List Byte
  XXX_unrecognized : List Byte
  deriving DecidableEq, Repr

set_option linter.dupNamespace false in
/-- The message `schema.Module`. -/
structure Module where
  Language : List Byte
  Organization : List Byte
  Module : List Byte
  XXX_unrecognized : List Byte
  deriving DecidableEq, Repr

/-- The message `tracker.DependencyRequest`. -/
structure DependencyRequest where
  Language : List Byte
  Organization : List Byte
  Module : List Byte
  deriving DecidableEq, Repr

/-- The function `key`: every field is written to one running hash, in order,
and the digest is returned (`hash.Sum(nil)`). -/
protected def key (vars : List (List Byte)) : List Byte :=
  let hash := vars.foldl (fun hash val => hash.Write val) sha256.New
  hash.Sum []

/-- The function `keyForSource`. -/
def keyForSource (source : Source) : List Byte :=
  Tracker.key [source.Url]

/-- The function `keyForModule`. -/
def keyForModule (module : Module) : List Byte :=
  Tracker.key [module.Language, module.Organization, module.Module]

/-- The function `keyForDependencyRequest`. -/
def keyForDependencyRequest (req : DependencyRequest) : List Byte :=
  keyForModule
    { Language := req.Language, Organization := req.Organization, Module := req.Module,
      XXX_unrecognized := [] }

/-- The bytes of an ASCII text. -/
def asciiBytes (s : String) : List Byte := s.data.map (fun c => byteOf c.toNat)

/-- A module record as one producer holds it. -/
def moduleA : Module :=
  { Language := asciiBytes "go", Organization := asciiBytes "github.com/deps-cloud",
    Module := asciiBytes "tracker", XXX_unrecognized := [] }

/-- The same module as another producer holds it, with further data. -/
def moduleB : Module :=
  { Language := asciiBytes "go", Organization := asciiBytes "github.com/deps-cloud",
    Module := asciiBytes "tracker", XXX_unrecognized := [byteOf 8, byteOf 1] }

/-- The row is a self-loop of the key with text `key`. -/
def Row.selfLoopAt (r : Row) (key : String) : Bool := r.k1 == key && r.k2 == key

/-- A module whose identity fields are `a`, `bc`, `d`. -/
def moduleSplit1 : Module :=
  { Language := asciiBytes "a", Organization := asciiBytes "bc", Module := asciiBytes "d",
    XXX_unrecognized := [] }

/-- A module whose identity fields are `ab`, `c`, `d`. -/
def moduleSplit2 : Module :=
  { Language := asciiBytes "ab", Organization := asciiBytes "c", Module := asciiBytes "d",
    XXX_unrecognized := [] }

/-! ## Package `services`: the dependency service -/

/-- The interface `store.GraphStoreClient`, as far as the services use it: a
call returns a response or an error of some type `E`. -/
structure GraphStoreClient (E : Type) where
  FindUpstream : FindRequest → Except E FindResponse
  FindDownstream : FindRequest → Except E FindResponse

/-- The client of a store: its two traversal methods. -/
def graphStore.client (gs : graphStore) : GraphStoreClient Error :=
  { FindUpstream := gs.FindUpstream, FindDownstream := gs.FindDownstream }

/-- The message `schema.Depends`, by its serialized content. -/
structure Depends where
  content : List Byte
  deriving DecidableEq, Repr

/-- The value of type `interface{}` that `Decode` returns: a pointer to one
of the schema messages, or `nil`. -/
inductive Decoded where
  | module (m : Module)
  | source (s : Source)
  | depends (d : Depends)
  | nil
  deriving DecidableEq, Repr

/-- The message `tracker.Dependency`. -/
structure Dependency where
  Module : Module
  Depends : Depends
  deriving DecidableEq, Repr

/-- The message `tracker.ListDependentsResponse`. -/
structure ListDependentsResponse where
  Dependents : List Dependency
  deriving DecidableEq, Repr

/-- The message `tracker.ListDependenciesResponse`. -/
structure ListDependenciesResponse where
  Dependencies : List Dependency
  deriving DecidableEq, Repr

/-- What a call of the dependency service ends in: a response with a `nil`
error, the error `api.ErrModuleNotFound` with a `nil` response, or the panic
of a failed type assertion. -/
inductive CallResult (α : Type) where
  | ok (response : α)
  | ErrModuleNotFound
  | panics
  deriving DecidableEq, Repr

/-- Modelled from the spec: the constant `types.DependsType`, whose package is
not part of the sources; the spec names the fixed edge type `depends`. -/
def DependsType : String := "depends"

/-- The struct `dependencyService`. -/
structure dependencyService (E : Type) where
  gs : GraphStoreClient E

/-- The body of the loops of `ListDependents` and `ListDependencies`:
`a, _ := Decode(pair.Node); b, _ := Decode(pair.Edge)` followed by the type
assertions `a.(*schema.Module)` and `b.(*schema.Depends)`; `none` when an
assertion panics. The function `Decode` is not part of the sources and is a
parameter. -/
def decodePair (Decode : GraphItem → Decoded × Option String) (pair : GraphItemPair) :
    Option Dependency :=
  match (Decode pair.Node).1, (Decode pair.Edge).1 with
  | .module m, .depends d => some { Module := m, Depends := d }
  | _, _ => none

/-- The loop `for i, pair := range response.GetPairs()`: one `Dependency` per
pair, in order, until an assertion panics. -/
def decodePairs (Decode : GraphItem → Decoded × Option String) :
    List GraphItemPair → Option (List Dependency)
  | [] => some []
  | pair :: rest =>
    match decodePair Decode pair with
    | none => none
    | some dep =>
      match decodePairs Decode rest with
      | none => none
      | some deps => some (dep :: deps)

/-- The method `dependencyService.ListDependents`. -/
def dependencyService.ListDependents {E : Type} (d : dependencyService E)
    (Decode : GraphItem → Decoded × Option String) (req : DependencyRequest) :
    CallResult ListDependentsResponse :=
  let key := keyForDependencyRequest req
  match d.gs.FindDownstream { Key := key, EdgeTypes := [DependsType] } with
  | .error _ => .ErrModuleNotFound
  | .ok response =>
    match decodePairs Decode response.Pairs with
    | none => .panics
    | some dependents => .ok { Dependents := dependents }

/-- The method `dependencyService.ListDependencies`. -/
def dependencyService.ListDependencies {E : Type} (d : dependencyService E)
    (Decode : GraphItem → Decoded × Option String) (req : DependencyRequest) :
    CallResult ListDependenciesResponse :=
  let key := keyForDependencyRequest req
  match d.gs.FindUpstream { Key := key, EdgeTypes := [DependsType] } with
  | .error _ => .ErrModuleNotFound
  | .ok response =>
    match decodePairs Decode response.Pairs with
    | none => .panics
    | some dependencies => .ok { Dependencies := dependencies }

/-- A decoder for the tests: items of type `node` are modules named by their
key, every other item is a dependency record. -/
def testDecode (item : GraphItem) : Decoded × Option String :=
  if item.GraphItemType = "node" then
    (.module { Language := [], Organization := [], Module := item.K1, XXX_unrecognized := [] },
      none)
  else (.depends { content := item.GraphItemData }, none)

/-- A client whose two calls fail. -/
def failingClient : GraphStoreClient String :=
  { FindUpstream := fun _ => .error "unavailable",
    FindDownstream := fun _ => .error "unavailable" }

/-- A client that answers every call with two pairs. -/
def twoPairClient : GraphStoreClient String :=
  { FindUpstream := fun _ => .ok { Pairs :=
      [{ Node := testItem "node" (testKey 2) (testKey 2) [],
         Edge := testItem "depends" (testKey 1) (testKey 2) [] },
       { Node := testItem "node" (testKey 3) (testKey 3) [],
         Edge := testItem "depends" (testKey 1) (testKey 3) [] }] },
    FindDownstream := fun _ => .ok { Pairs :=
      [{ Node := testItem "node" (testKey 4) (testKey 4) [],
         Edge := testItem "depends" (testKey 4) (testKey 1) [] }] } }

/-! ## The topology service -/

/-- Modelled from the spec: the states of one traversal (4.6): `Pending`
(request received), `Expanding` (frontier non-empty, issuing one-hop
queries), `Draining` (frontier empty, stream close pending), `Done`, and
`Failed` (a store error while expanding). The topology service itself is not
part of the sources; only its RPC surface is. -/
inductive TraversalPhase where
  | Pending
  | Expanding
  | Draining
  | Done
  | Failed
  deriving DecidableEq, Repr

/-- Modelled from the spec: the state of one traversal, local to one request:
the frontier of node keys to expand, the visited set keyed by node key, the
keys on which a one-hop query was issued so far (in order), the tiers
streamed so far (one list of newly discovered pairs per breadth-first level),
and the store error that ended the traversal, if any. -/
structure Traversal (E : Type) where
  phase : TraversalPhase
  frontier : List (List Byte)
  visited : List (List Byte)
  expanded : List (List Byte)
  tiers : List (List GraphItemPair)
  failure : Option E

/-- Modelled from the spec: the traversal of a request just received, starting
at the requested module's key; the root counts as visited. -/
def Traversal.start {E : Type} (root : List Byte) : Traversal E :=
  { phase := .Pending, frontier := [root], visited := [root], expanded := [], tiers := [],
    failure := none }

/-- Modelled from the spec: the pairs of one one-hop answer are taken in order;
a pair whose node key is already visited is dropped ("a node already emitted
is never re-expanded", "excluded from later tiers"), any other pair is
discovered: its node key joins the visited set and the pair joins the tier. -/
def discover (pairs : List GraphItemPair)
    (acc : List (List Byte) × List GraphItemPair) : List (List Byte) × List GraphItemPair :=
  pairs.foldl (fun acc p =>
    if p.Node.K1 ∈ acc.1 then acc else (acc.1 ++ [p.Node.K1], acc.2 ++ [p])) acc

/-- Modelled from the spec: one breadth-first level: a one-hop query with the
edge type `depends` is issued for every key of the frontier, in order; a store
error ends the level with that error. The result is the visited set, the keys
queried and the pairs discovered. -/
def expandLevel {E : Type} (find : FindRequest → Except E FindResponse) :
    List (List Byte) → List (List Byte) × List (List Byte) × List GraphItemPair →
      Except E (List (List Byte) × List (List Byte) × List GraphItemPair)
  | [], acc => .ok acc
  | k :: rest, (visited, expanded, found) =>
    match find { Key := k, EdgeTypes := [DependsType] } with
    | .error e => .error e
    | .ok response =>
      let d := discover response.Pairs (visited, found)
      expandLevel find rest (d.1, expanded ++ [k], d.2)

/-- Modelled from the spec: one transition of the state machine of a
traversal. `Expanding` expands the whole frontier by one hop, streams the
discovered pairs as the next tier, and goes on with their nodes as the new
frontier, or to `Draining` when nothing new was discovered; a store error
leads to `Failed` and no further hop; `Done` and `Failed` are final. -/
def Traversal.step {E : Type} (find : FindRequest → Except E FindResponse)
    (t : Traversal E) : Traversal E :=
  match t.phase with
  | .Pending => { t with phase := if t.frontier = [] then .Draining else .Expanding }
  | .Expanding =>
    match expandLevel find t.frontier (t.visited, t.expanded, []) with
    | .error e => { t with phase := .Failed, frontier := [], failure := some e }
    | .ok (visited, expanded, found) =>
      { phase := if found = [] then .Draining else .Expanding,
        frontier := found.map (fun p => p.Node.K1),
        visited := visited,
        expanded := expanded,
        tiers := if found = [] then t.tiers else t.tiers ++ [found],
        failure := none }
  | .Draining => { t with phase := .Done }
  | .Done => t
  | .Failed => t

/-- Modelled from the spec: the traversal after `n` transitions. -/
def Traversal.run {E : Type} (find : FindRequest → Except E FindResponse) :
    Nat → Traversal E → Traversal E
  | 0, t => t
  | n + 1, t => Traversal.run find n (Traversal.step find t)

/-- Modelled from the spec: the traversal behind `GetDependenciesTopology` and
`GetDependenciesTopologyTiered`, after `n` transitions: it follows
`FindUpstream` from the key of the requested module. -/
def dependenciesTraversal {E : Type} (gs : GraphStoreClient E) (req : DependencyRequest)
    (n : Nat) : Traversal E :=
  Traversal.run gs.FindUpstream n (Traversal.start (keyForDependencyRequest req))

/-- Modelled from the spec: the traversal behind `GetDependentsTopology` and
`GetDependentsTopologyTiered`: it follows `FindDownstream`. -/
def dependentsTraversal {E : Type} (gs : GraphStoreClient E) (req : DependencyRequest)
    (n : Nat) : Traversal E :=
  Traversal.run gs.FindDownstream n (Traversal.start (keyForDependencyRequest req))

/-- Modelled from the spec: `GetDependenciesTopology` (flat): the state reached
and the pairs streamed so far, one by one in order of discovery. -/
def GetDependenciesTopology {E : Type} (gs : GraphStoreClient E) (req : DependencyRequest)
    (n : Nat) : TraversalPhase × List GraphItemPair :=
  ((dependenciesTraversal gs req n).phase, (dependenciesTraversal gs req n).tiers.flatten)

/-- Modelled from the spec: `GetDependenciesTopologyTiered`: the state reached
and the tiers streamed so far; tier 0 holds the direct neighbours of the
root. -/
def GetDependenciesTopologyTiered {E : Type} (gs : GraphStoreClient E)
    (req : DependencyRequest) (n : Nat) : TraversalPhase × List (List GraphItemPair) :=
  ((dependenciesTraversal gs req n).phase, (dependenciesTraversal gs req n).tiers)

/-- Modelled from the spec: `GetDependentsTopology` (flat). -/
def GetDependentsTopology {E : Type} (gs : GraphStoreClient E) (req : DependencyRequest)
    (n : Nat) : TraversalPhase × List GraphItemPair :=
  ((dependentsTraversal gs req n).phase, (dependentsTraversal gs req n).tiers.flatten)

/-- Modelled from the spec: `GetDependentsTopologyTiered`. -/
def GetDependentsTopologyTiered {E : Type} (gs : GraphStoreClient E)
    (req : DependencyRequest) (n : Nat) : TraversalPhase × List (List GraphItemPair) :=
  ((dependentsTraversal gs req n).phase, (dependentsTraversal gs req n).tiers)

/-- A request for the topology of a module. -/
def testRequest : DependencyRequest :=
  { Language := asciiBytes "go", Organization := asciiBytes "github.com/deps-cloud",
    Module := asciiBytes "tracker" }

/-- The row of a node with key `k`. -/
def topologyNode (k : List Byte) : Row := (testItem "node" k k []).row 1

/-- The row of a `depends` edge from `a` to `b`. -/
def topologyEdge (a b : List Byte) : Row := (testItem DependsType a b []).row 1

/-- A store holding the cycle `a -> b -> a`. -/
def cycleStore (a b : List Byte) : graphStore :=
  { rwdb := true,
    dts_graphdata := [topologyNode a, topologyNode b, topologyEdge a b, topologyEdge b a] }

/-- A store holding `a -> b`, `a -> c`, `b -> d` and `c -> d`. -/
def diamondStore (a b c d : List Byte) : graphStore :=
  { rwdb := true,
    dts_graphdata := [topologyNode a, topologyNode b, topologyNode c, topologyNode d,
      topologyEdge a b, topologyEdge a c, topologyEdge b d, topologyEdge c d] }

/-- A store holding `a -> b`, `a -> c` and `b -> d`. -/
def forkStore (a b c d : List Byte) : graphStore :=
  { rwdb := true,
    dts_graphdata := [topologyNode a, topologyNode b, topologyNode c, topologyNode d,
      topologyEdge a b, topologyEdge a c, topologyEdge b d] }

/-! ## The key codec is lossless -/

theorem b64Value_b64Char (n : Nat) (h : n < 64) : b64Value (b64Char n) = some n := by
  interval_cases n <;> rfl

theorem b64Char_ne_pad (n : Nat) : b64Char n ≠ '=' := by
  by_cases h : n < 64
  · interval_cases n <;> decide
  · have h1 : b64Char n = '/' := by
      unfold b64Char
      rw [if_neg (by omega), if_neg (by omega), if_neg (by omega), if_neg (by omega)]
    rw [h1]; decide

theorem byteOf_val (b : Byte) : byteOf b.val = b := by
  apply Fin.ext
  simp [byteOf, Nat.mod_eq_of_lt b.isLt]

theorem decodeGroups_encodeGroups (key : List Byte) :
    decodeGroups (encodeGroups key) = (key, true) := by
  induction key using encodeGroups.induct with
  | case1 b0 b1 b2 rest ih =>
    have h0 := b0.isLt
    have h1 := b1.isLt
    have h2 := b2.isLt
    simp only [encodeGroups, decodeGroups]
    rw [b64Value_b64Char _ (Nat.mod_lt _ (by decide)), b64Value_b64Char _ (Nat.mod_lt _ (by decide))]
    simp only [b64Char_ne_pad, if_false]
    rw [b64Value_b64Char _ (Nat.mod_lt _ (by decide))]
    simp only [b64Char_ne_pad, if_false]
    rw [b64Value_b64Char _ (Nat.mod_lt _ (by decide))]
    simp only [ih, Prod.mk.injEq, List.cons.injEq, and_true]
    refine ⟨?_, ?_, ?_⟩ <;> (apply Fin.ext; simp only [byteOf]; omega)
  | case2 b0 b1 =>
    have h0 := b0.isLt
    have h1 := b1.isLt
    simp only [encodeGroups, decodeGroups]
    rw [b64Value_b64Char _ (Nat.mod_lt _ (by decide)), b64Value_b64Char _ (Nat.mod_lt _ (by decide))]
    simp only [b64Char_ne_pad, if_false]
    rw [b64Value_b64Char _ (Nat.mod_lt _ (by decide))]
    simp only [if_true, Prod.mk.injEq, List.cons.injEq, and_true]
    refine ⟨?_, ?_⟩ <;> (apply Fin.ext; simp only [byteOf]; omega)
  | case3 b0 =>
    have h0 := b0.isLt
    simp only [encodeGroups, decodeGroups]
    rw [b64Value_b64Char _ (Nat.mod_lt _ (by decide)), b64Value_b64Char _ (Nat.mod_lt _ (by decide))]
    simp only [and_self, if_true, Prod.mk.injEq, List.cons.injEq, and_true]
    apply Fin.ext; simp only [byteOf]; omega
  | case4 => rfl

/-- Decoding the text of a key gives the key back, without error. -/
theorem Base64decode_Base64encode (key : List Byte) :
    Base64decode (Base64encode key) = (key, true) := by
  simp only [Base64decode, Base64encode, decodeGroups_encodeGroups]

/-- Distinct keys have distinct texts. -/
theorem Base64encode_injective : Function.Injective Base64encode := by
  intro a b h
  have h2 := congrArg Base64decode h
  simp only [Base64decode_Base64encode, Prod.mk.injEq, and_true] at h2
  exact h2

theorem Base64encode_inj {a b : List Byte} : Base64encode a = Base64encode b ↔ a = b :=
  Base64encode_injective.eq_iff

/-! ## Membership in the results of the statements -/

theorem contains_iff_mem {l : List String} {a : String} : l.contains a = true ↔ a ∈ l := by
  simp

theorem mem_selectUpstream {table : List Row} {key : String} {edgeTypes : List String}
    {c : Columns × Columns} :
    c ∈ selectGraphDataUpstreamDependencies table key edgeTypes ↔
      ∃ g1 ∈ table, ∃ g2 ∈ table, g1.k1 = g2.k2 ∧ g2.k1 = key ∧
        g2.graph_item_type ∈ edgeTypes ∧ g2.k1 ≠ g2.k2 ∧ g2.date_deleted = none ∧
        g1.k1 = g1.k2 ∧ g1.date_deleted = none ∧ c = (g1.columns, g2.columns) := by
  simp only [selectGraphDataUpstreamDependencies, List.mem_flatMap, List.mem_map,
    List.mem_filter, Bool.and_eq_true, beq_iff_eq, bne_iff_ne, contains_iff_mem,
    Option.isNone_iff_eq_none]
  constructor
  · rintro ⟨g1, h1, g2, ⟨h2, ⟨⟨⟨⟨⟨⟨a, b⟩, c1⟩, d⟩, e⟩, f⟩, g⟩⟩, rfl⟩
    exact ⟨g1, h1, g2, h2, a, b, c1, d, e, f, g, rfl⟩
  · rintro ⟨g1, h1, g2, h2, a, b, c1, d, e, f, g, rfl⟩
    exact ⟨g1, h1, g2, ⟨h2, ⟨⟨⟨⟨⟨⟨a, b⟩, c1⟩, d⟩, e⟩, f⟩, g⟩⟩, rfl⟩

theorem mem_selectDownstream {table : List Row} {key : String} {edgeTypes : List String}
    {c : Columns × Columns} :
    c ∈ selectGraphDataDownstreamDependencies table key edgeTypes ↔
      ∃ g1 ∈ table, ∃ g2 ∈ table, g1.k2 = g2.k1 ∧ g2.k2 = key ∧
        g2.graph_item_type ∈ edgeTypes ∧ g2.k1 ≠ g2.k2 ∧ g2.date_deleted = none ∧
        g1.k1 = g1.k2 ∧ g1.date_deleted = none ∧ c = (g1.columns, g2.columns) := by
  simp only [selectGraphDataDownstreamDependencies, List.mem_flatMap, List.mem_map,
    List.mem_filter, Bool.and_eq_true, beq_iff_eq, bne_iff_ne, contains_iff_mem,
    Option.isNone_iff_eq_none]
  constructor
  · rintro ⟨g1, h1, g2, ⟨h2, ⟨⟨⟨⟨⟨⟨a, b⟩, c1⟩, d⟩, e⟩, f⟩, g⟩⟩, rfl⟩
    exact ⟨g1, h1, g2, h2, a, b, c1, d, e, f, g, rfl⟩
  · rintro ⟨g1, h1, g2, h2, a, b, c1, d, e, f, g, rfl⟩
    exact ⟨g1, h1, g2, ⟨h2, ⟨⟨⟨⟨⟨⟨a, b⟩, c1⟩, d⟩, e⟩, f⟩, g⟩⟩, rfl⟩

/-- The pairs `FindUpstream` returns, as a list. -/
theorem findUpstream_eq (gs : graphStore) (req : FindRequest) :
    gs.FindUpstream req = .ok ⟨readGraphItemPairs
      (selectGraphDataUpstreamDependencies gs.dts_graphdata (Base64encode req.Key)
        req.EdgeTypes)⟩ := rfl

/-- The pairs `FindDownstream` returns, as a list. -/
theorem findDownstream_eq (gs : graphStore) (req : FindRequest) :
    gs.FindDownstream req = .ok ⟨readGraphItemPairs
      (selectGraphDataDownstreamDependencies gs.dts_graphdata (Base64encode req.Key)
        req.EdgeTypes)⟩ := rfl

/-- A pair is read from the upstream statement exactly when it is the pair of a
live self-loop row and a live edge row out of `key` into that row's key. -/
theorem mem_upstreamPairs {table : List Row} {key : String} {edgeTypes : List String}
    {p : GraphItemPair} :
    p ∈ readGraphItemPairs (selectGraphDataUpstreamDependencies table key edgeTypes) ↔
      ∃ node ∈ table, ∃ edge ∈ table,
        edge.live ∧ edge.graph_item_type ∈ edgeTypes ∧ edge.k1 = key ∧ edge.k1 ≠ edge.k2 ∧
        node.live ∧ node.k1 = node.k2 ∧ node.k1 = edge.k2 ∧
        p = { Node := node.item, Edge := edge.item } := by
  simp only [readGraphItemPairs, List.mem_map, mem_selectUpstream, Row.live, Row.item]
  constructor
  · rintro ⟨c, ⟨g1, h1, g2, h2, a, b, c1, d, e, f, g, rfl⟩, rfl⟩
    exact ⟨g1, h1, g2, h2, e, c1, b, d, g, f, a, rfl⟩
  · rintro ⟨g1, h1, g2, h2, e, c1, b, d, g, f, a, rfl⟩
    exact ⟨_, ⟨g1, h1, g2, h2, a, b, c1, d, e, f, g, rfl⟩, rfl⟩

/-- A pair is read from the downstream statement exactly when it is the pair of
a live self-loop row and a live edge row into `key` out of that row's key. -/
theorem mem_downstreamPairs {table : List Row} {key : String} {edgeTypes : List String}
    {p : GraphItemPair} :
    p ∈ readGraphItemPairs (selectGraphDataDownstreamDependencies table key edgeTypes) ↔
      ∃ node ∈ table, ∃ edge ∈ table,
        edge.live ∧ edge.graph_item_type ∈ edgeTypes ∧ edge.k2 = key ∧ edge.k1 ≠ edge.k2 ∧
        node.live ∧ node.k1 = node.k2 ∧ node.k1 = edge.k1 ∧
        p = { Node := node.item, Edge := edge.item } := by
  simp only [readGraphItemPairs, List.mem_map, mem_selectDownstream, Row.live, Row.item]
  constructor
  · rintro ⟨c, ⟨g1, h1, g2, h2, a, b, c1, d, e, f, g, rfl⟩, rfl⟩
    exact ⟨g1, h1, g2, h2, e, c1, b, d, g, f, f.trans a, rfl⟩
  · rintro ⟨g1, h1, g2, h2, e, c1, b, d, g, f, a, rfl⟩
    exact ⟨_, ⟨g1, h1, g2, h2, f.symm.trans a, b, c1, d, e, f, g, rfl⟩, rfl⟩

/-! ## One-hop traversal -/

/-- C1: for every store state, key and edge-type list, `FindUpstream` succeeds
and a pair is in its result exactly when it is read from a node row and an
edge row of the table such that the edge row is live, has its type among the
edge types, has `k1` equal to (the text of) the key and `k1 != k2`, and the
node row is a live self-loop whose key equals the edge row's `k2`. -/
theorem C1_findUpstream_exact (gs : graphStore) (key : List Byte) (edgeTypes : List String) :
    ∃ pairs, gs.FindUpstream { Key := key, EdgeTypes := edgeTypes } = .ok { Pairs := pairs } ∧
      ∀ p, p ∈ pairs ↔
        ∃ node ∈ gs.dts_graphdata, ∃ edge ∈ gs.dts_graphdata,
          edge.live ∧ edge.graph_item_type ∈ edgeTypes ∧ edge.k1 = Base64encode key ∧
          edge.k1 ≠ edge.k2 ∧ node.live ∧ node.k1 = node.k2 ∧ node.k1 = edge.k2 ∧
          p = { Node := node.item, Edge := edge.item } :=
  ⟨_, findUpstream_eq gs _, fun _ => mem_upstreamPairs⟩

/-- C2: for every store state, key and edge-type list, `FindDownstream` succeeds
and a pair is in its result exactly when it is read from a node row and an
edge row of the table such that the edge row is live, has its type among the
edge types, has `k2` equal to (the text of) the key and `k1 != k2`, and the
node row is a live self-loop whose key equals the edge row's `k1`. -/
theorem C2_findDownstream_exact (gs : graphStore) (key : List Byte) (edgeTypes : List String) :
    ∃ pairs, gs.FindDownstream { Key := key, EdgeTypes := edgeTypes } = .ok { Pairs := pairs } ∧
      ∀ p, p ∈ pairs ↔
        ∃ node ∈ gs.dts_graphdata, ∃ edge ∈ gs.dts_graphdata,
          edge.live ∧ edge.graph_item_type ∈ edgeTypes ∧ edge.k2 = Base64encode key ∧
          edge.k1 ≠ edge.k2 ∧ node.live ∧ node.k1 = node.k2 ∧ node.k1 = edge.k1 ∧
          p = { Node := node.item, Edge := edge.item } :=
  ⟨_, findDownstream_eq gs _, fun _ => mem_downstreamPairs⟩

theorem item_K1_eq {r : Row} (h : r.keysEncoded) {a : List Byte} (ha : r.item.K1 = a) :
    r.k1 = Base64encode a := by
  rw [← ha]; exact h.1.symm

theorem item_K2_eq {r : Row} (h : r.keysEncoded) {a : List Byte} (ha : r.item.K2 = a) :
    r.k2 = Base64encode a := by
  rw [← ha]; exact h.2.symm

/-- C6: for every store state, key and edge-type list, every pair returned by
`FindUpstream` or `FindDownstream` is read from a node row and an edge row
that are both live; and when every self-loop row of a key is tombstoned, no
pair of `FindUpstream` has an edge into that key and no pair of
`FindDownstream` has an edge out of it (stated on the returned keys, for a
store whose key columns hold encoded keys). -/
theorem C6_traversal_excludes_tombstones (gs : graphStore) (key : List Byte)
    (edgeTypes : List String) :
    ∃ up down,
      gs.FindUpstream { Key := key, EdgeTypes := edgeTypes } = .ok { Pairs := up } ∧
      gs.FindDownstream { Key := key, EdgeTypes := edgeTypes } = .ok { Pairs := down } ∧
      (∀ p ∈ up, ∃ node ∈ gs.dts_graphdata, ∃ edge ∈ gs.dts_graphdata,
        node.live ∧ edge.live ∧ p = { Node := node.item, Edge := edge.item }) ∧
      (∀ p ∈ down, ∃ node ∈ gs.dts_graphdata, ∃ edge ∈ gs.dts_graphdata,
        node.live ∧ edge.live ∧ p = { Node := node.item, Edge := edge.item }) ∧
      (gs.keysEncoded → ∀ target : List Byte,
        (∀ node ∈ gs.dts_graphdata, node.k1 = Base64encode target →
          node.k2 = Base64encode target → ¬ node.live) →
        ∀ p ∈ up, p.Edge.K2 ≠ target) ∧
      (gs.keysEncoded → ∀ source : List Byte,
        (∀ node ∈ gs.dts_graphdata, node.k1 = Base64encode source →
          node.k2 = Base64encode source → ¬ node.live) →
        ∀ p ∈ down, p.Edge.K1 ≠ source) := by
  refine ⟨_, _, findUpstream_eq gs _, findDownstream_eq gs _, ?_, ?_, ?_, ?_⟩
  · intro p hp
    obtain ⟨node, hn, edge, he, hel, -, -, -, hnl, -, -, rfl⟩ := mem_upstreamPairs.mp hp
    exact ⟨node, hn, edge, he, hnl, hel, rfl⟩
  · intro p hp
    obtain ⟨node, hn, edge, he, hel, -, -, -, hnl, -, -, rfl⟩ := mem_downstreamPairs.mp hp
    exact ⟨node, hn, edge, he, hnl, hel, rfl⟩
  · intro henc target hdel p hp hK
    obtain ⟨node, hn, edge, he, -, -, -, -, hnl, hself, hjoin, rfl⟩ := mem_upstreamPairs.mp hp
    have h2 : edge.k2 = Base64encode target := item_K2_eq (henc edge he) hK
    exact hdel node hn (hjoin.trans h2) ((hself.symm.trans hjoin).trans h2) hnl
  · intro henc source hdel p hp hK
    obtain ⟨node, hn, edge, he, -, -, -, -, hnl, hself, hjoin, rfl⟩ := mem_downstreamPairs.mp hp
    have h1 : edge.k1 = Base64encode source := item_K1_eq (henc edge he) hK
    exact hdel node hn (hjoin.trans h1) ((hself.symm.trans hjoin).trans h1) hnl

/-- C6 at the test store after deleting node `3003`: the live edge `2002 -> 3003`
yields no pair. -/
theorem C6_traversal_excludes_tombstones_witness :
    ∃ up, testStoreNodeDeleted.FindUpstream { Key := testKey 2, EdgeTypes := ["edge"] } =
        .ok { Pairs := up } ∧ ∀ p ∈ up, p.Edge.K2 ≠ testKey 3 := by
  obtain ⟨up, down, h1, -, -, -, h3, -⟩ :=
    C6_traversal_excludes_tombstones testStoreNodeDeleted (testKey 2) ["edge"]
  exact ⟨up, h1, h3 (by decide) (testKey 3) (by decide)⟩

/-! ## The statements read only live rows, in any table order -/

theorem flatMap_filter_eq {α β : Type} (p : α → Bool) (f : α → List β) (l : List α) :
    (l.filter p).flatMap f = l.flatMap (fun x => if p x then f x else []) := by
  induction l with
  | nil => rfl
  | cons x xs ih =>
    by_cases hx : p x = true
    · simp [List.filter_cons, hx, ih]
    · simp [List.filter_cons, hx, ih]

theorem selectUpstream_live (table : List Row) (key : String) (edgeTypes : List String) :
    selectGraphDataUpstreamDependencies (table.filter (fun r => decide r.live)) key edgeTypes =
      selectGraphDataUpstreamDependencies table key edgeTypes := by
  unfold selectGraphDataUpstreamDependencies
  rw [flatMap_filter_eq]
  apply List.flatMap_congr
  intro g1 _
  rw [List.filter_filter]
  by_cases h1 : g1.date_deleted = none
  · simp only [Row.live, h1, decide_True, if_true]
    congr 1
    apply List.filter_congr
    intro g2 _
    by_cases h2 : g2.date_deleted = none <;> simp [h2]
  · have hf : ∀ l : List Row, l.filter (fun g2 =>
        g1.k1 == g2.k2 && g2.k1 == key && edgeTypes.contains g2.graph_item_type &&
          g2.k1 != g2.k2 && g2.date_deleted.isNone && g1.k1 == g1.k2 &&
          g1.date_deleted.isNone) = [] := by
      intro l
      rw [List.filter_eq_nil_iff]
      intro a _
      simp [h1]
    simp only [Row.live, h1, decide_False, hf, List.map_nil]
    simp

theorem selectDownstream_live (table : List Row) (key : String) (edgeTypes : List String) :
    selectGraphDataDownstreamDependencies (table.filter (fun r => decide r.live)) key edgeTypes =
      selectGraphDataDownstreamDependencies table key edgeTypes := by
  unfold selectGraphDataDownstreamDependencies
  rw [flatMap_filter_eq]
  apply List.flatMap_congr
  intro g1 _
  rw [List.filter_filter]
  by_cases h1 : g1.date_deleted = none
  · simp only [Row.live, h1, decide_True, if_true]
    congr 1
    apply List.filter_congr
    intro g2 _
    by_cases h2 : g2.date_deleted = none <;> simp [h2]
  · have hf : ∀ l : List Row, l.filter (fun g2 =>
        g1.k2 == g2.k1 && g2.k2 == key && edgeTypes.contains g2.graph_item_type &&
          g2.k1 != g2.k2 && g2.date_deleted.isNone && g1.k1 == g1.k2 &&
          g1.date_deleted.isNone) = [] := by
      intro l
      rw [List.filter_eq_nil_iff]
      intro a _
      simp [h1]
    simp only [Row.live, h1, decide_False, hf, List.map_nil]
    simp

theorem selectUpstream_perm {t1 t2 : List Row} (h : t1.Perm t2) (key : String)
    (edgeTypes : List String) :
    (selectGraphDataUpstreamDependencies t1 key edgeTypes).Perm
      (selectGraphDataUpstreamDependencies t2 key edgeTypes) := by
  unfold selectGraphDataUpstreamDependencies
  refine (List.Perm.flatMap_left t1 ?_).trans (List.Perm.flatMap_right _ h)
  intro g1 _
  exact (h.filter _).map _

theorem selectDownstream_perm {t1 t2 : List Row} (h : t1.Perm t2) (key : String)
    (edgeTypes : List String) :
    (selectGraphDataDownstreamDependencies t1 key edgeTypes).Perm
      (selectGraphDataDownstreamDependencies t2 key edgeTypes) := by
  unfold selectGraphDataDownstreamDependencies
  refine (List.Perm.flatMap_left t1 ?_).trans (List.Perm.flatMap_right _ h)
  intro g1 _
  exact (h.filter _).map _

/-- When the live rows of the table are, in some order, the rows `rows`, the
upstream statement returns what it returns on `rows`, in some order. -/
theorem selectUpstream_of_live_perm {table rows : List Row}
    (h : (table.filter (fun r => decide r.live)).Perm rows) (key : String)
    (edgeTypes : List String) :
    (selectGraphDataUpstreamDependencies table key edgeTypes).Perm
      (selectGraphDataUpstreamDependencies rows key edgeTypes) := by
  rw [← selectUpstream_live table]
  exact selectUpstream_perm h key edgeTypes

theorem selectDownstream_of_live_perm {table rows : List Row}
    (h : (table.filter (fun r => decide r.live)).Perm rows) (key : String)
    (edgeTypes : List String) :
    (selectGraphDataDownstreamDependencies table key edgeTypes).Perm
      (selectGraphDataDownstreamDependencies rows key edgeTypes) := by
  rw [← selectDownstream_live table]
  exact selectDownstream_perm h key edgeTypes

/-- C3: in every store whose live rows are the self-loops of three distinct
keys `A`, `B`, `C` and the two edges `A -> B` and `B -> C` of type `T`,
`FindUpstream(A, [T])` returns exactly one pair, node `B` with edge `A -> B`;
`FindDownstream(C, [T])` returns exactly one pair, node `B` with edge
`B -> C`; `FindUpstream(C, [T])` and `FindDownstream(A, [T])` return no pair;
and the returned nodes and edges carry the keys they were put with. -/
theorem C3_traversal_directionality (gs : graphStore) (A B C : List Byte) (T : String)
    (nA nB nC eAB eBC : Row)
    (hAB : A ≠ B) (hBC : B ≠ C) (hAC : A ≠ C)
    (hnA : nA.k1 = Base64encode A ∧ nA.k2 = Base64encode A)
    (hnB : nB.k1 = Base64encode B ∧ nB.k2 = Base64encode B)
    (hnC : nC.k1 = Base64encode C ∧ nC.k2 = Base64encode C)
    (heAB : eAB.graph_item_type = T ∧ eAB.k1 = Base64encode A ∧ eAB.k2 = Base64encode B)
    (heBC : eBC.graph_item_type = T ∧ eBC.k1 = Base64encode B ∧ eBC.k2 = Base64encode C)
    (hlive : (gs.dts_graphdata.filter (fun r => decide r.live)).Perm [nA, nB, nC, eAB, eBC]) :
    gs.FindUpstream { Key := A, EdgeTypes := [T] } =
        .ok { Pairs := [{ Node := nB.item, Edge := eAB.item }] } ∧
      gs.FindDownstream { Key := C, EdgeTypes := [T] } =
        .ok { Pairs := [{ Node := nB.item, Edge := eBC.item }] } ∧
      gs.FindUpstream { Key := C, EdgeTypes := [T] } = .ok { Pairs := [] } ∧
      gs.FindDownstream { Key := A, EdgeTypes := [T] } = .ok { Pairs := [] } ∧
      nB.item.K1 = B ∧ eAB.item.K1 = A ∧ eAB.item.K2 = B ∧
      eBC.item.K1 = B ∧ eBC.item.K2 = C := by
  obtain ⟨a1, a2⟩ := hnA
  obtain ⟨b1, b2⟩ := hnB
  obtain ⟨c1, c2⟩ := hnC
  obtain ⟨x0, x1, x2⟩ := heAB
  obtain ⟨y0, y1, y2⟩ := heBC
  have hmem : ∀ r ∈ [nA, nB, nC, eAB, eBC], r.date_deleted = none := by
    intro r hr
    have := (List.mem_filter.mp (hlive.mem_iff.mpr hr)).2
    simpa [Row.live] using this
  have lA := hmem nA (by simp)
  have lB := hmem nB (by simp)
  have lC := hmem nC (by simp)
  have lAB := hmem eAB (by simp)
  have lBC := hmem eBC (by simp)
  have hBA : B ≠ A := fun h => hAB h.symm
  have hCB : C ≠ B := fun h => hBC h.symm
  have hCA : C ≠ A := fun h => hAC h.symm
  have u1 : selectGraphDataUpstreamDependencies [nA, nB, nC, eAB, eBC] (Base64encode A) [T] =
      [(nB.columns, eAB.columns)] := by
    simp [selectGraphDataUpstreamDependencies, List.filter_cons, a1, a2, b1, b2, c1, c2, x0, x1,
      x2, y0, y1, y2, lA, lB, lC, lAB, lBC, Base64encode_inj, hAB, hBC, hAC, hBA, hCB, hCA]
  have d1 : selectGraphDataDownstreamDependencies [nA, nB, nC, eAB, eBC] (Base64encode C) [T] =
      [(nB.columns, eBC.columns)] := by
    simp [selectGraphDataDownstreamDependencies, List.filter_cons, a1, a2, b1, b2, c1, c2, x0, x1,
      x2, y0, y1, y2, lA, lB, lC, lAB, lBC, Base64encode_inj, hAB, hBC, hAC, hBA, hCB, hCA]
  have u2 : selectGraphDataUpstreamDependencies [nA, nB, nC, eAB, eBC] (Base64encode C) [T] =
      [] := by
    simp [selectGraphDataUpstreamDependencies, List.filter_cons, a1, a2, b1, b2, c1, c2, x0, x1,
      x2, y0, y1, y2, lA, lB, lC, lAB, lBC, Base64encode_inj, hAB, hBC, hAC, hBA, hCB, hCA]
  have d2 : selectGraphDataDownstreamDependencies [nA, nB, nC, eAB, eBC] (Base64encode A) [T] =
      [] := by
    simp [selectGraphDataDownstreamDependencies, List.filter_cons, a1, a2, b1, b2, c1, c2, x0, x1,
      x2, y0, y1, y2, lA, lB, lC, lAB, lBC, Base64encode_inj, hAB, hBC, hAC, hBA, hCB, hCA]
  have U1 := (selectUpstream_of_live_perm hlive (Base64encode A) [T])
  have D1 := (selectDownstream_of_live_perm hlive (Base64encode C) [T])
  have U2 := (selectUpstream_of_live_perm hlive (Base64encode C) [T])
  have D2 := (selectDownstream_of_live_perm hlive (Base64encode A) [T])
  rw [u1] at U1
  rw [d1] at D1
  rw [u2] at U2
  rw [d2] at D2
  refine ⟨?_, ?_, ?_, ?_, ?_, ?_, ?_, ?_, ?_⟩
  · rw [findUpstream_eq, U1.eq_singleton]; rfl
  · rw [findDownstream_eq, D1.eq_singleton]; rfl
  · rw [findUpstream_eq, U2.eq_nil]; rfl
  · rw [findDownstream_eq, D2.eq_nil]; rfl
  · simp [Row.item, scanGraphItem, Row.columns, b1, Base64decode_Base64encode]
  · simp [Row.item, scanGraphItem, Row.columns, x1, Base64decode_Base64encode]
  · simp [Row.item, scanGraphItem, Row.columns, x2, Base64decode_Base64encode]
  · simp [Row.item, scanGraphItem, Row.columns, y1, Base64decode_Base64encode]
  · simp [Row.item, scanGraphItem, Row.columns, y2, Base64decode_Base64encode]

/-- C3 at the chain `1001 -> 2002 -> 3003` put into an empty store. -/
theorem C3_traversal_directionality_witness :
    chainStore.FindUpstream { Key := testKey 1, EdgeTypes := ["edge"] } =
        .ok { Pairs := [{ Node := testItem "node" (testKey 2) (testKey 2) [],
                          Edge := testItem "edge" (testKey 1) (testKey 2) [] }] } ∧
      chainStore.FindDownstream { Key := testKey 3, EdgeTypes := ["edge"] } =
        .ok { Pairs := [{ Node := testItem "node" (testKey 2) (testKey 2) [],
                          Edge := testItem "edge" (testKey 2) (testKey 3) [] }] } ∧
      chainStore.FindUpstream { Key := testKey 3, EdgeTypes := ["edge"] } = .ok { Pairs := [] } ∧
      chainStore.FindDownstream { Key := testKey 1, EdgeTypes := ["edge"] } =
        .ok { Pairs := [] } := by
  have h := C3_traversal_directionality chainStore (testKey 1) (testKey 2) (testKey 3) "edge"
    ((testItem "node" (testKey 1) (testKey 1) []).row 1)
    ((testItem "node" (testKey 2) (testKey 2) []).row 1)
    ((testItem "node" (testKey 3) (testKey 3) []).row 1)
    ((testItem "edge" (testKey 1) (testKey 2) []).row 1)
    ((testItem "edge" (testKey 2) (testKey 3) []).row 1)
    (by decide) (by decide) (by decide) (by decide) (by decide) (by decide) (by decide)
    (by decide) (List.Perm.of_eq (by decide))
  exact ⟨h.1, h.2.1, h.2.2.1, h.2.2.2.1⟩

/-- C4, evaluated: after `Put` of two edges `3003 -> 5005` with distinct `K3`
(and their nodes) the table holds one edge row; `List` returns one edge and
`FindUpstream(3003)` and `FindDownstream(5005)` return one pair each, whose
edge has an empty `K3`. -/
theorem C4_multi_edge_collapses :
    multiEdgeStore.List { Page := 1, Count := 10, Type_ := "edge" } =
        .ok { Items := [testItem "edge" (testKey 3) (testKey 5) []] } ∧
      multiEdgeStore.FindUpstream { Key := testKey 3, EdgeTypes := ["edge"] } =
        .ok { Pairs := [{ Node := testItem "node" (testKey 5) (testKey 5) [],
                          Edge := testItem "edge" (testKey 3) (testKey 5) [] }] } ∧
      multiEdgeStore.FindDownstream { Key := testKey 5, EdgeTypes := ["edge"] } =
        .ok { Pairs := [{ Node := testItem "node" (testKey 3) (testKey 3) [],
                          Edge := testItem "edge" (testKey 3) (testKey 5) [] }] } ∧
      (testStore.List { Page := 1, Count := 10, Type_ := "edge" }).toOption.map
        (fun r => r.Items.length) = some 5 := by
  decide

/-- C5, evaluated: a node that was put and then deleted has its row tombstoned
and is still returned by `List`. -/
theorem C5_list_returns_tombstoned :
    deletedNodeStore.dts_graphdata =
        [{ (testItem "node" (testKey 1) (testKey 1) []).row 1 with date_deleted := some 2 }] ∧
      deletedNodeStore.List { Page := 1, Count := 10, Type_ := "node" } =
        .ok { Items := [testItem "node" (testKey 1) (testKey 1) []] } := by
  decide

/-! ## The write loop -/

theorem execEach_errors {α : Type} (fault : Nat → Bool) (stmt : List Row → α → List Row) :
    ∀ (items : List α) (i : Nat) (table : List Row) (errors : List Error),
      ∃ more, (execEach fault stmt i items table errors).2 = errors ++ more := by
  intro items
  induction items with
  | nil => intro i table errors; exact ⟨[], by simp [execEach]⟩
  | cons x xs ih =>
    intro i table errors
    by_cases hf : fault i = true
    · obtain ⟨more, hm⟩ := ih (i + 1) table (errors ++ [Error.driver i])
      exact ⟨Error.driver i :: more, by simp [execEach, hf, hm]⟩
    · obtain ⟨more, hm⟩ := ih (i + 1) (stmt table x) errors
      exact ⟨more, by simp [execEach, hf, hm]⟩

/-- When the loop collects no error, every statement was executed, in order. -/
theorem execEach_ok {α : Type} (fault : Nat → Bool) (stmt : List Row → α → List Row) :
    ∀ (items : List α) (i : Nat) (table : List Row) (errors : List Error),
      (execEach fault stmt i items table errors).2 = [] →
        (execEach fault stmt i items table errors).1 = items.foldl stmt table := by
  intro items
  induction items with
  | nil => intro i table errors _; simp [execEach]
  | cons x xs ih =>
    intro i table errors h
    by_cases hf : fault i = true
    · exfalso
      obtain ⟨more, hm⟩ := execEach_errors fault stmt xs (i + 1) table (errors ++ [Error.driver i])
      simp only [execEach, hf, if_true] at h
      rw [h] at hm
      simp at hm
    · simp only [execEach, hf] at h ⊢
      simpa using ih (i + 1) (stmt table x) errors h

/-- The table after a `Put` that returned no error. -/
theorem put_ok_table {gs : graphStore} {fault : Nat → Bool} {timestamp : Nat} {req : PutRequest}
    (hok : (gs.Put fault timestamp req).2 = .ok {}) :
    (gs.Put fault timestamp req).1.dts_graphdata =
      req.Items.foldl (execInsert timestamp) gs.dts_graphdata := by
  unfold graphStore.Put at hok ⊢
  by_cases hw : gs.rwdb = false
  · simp [hw] at hok
  · by_cases h0 : req.Items.length = 0
    · have : req.Items = [] := List.length_eq_zero.mp h0
      simp [hw, this]
    · by_cases he : (execEach fault (execInsert timestamp) 0 req.Items gs.dts_graphdata []).2.length > 0
      · simp [hw, h0, he] at hok
      · have hnil : (execEach fault (execInsert timestamp) 0 req.Items gs.dts_graphdata []).2 = [] := by
          apply List.length_eq_zero.mp; omega
        simp only [hw, h0, he, if_false]
        exact execEach_ok fault _ _ _ _ _ hnil

/-- The table after a `Delete` that returned no error. -/
theorem delete_ok_table {gs : graphStore} {fault : Nat → Bool} {timestamp : Nat}
    {req : DeleteRequest} (hok : (gs.Delete fault timestamp req).2 = .ok {}) :
    (gs.Delete fault timestamp req).1.dts_graphdata =
      req.Items.foldl (execDelete timestamp) gs.dts_graphdata := by
  unfold graphStore.Delete at hok ⊢
  by_cases hw : gs.rwdb = false
  · simp [hw] at hok
  · by_cases h0 : req.Items.length = 0
    · have : req.Items = [] := List.length_eq_zero.mp h0
      simp [hw, this]
    · by_cases he : (execEach fault (execDelete timestamp) 0 req.Items gs.dts_graphdata []).2.length > 0
      · simp [hw, h0, he] at hok
      · have hnil : (execEach fault (execDelete timestamp) 0 req.Items gs.dts_graphdata []).2 = [] := by
          apply List.length_eq_zero.mp; omega
        simp only [hw, h0, he, if_false]
        exact execEach_ok fault _ _ _ _ _ hnil

/-! ## `REPLACE` keeps one row per identity -/

theorem execInsert_eq (timestamp : Nat) (table : List Row) (item : GraphItem) :
    execInsert timestamp table item =
      table.filter (fun r => !decide (r.hasIdentityOf item)) ++ [item.row timestamp] := by
  simp only [execInsert, insertGraphData, GraphItem.row, Row.hasIdentityOf]
  congr 1
  apply List.filter_congr
  intro r _
  by_cases h1 : r.graph_item_type = item.GraphItemType <;>
    by_cases h2 : r.k1 = Base64encode item.K1 <;>
    by_cases h3 : r.k2 = Base64encode item.K2 <;> simp [h1, h2, h3]

theorem row_hasIdentityOf_iff (x item : GraphItem) (timestamp : Nat) :
    (x.row timestamp).hasIdentityOf item ↔ x.sameIdentity item := by
  simp [GraphItem.row, Row.hasIdentityOf, GraphItem.sameIdentity, Base64encode_inj]

theorem hasIdentityOf_congr {a b : GraphItem} (h : a.sameIdentity b) (r : Row) :
    r.hasIdentityOf a ↔ r.hasIdentityOf b := by
  obtain ⟨h1, h2, h3⟩ := h
  simp [Row.hasIdentityOf, h1, h2, h3]

/-- After the statement for `item`, exactly one row has its identity: the one
just written. -/
theorem filter_identity_execInsert_self (timestamp : Nat) (table : List Row) (item : GraphItem) :
    (execInsert timestamp table item).filter (fun r => decide (r.hasIdentityOf item)) =
      [item.row timestamp] := by
  rw [execInsert_eq, List.filter_append, List.filter_filter]
  have h1 : table.filter (fun r => decide (r.hasIdentityOf item) && !decide (r.hasIdentityOf item))
      = [] := by
    rw [List.filter_eq_nil_iff]; intro a _; simp
  have h2 : (item.row timestamp).hasIdentityOf item :=
    (row_hasIdentityOf_iff item item timestamp).mpr ⟨rfl, rfl, rfl⟩
  simp [h1, h2]

/-- The statement for an item of another identity leaves the rows of `item`'s
identity as they are. -/
theorem filter_identity_execInsert_other (timestamp : Nat) (table : List Row)
    (x item : GraphItem) (h : ¬ x.sameIdentity item) :
    (execInsert timestamp table x).filter (fun r => decide (r.hasIdentityOf item)) =
      table.filter (fun r => decide (r.hasIdentityOf item)) := by
  rw [execInsert_eq, List.filter_append, List.filter_filter]
  have h2 : ¬ (x.row timestamp).hasIdentityOf item :=
    fun hc => h ((row_hasIdentityOf_iff x item timestamp).mp hc)
  have h1 : table.filter (fun r => decide (r.hasIdentityOf item) && !decide (r.hasIdentityOf x))
      = table.filter (fun r => decide (r.hasIdentityOf item)) := by
    apply List.filter_congr
    intro r _
    by_cases hr : r.hasIdentityOf item
    · have : ¬ r.hasIdentityOf x := by
        intro hx
        apply h
        obtain ⟨a1, a2, a3⟩ := hr
        obtain ⟨b1, b2, b3⟩ := hx
        exact ⟨b1.symm.trans a1, Base64encode_injective (b2.symm.trans a2),
          Base64encode_injective (b3.symm.trans a3)⟩
      simp [hr, this]
    · simp [hr]
  simp [h1, h2]

theorem filter_identity_foldl_other (timestamp : Nat) (item : GraphItem) :
    ∀ (post : List GraphItem) (table : List Row), (∀ x ∈ post, ¬ x.sameIdentity item) →
      (post.foldl (execInsert timestamp) table).filter (fun r => decide (r.hasIdentityOf item)) =
        table.filter (fun r => decide (r.hasIdentityOf item)) := by
  intro post
  induction post with
  | nil => intro table _; rfl
  | cons x xs ih =>
    intro table h
    rw [List.foldl_cons, ih _ (fun y hy => h y (List.mem_cons_of_mem _ hy)),
      filter_identity_execInsert_other _ _ _ _ (h x (List.mem_cons_self _ _))]

/-! ## Writes -/

/-- C7: after a `Put` that returned no error, the table holds exactly one row
with the identity `(itemType, k1, k2)` of an item of the batch that no later
item of the batch overwrites (so of the item itself when it is put alone);
that row carries the item's payload and encoding, `last_modified` equal to the
write time and `date_deleted` cleared, whatever the table held before. -/
theorem C7_put_leaves_one_row (gs : graphStore) (fault : Nat → Bool) (timestamp : Nat)
    (pre post : List GraphItem) (item : GraphItem)
    (hpost : ∀ x ∈ post, ¬ x.sameIdentity item)
    (hok : (gs.Put fault timestamp { Items := pre ++ item :: post }).2 = .ok {}) :
    (gs.Put fault timestamp { Items := pre ++ item :: post }).1.dts_graphdata.filter
        (fun r => decide (r.hasIdentityOf item)) =
      [{ graph_item_type := item.GraphItemType, k1 := Base64encode item.K1,
         k2 := Base64encode item.K2, encoding := item.Encoding,
         graph_item_data := item.GraphItemData, last_modified := timestamp,
         date_deleted := none }] := by
  rw [put_ok_table hok]
  simp only [List.foldl_append, List.foldl_cons]
  rw [filter_identity_foldl_other timestamp item post _ hpost, filter_identity_execInsert_self]
  rfl

/-- C7 at a store holding a tombstoned row of the item's identity: the `Put`
replaces it by one live row with the new payload. -/
theorem C7_put_leaves_one_row_witness :
    (deletedNodeStore.Put noFault 3 { Items := [] ++
        { testItem "node" (testKey 1) (testKey 1) [] with GraphItemData := [byteOf 7] } :: [] }).2
        = .ok {} ∧
      (deletedNodeStore.Put noFault 3 { Items := [] ++
        { testItem "node" (testKey 1) (testKey 1) [] with GraphItemData := [byteOf 7] } :: [] }
        ).1.dts_graphdata.filter (fun r => decide (r.hasIdentityOf
          { testItem "node" (testKey 1) (testKey 1) [] with GraphItemData := [byteOf 7] })) =
      [{ graph_item_type := "node", k1 := Base64encode (testKey 1),
         k2 := Base64encode (testKey 1), encoding := 0,
         graph_item_data := [byteOf 7], last_modified := 3, date_deleted := none }] :=
  ⟨by decide, C7_put_leaves_one_row deletedNodeStore noFault 3 [] []
    { testItem "node" (testKey 1) (testKey 1) [] with GraphItemData := [byteOf 7] }
    (by simp) (by decide)⟩

/-- What the loop leaves unchanged when no single statement changes it. -/
theorem execEach_invariant {α β : Type} (fault : Nat → Bool) (stmt : List Row → α → List Row)
    (f : List Row → β) (hstmt : ∀ table item, f (stmt table item) = f table) :
    ∀ (items : List α) (i : Nat) (table : List Row) (errors : List Error),
      f (execEach fault stmt i items table errors).1 = f table := by
  intro items
  induction items with
  | nil => intro i table errors; rfl
  | cons x xs ih =>
    intro i table errors
    by_cases hf : fault i = true
    · simp only [execEach, hf, if_true]; exact ih _ _ _
    · simp only [execEach, hf]; exact (ih _ _ _).trans (hstmt _ _)

theorem execDelete_kept (timestamp : Nat) (table : List Row) (key : GraphItem) :
    (execDelete timestamp table key).map Row.kept = table.map Row.kept := by
  simp only [execDelete, deleteGraphData, List.map_map]
  apply List.map_congr_left
  intro r _
  simp only [Function.comp]
  split <;> rfl

theorem delete_kept (gs : graphStore) (fault : Nat → Bool) (timestamp : Nat)
    (req : DeleteRequest) :
    (gs.Delete fault timestamp req).1.dts_graphdata.map Row.kept =
      gs.dts_graphdata.map Row.kept := by
  unfold graphStore.Delete
  split
  · rfl
  · split
    · rfl
    · have h := execEach_invariant fault (execDelete timestamp) (fun t => t.map Row.kept)
        (execDelete_kept timestamp) req.Items 0 gs.dts_graphdata []
      dsimp only
      split <;> exact h

theorem execDelete_eq_map (timestamp : Nat) (table : List Row) (key : GraphItem) :
    execDelete timestamp table key = table.map (fun r => stampRow timestamp r key) := rfl

theorem foldl_execDelete_eq_map (timestamp : Nat) :
    ∀ (items : List GraphItem) (table : List Row),
      items.foldl (execDelete timestamp) table =
        table.map (fun r => items.foldl (stampRow timestamp) r) := by
  intro items
  induction items with
  | nil => intro table; simp
  | cons x xs ih =>
    intro table
    rw [List.foldl_cons, ih, execDelete_eq_map, List.map_map]
    rfl

theorem stampRow_hasIdentityOf (timestamp : Nat) (r : Row) (key item : GraphItem) :
    (stampRow timestamp r key).hasIdentityOf item ↔ r.hasIdentityOf item := by
  unfold stampRow
  split <;> rfl

theorem foldl_stampRow_hasIdentityOf (timestamp : Nat) (item : GraphItem) :
    ∀ (items : List GraphItem) (r : Row),
      (items.foldl (stampRow timestamp) r).hasIdentityOf item ↔ r.hasIdentityOf item := by
  intro items
  induction items with
  | nil => intro r; rfl
  | cons x xs ih => intro r; rw [List.foldl_cons, ih, stampRow_hasIdentityOf]

theorem foldl_stampRow_stamped (timestamp : Nat) :
    ∀ (items : List GraphItem) (r : Row), r.date_deleted = some timestamp →
      (items.foldl (stampRow timestamp) r).date_deleted = some timestamp := by
  intro items
  induction items with
  | nil => intro r h; exact h
  | cons x xs ih =>
    intro r h
    rw [List.foldl_cons]
    apply ih
    unfold stampRow
    split
    · rfl
    · exact h

theorem stampRow_of_identity (timestamp : Nat) (r : Row) (key : GraphItem)
    (h : r.hasIdentityOf key) : (stampRow timestamp r key).date_deleted = some timestamp := by
  obtain ⟨h1, h2, h3⟩ := h
  simp [stampRow, h1, h2, h3]

theorem foldl_stampRow_of_mem (timestamp : Nat) (item : GraphItem) :
    ∀ (items : List GraphItem) (r : Row), item ∈ items → r.hasIdentityOf item →
      (items.foldl (stampRow timestamp) r).date_deleted = some timestamp := by
  intro items
  induction items with
  | nil => intro r h; simp at h
  | cons x xs ih =>
    intro r hmem hid
    rw [List.foldl_cons]
    rcases List.mem_cons.mp hmem with rfl | hxs
    · exact foldl_stampRow_stamped timestamp xs _ (stampRow_of_identity timestamp r item hid)
    · exact ih _ hxs ((stampRow_hasIdentityOf timestamp r x item).mpr hid)

/-- C10: `Delete` never removes a row. For every store state, driver behaviour
and request, the table after `Delete` has the same rows in the same order as
before as far as type, `k1`, `k2`, encoding, payload and `last_modified` go
(so the same identities); and when `Delete` returns no error, every row whose
identity matches a requested item has `date_deleted` equal to the delete
time. -/
theorem C10_delete_only_stamps (gs : graphStore) (fault : Nat → Bool) (timestamp : Nat)
    (req : DeleteRequest) :
    ((gs.Delete fault timestamp req).1.dts_graphdata.map
        (fun r => (r.graph_item_type, r.k1, r.k2, r.encoding, r.graph_item_data,
          r.last_modified)) =
      gs.dts_graphdata.map
        (fun r => (r.graph_item_type, r.k1, r.k2, r.encoding, r.graph_item_data,
          r.last_modified))) ∧
    ((gs.Delete fault timestamp req).2 = .ok {} →
      ∀ item ∈ req.Items, ∀ r ∈ (gs.Delete fault timestamp req).1.dts_graphdata,
        r.hasIdentityOf item → r.date_deleted = some timestamp) := by
  refine ⟨delete_kept gs fault timestamp req, ?_⟩
  intro hok item hitem r hr hid
  rw [delete_ok_table hok, foldl_execDelete_eq_map] at hr
  obtain ⟨r0, -, rfl⟩ := List.mem_map.mp hr
  exact foldl_stampRow_of_mem timestamp item req.Items r0 hitem
    ((foldl_stampRow_hasIdentityOf timestamp item req.Items r0).mp hid)

/-- C10 at the test store: deleting node `3003` stamps the row of
the node. -/
theorem C10_delete_only_stamps_witness :
    (testStore.Delete noFault 2
        { Items := [testItem "node" (testKey 3) (testKey 3) []] }).2 = .ok {} ∧
      ∀ r ∈ (testStore.Delete noFault 2
          { Items := [testItem "node" (testKey 3) (testKey 3) []] }).1.dts_graphdata,
        r.hasIdentityOf (testItem "node" (testKey 3) (testKey 3) []) →
          r.date_deleted = some 2 :=
  ⟨by decide, fun r hr hid =>
    (C10_delete_only_stamps testStore noFault 2
      { Items := [testItem "node" (testKey 3) (testKey 3) []] }).2 (by decide) _
      (List.mem_singleton.mpr rfl) r hr hid⟩

/-! ## Reads do not see `last_modified` -/

theorem listGraphData_stripped (table : List Row) (t : String) (limit offset : Int) :
    listGraphData (table.map Row.stripped) t limit offset = listGraphData table t limit offset := by
  have hc : Row.columns ∘ Row.stripped = Row.columns := funext fun _ => rfl
  have hp : (fun r : Row => r.graph_item_type == t) ∘ Row.stripped =
      fun r : Row => r.graph_item_type == t := funext fun _ => rfl
  unfold listGraphData
  simp only [List.filter_map, ← List.map_drop, ← List.map_take, hp]
  split <;> rw [List.map_map, hc]

theorem selectUpstream_stripped (table : List Row) (key : String) (edgeTypes : List String) :
    selectGraphDataUpstreamDependencies (table.map Row.stripped) key edgeTypes =
      selectGraphDataUpstreamDependencies table key edgeTypes := by
  unfold selectGraphDataUpstreamDependencies
  simp only [List.flatMap_map, List.filter_map, List.map_map]
  rfl

theorem selectDownstream_stripped (table : List Row) (key : String) (edgeTypes : List String) :
    selectGraphDataDownstreamDependencies (table.map Row.stripped) key edgeTypes =
      selectGraphDataDownstreamDependencies table key edgeTypes := by
  unfold selectGraphDataDownstreamDependencies
  simp only [List.flatMap_map, List.filter_map, List.map_map]
  rfl

/-- Two stores whose tables agree up to `last_modified` answer every read alike. -/
theorem reads_eq_of_stripped_eq {s1 s2 : graphStore}
    (h : s1.dts_graphdata.map Row.stripped = s2.dts_graphdata.map Row.stripped) :
    (∀ req, s1.List req = s2.List req) ∧ (∀ req, s1.FindUpstream req = s2.FindUpstream req) ∧
      (∀ req, s1.FindDownstream req = s2.FindDownstream req) := by
  refine ⟨fun req => ?_, fun req => ?_, fun req => ?_⟩
  · unfold graphStore.List
    simp only
    rw [← listGraphData_stripped s1.dts_graphdata, ← listGraphData_stripped s2.dts_graphdata, h]
  · rw [findUpstream_eq, findUpstream_eq, ← selectUpstream_stripped s1.dts_graphdata,
      ← selectUpstream_stripped s2.dts_graphdata, h]
  · rw [findDownstream_eq, findDownstream_eq, ← selectDownstream_stripped s1.dts_graphdata,
      ← selectDownstream_stripped s2.dts_graphdata, h]

/-! ## `Put` twice -/

theorem execInsert_stripped (timestamp : Nat) (table : List Row) (item : GraphItem) :
    (execInsert timestamp table item).map Row.stripped =
      execInsert 0 (table.map Row.stripped) item := by
  have hp : (fun r : Row => !decide (r.hasIdentityOf item)) ∘ Row.stripped =
      fun r : Row => !decide (r.hasIdentityOf item) := funext fun _ => rfl
  rw [execInsert_eq, execInsert_eq, List.map_append, List.filter_map, hp]
  rfl

theorem foldl_execInsert_stripped (timestamp : Nat) :
    ∀ (items : List GraphItem) (table : List Row),
      (items.foldl (execInsert timestamp) table).map Row.stripped =
        items.foldl (execInsert 0) (table.map Row.stripped) := by
  intro items
  induction items with
  | nil => intro table; rfl
  | cons x xs ih => intro table; rw [List.foldl_cons, ih, execInsert_stripped, List.foldl_cons]

/-- The table after a batch of inserts: the old rows of identities outside the
batch, followed by what the batch leaves in an empty table. -/
theorem foldl_execInsert_normal (timestamp : Nat) :
    ∀ (items : List GraphItem) (table : List Row),
      items.foldl (execInsert timestamp) table =
        table.filter (noIdentityIn items) ++ items.foldl (execInsert timestamp) [] := by
  intro items
  induction items with
  | nil =>
    intro table
    have h : table.filter (noIdentityIn []) = table :=
      List.filter_eq_self.mpr (fun _ _ => rfl)
    rw [h]; simp
  | cons x xs ih =>
    intro table
    rw [List.foldl_cons, List.foldl_cons, ih (execInsert timestamp table x),
      ih (execInsert timestamp [] x), execInsert_eq, execInsert_eq, List.filter_append,
      List.filter_filter, List.filter_nil, List.nil_append, List.append_assoc]
    congr 1
    apply List.filter_congr
    intro r _
    simp [noIdentityIn, Bool.and_comm]

theorem mem_foldl_execInsert (timestamp : Nat) :
    ∀ (items : List GraphItem) (table : List Row) (r : Row),
      r ∈ items.foldl (execInsert timestamp) table →
        r ∈ table ∨ ∃ x ∈ items, r.hasIdentityOf x := by
  intro items
  induction items with
  | nil => intro table r h; exact Or.inl h
  | cons x xs ih =>
    intro table r h
    rw [List.foldl_cons] at h
    rcases ih _ r h with h1 | ⟨y, hy, hid⟩
    · rw [execInsert_eq, List.mem_append] at h1
      rcases h1 with h2 | h2
      · exact Or.inl (List.mem_filter.mp h2).1
      · rw [List.mem_singleton] at h2
        exact Or.inr ⟨x, List.mem_cons_self _ _,
          h2 ▸ (row_hasIdentityOf_iff x x timestamp).mpr ⟨rfl, rfl, rfl⟩⟩
    · exact Or.inr ⟨y, List.mem_cons_of_mem _ hy, hid⟩

/-- Inserting a batch a second time changes nothing. -/
theorem foldl_execInsert_idem (timestamp : Nat) (items : List GraphItem) (table : List Row) :
    items.foldl (execInsert timestamp) (items.foldl (execInsert timestamp) table) =
      items.foldl (execInsert timestamp) table := by
  rw [foldl_execInsert_normal timestamp items (items.foldl (execInsert timestamp) table)]
  rw [foldl_execInsert_normal timestamp items table, List.filter_append, List.filter_filter]
  have h1 : (items.foldl (execInsert timestamp) []).filter (noIdentityIn items) = [] := by
    rw [List.filter_eq_nil_iff]
    intro r hr
    rcases mem_foldl_execInsert timestamp items [] r hr with h | ⟨x, hx, hid⟩
    · simp at h
    · simp only [noIdentityIn, List.all_eq_true, Bool.not_eq_true', decide_eq_false_iff_not,
        not_forall, Classical.not_not]
      exact ⟨x, hx, hid⟩
  rw [h1, List.append_nil]
  congr 1
  apply List.filter_congr
  intro r _
  simp

/-- Rows of the identity of an item of the batch are live after the batch and
carry its write time. -/
theorem foldl_execInsert_written (timestamp : Nat) (item : GraphItem) :
    ∀ (items : List GraphItem) (table : List Row),
      (item ∈ items ∨ ∀ r ∈ table, r.hasIdentityOf item →
        r.date_deleted = none ∧ r.last_modified = timestamp) →
        ∀ r ∈ items.foldl (execInsert timestamp) table,
          r.hasIdentityOf item → r.date_deleted = none ∧ r.last_modified = timestamp := by
  intro items
  induction items with
  | nil =>
    intro table h
    rcases h with h | h
    · simp at h
    · exact h
  | cons x xs ih =>
    intro table h
    rw [List.foldl_cons]
    apply ih
    by_cases hx : item ∈ xs
    · exact Or.inl hx
    · right
      intro r hr hid
      rw [execInsert_eq, List.mem_append] at hr
      rcases hr with h2 | h2
      · rcases h with h | h
        · rcases List.mem_cons.mp h with rfl | h'
          · simp [hid] at h2
          · exact absurd h' hx
        · exact h r (List.mem_filter.mp h2).1 hid
      · rw [List.mem_singleton] at h2
        rw [h2]; exact ⟨rfl, rfl⟩

theorem put_ok_of_no_fault (gs : graphStore) (hw : gs.rwdb = true) (timestamp : Nat)
    (req : PutRequest) (fault : Nat → Bool) (hf : ∀ i, i < req.Items.length → fault i = false) :
    (gs.Put fault timestamp req).2 = .ok {} := by
  have key : ∀ (items : List GraphItem) (i : Nat) (table : List Row),
      (∀ j, j < items.length → fault (i + j) = false) →
      (execEach fault (execInsert timestamp) i items table []).2 = [] := by
    intro items
    induction items with
    | nil => intro i table _; rfl
    | cons x xs ih =>
      intro i table h
      have h0 : fault i = false := by simpa using h 0 (by simp)
      simp only [execEach, h0]
      apply ih
      intro j hj
      have := h (j + 1) (by simp; omega)
      rwa [show i + (j + 1) = i + 1 + j by omega] at this
  unfold graphStore.Put
  by_cases h0 : req.Items.length = 0
  · simp [hw, h0]
  · have := key req.Items 0 gs.dts_graphdata (by simpa using hf)
    simp [hw, h0, this]

theorem put_rwdb (gs : graphStore) (fault : Nat → Bool) (timestamp : Nat) (req : PutRequest) :
    (gs.Put fault timestamp req).1.rwdb = gs.rwdb := by
  unfold graphStore.Put
  split
  · rfl
  · split
    · rfl
    · dsimp only
      split <;> rfl

/-- C9: `Put` is idempotent. On a writable store, when the driver fails none of
the statements, `Put(items)` succeeds, a second `Put(items)` right after it
succeeds too and leaves the table of the first one: the same rows in the same
order with the same type, keys, encoding, payload and `date_deleted` (only
`last_modified` takes the second write time); the rows of the identities put
are live; and every `List`, `FindUpstream` and `FindDownstream` request gets
the same answer after the second `Put` as after the first. -/
theorem C9_put_idempotent (gs : graphStore) (fault1 fault2 : Nat → Bool) (t1 t2 : Nat)
    (req : PutRequest) (hw : gs.rwdb = true)
    (h1 : ∀ i, i < req.Items.length → fault1 i = false)
    (h2 : ∀ i, i < req.Items.length → fault2 i = false) :
    (gs.Put fault1 t1 req).2 = .ok {} ∧
    ((gs.Put fault1 t1 req).1.Put fault2 t2 req).2 = .ok {} ∧
    (((gs.Put fault1 t1 req).1.Put fault2 t2 req).1.dts_graphdata.map
        (fun r => (r.graph_item_type, r.k1, r.k2, r.encoding, r.graph_item_data,
          r.date_deleted)) =
      (gs.Put fault1 t1 req).1.dts_graphdata.map
        (fun r => (r.graph_item_type, r.k1, r.k2, r.encoding, r.graph_item_data,
          r.date_deleted))) ∧
    (∀ item ∈ req.Items, ∀ r ∈ ((gs.Put fault1 t1 req).1.Put fault2 t2 req).1.dts_graphdata,
      r.hasIdentityOf item → r.date_deleted = none ∧ r.last_modified = t2) ∧
    (∀ q, ((gs.Put fault1 t1 req).1.Put fault2 t2 req).1.List q =
      (gs.Put fault1 t1 req).1.List q) ∧
    (∀ q, ((gs.Put fault1 t1 req).1.Put fault2 t2 req).1.FindUpstream q =
      (gs.Put fault1 t1 req).1.FindUpstream q) ∧
    (∀ q, ((gs.Put fault1 t1 req).1.Put fault2 t2 req).1.FindDownstream q =
      (gs.Put fault1 t1 req).1.FindDownstream q) := by
  have ok1 := put_ok_of_no_fault gs hw t1 req fault1 h1
  have ok2 := put_ok_of_no_fault (gs.Put fault1 t1 req).1
    ((put_rwdb gs fault1 t1 req).trans hw) t2 req fault2 h2
  have hs : ((gs.Put fault1 t1 req).1.Put fault2 t2 req).1.dts_graphdata.map Row.stripped =
      (gs.Put fault1 t1 req).1.dts_graphdata.map Row.stripped := by
    rw [put_ok_table ok2, put_ok_table ok1, foldl_execInsert_stripped,
      foldl_execInsert_stripped, foldl_execInsert_idem]
  obtain ⟨rl, ru, rd⟩ := reads_eq_of_stripped_eq hs
  refine ⟨ok1, ok2, ?_, ?_, rl, ru, rd⟩
  · have := congrArg (List.map (fun r : Row => (r.graph_item_type, r.k1, r.k2, r.encoding,
      r.graph_item_data, r.date_deleted))) hs
    simpa only [List.map_map] using this
  · intro item hitem r hr hid
    rw [put_ok_table ok2] at hr
    exact foldl_execInsert_written t2 item req.Items _ (Or.inl hitem) r hr hid

/-- C9 at the data of the repository's test, put twice into an empty store. -/
theorem C9_put_idempotent_witness :
    (NewSQLGraphStore true none).rwdb = true ∧
    (((NewSQLGraphStore true none).Put noFault 1 { Items := testData }).1.Put noFault 2
      { Items := testData }).2 = .ok {} ∧
    (∀ q, (((NewSQLGraphStore true none).Put noFault 1 { Items := testData }).1.Put noFault 2
        { Items := testData }).1.FindUpstream q =
      ((NewSQLGraphStore true none).Put noFault 1 { Items := testData }).1.FindUpstream q) :=
  ⟨rfl,
   (C9_put_idempotent (NewSQLGraphStore true none) noFault noFault 1 2 { Items := testData } rfl
      (fun _ _ => rfl) (fun _ _ => rfl)).2.1,
   (C9_put_idempotent (NewSQLGraphStore true none) noFault noFault 1 2 { Items := testData } rfl
      (fun _ _ => rfl) (fun _ _ => rfl)).2.2.2.2.2.1⟩

/-! ## `Put` after `Delete` -/

/-- What a read returns for the row `Put` wrote for an item. -/
theorem row_item (item : GraphItem) (timestamp : Nat) :
    (item.row timestamp).item = item.stored := by
  simp [GraphItem.row, Row.item, Row.columns, scanGraphItem, GraphItem.stored,
    Base64decode_Base64encode]

/-- The last row of the table is on the page that covers its position. -/
theorem mem_listGraphData_last (table : List Row) (r : Row) (t : String) (limit : Nat)
    (hl : 0 < limit) (hr : r.graph_item_type = t) :
    r.columns ∈ listGraphData (table ++ [r]) t (limit : Int)
      (((table.filter (fun x => x.graph_item_type == t)).length / limit * limit : Nat) : Int) := by
  unfold listGraphData
  have hneg : ¬ ((limit : Int) < 0) := by omega
  simp only [hneg, if_false, Int.toNat_ofNat, List.filter_append]
  have hf : [r].filter (fun x => x.graph_item_type == t) = [r] := by simp [hr]
  rw [hf]
  apply List.mem_map_of_mem
  generalize table.filter (fun x => x.graph_item_type == t) = m
  have h1 : m.length / limit * limit ≤ m.length := Nat.div_mul_le_self _ _
  rw [List.drop_append_of_le_length h1, List.take_append_eq_append_take, List.mem_append]
  right
  have h2 : m.length - m.length / limit * limit < limit := by
    have := Nat.mod_lt m.length hl
    have h3 := Nat.div_add_mod m.length limit
    have h4 : limit * (m.length / limit) = m.length / limit * limit := Nat.mul_comm _ _
    omega
  have h5 : limit - (m.drop (m.length / limit * limit)).length =
      (limit - (m.drop (m.length / limit * limit)).length - 1) + 1 := by
    rw [List.length_drop]; omega
  rw [h5, List.take_succ_cons]
  exact List.mem_cons_self _ _

theorem clamp_bounds (count : Int) :
    10 ≤ Tracker.max (Tracker.min count 100) 10 ∧ Tracker.max (Tracker.min count 100) 10 ≤ 100 := by
  unfold Tracker.max Tracker.min
  split_ifs <;> omega

theorem wrapInt32_of_range (x : Int) (h0 : -2147483648 ≤ x) (h1 : x < 2147483648) :
    wrapInt32 x = x := by
  unfold wrapInt32; omega

/-- A `Delete` of one item leaves the table as it was or runs the statement. -/
theorem delete_singleton_table (gs : graphStore) (fault : Nat → Bool) (timestamp : Nat)
    (item : GraphItem) :
    (gs.Delete fault timestamp { Items := [item] }).1.dts_graphdata = gs.dts_graphdata ∨
      (gs.Delete fault timestamp { Items := [item] }).1.dts_graphdata =
        execDelete timestamp gs.dts_graphdata item := by
  unfold graphStore.Delete
  by_cases hw : gs.rwdb = false
  · left; simp [hw]
  · by_cases hf : fault 0 = true
    · left; simp [hw, execEach, hf]
    · right; simp [hw, execEach, hf]

/-- A row of another identity is still in the table after the `Delete`. -/
theorem mem_delete_of_other (gs : graphStore) (fault : Nat → Bool) (timestamp : Nat)
    (item : GraphItem) (r : Row) (hr : r ∈ gs.dts_graphdata) (hid : ¬ r.hasIdentityOf item) :
    r ∈ (gs.Delete fault timestamp { Items := [item] }).1.dts_graphdata := by
  rcases delete_singleton_table gs fault timestamp item with h | h
  · rw [h]; exact hr
  · rw [h, execDelete_eq_map]
    refine List.mem_map.mpr ⟨r, hr, ?_⟩
    unfold stampRow
    have : ¬ (r.graph_item_type = item.GraphItemType ∧ r.k1 = Base64encode item.K1 ∧
        r.k2 = Base64encode item.K2) := hid
    split
    · rename_i hc
      simp only [Bool.and_eq_true, beq_iff_eq] at hc
      exact absurd ⟨hc.1.1, hc.1.2, hc.2⟩ this
    · rfl

theorem length_filter_type_of_kept {t1 t2 : List Row} (h : t1.map Row.kept = t2.map Row.kept)
    (t : String) :
    (t1.filter (fun r => r.graph_item_type == t)).length =
      (t2.filter (fun r => r.graph_item_type == t)).length := by
  have hp : (fun r : Row => r.graph_item_type == t) =
      (fun k : String × String × String × Int × List Byte × Nat => k.1 == t) ∘ Row.kept :=
    funext fun _ => rfl
  have e1 := congrArg (fun l => (l.filter
    (fun k : String × String × String × Int × List Byte × Nat => k.1 == t)).length) h
  simp only [List.filter_map, List.length_map] at e1
  rw [hp]; exact e1

/-- The table after the `Put` of `item'` that follows the `Delete` of `item`. -/
theorem put_after_delete_table {gs : graphStore} {faultD faultP : Nat → Bool} {tD tP : Nat}
    {item item' : GraphItem}
    (hok : ((gs.Delete faultD tD { Items := [item] }).1.Put faultP tP { Items := [item'] }).2 =
      .ok {}) :
    ((gs.Delete faultD tD { Items := [item] }).1.Put faultP tP
        { Items := [item'] }).1.dts_graphdata =
      (gs.Delete faultD tD { Items := [item] }).1.dts_graphdata.filter
        (fun r => !decide (r.hasIdentityOf item')) ++ [item'.row tP] := by
  rw [put_ok_table hok]
  simp only [List.foldl_cons, List.foldl_nil]
  exact execInsert_eq _ _ _

theorem mem_put_after_delete_of_other {gs : graphStore} {faultD faultP : Nat → Bool}
    {tD tP : Nat} {item item' : GraphItem} (hsame : item'.sameIdentity item)
    (hok : ((gs.Delete faultD tD { Items := [item] }).1.Put faultP tP { Items := [item'] }).2 =
      .ok {})
    (r : Row) (hr : r ∈ gs.dts_graphdata) (hid : ¬ r.hasIdentityOf item) :
    r ∈ ((gs.Delete faultD tD { Items := [item] }).1.Put faultP tP
        { Items := [item'] }).1.dts_graphdata := by
  rw [put_after_delete_table hok, List.mem_append]
  left
  refine List.mem_filter.mpr ⟨mem_delete_of_other gs faultD tD item r hr hid, ?_⟩
  have : ¬ r.hasIdentityOf item' := fun h => hid ((hasIdentityOf_congr hsame r).mp h)
  simp [this]

theorem mem_put_after_delete_self {gs : graphStore} {faultD faultP : Nat → Bool}
    {tD tP : Nat} {item item' : GraphItem}
    (hok : ((gs.Delete faultD tD { Items := [item] }).1.Put faultP tP { Items := [item'] }).2 =
      .ok {}) :
    item'.row tP ∈ ((gs.Delete faultD tD { Items := [item] }).1.Put faultP tP
        { Items := [item'] }).1.dts_graphdata := by
  rw [put_after_delete_table hok]; simp

/-- The item put after the delete is on a page of `List`. -/
theorem list_put_after_delete {gs : graphStore} {faultD faultP : Nat → Bool}
    {tD tP : Nat} {item item' : GraphItem} (hsame : item'.sameIdentity item)
    (hsize : (gs.dts_graphdata.filter
      (fun r => r.graph_item_type == item.GraphItemType)).length < 2147483647)
    (hok : ((gs.Delete faultD tD { Items := [item] }).1.Put faultP tP { Items := [item'] }).2 =
      .ok {})
    (count : Int) :
    ∃ page : Int, 1 ≤ page ∧ page < 2147483648 ∧ ∃ items,
      ((gs.Delete faultD tD { Items := [item] }).1.Put faultP tP { Items := [item'] }).1.List
          { Page := page, Count := count, Type_ := item'.GraphItemType } =
        .ok { Items := items } ∧ item'.stored ∈ items := by
  obtain ⟨hL1, hL2⟩ := clamp_bounds count
  have hT : item'.GraphItemType = item.GraphItemType := hsame.1
  generalize hD : (gs.Delete faultD tD { Items := [item] }).1.dts_graphdata = D
  have hlen : ((D.filter (fun r => !decide (r.hasIdentityOf item'))).filter
      (fun r => r.graph_item_type == item'.GraphItemType)).length < 2147483647 := by
    rw [List.filter_comm]
    have h1 : ((D.filter (fun r => r.graph_item_type == item'.GraphItemType)).filter
        (fun r => !decide (r.hasIdentityOf item'))).length ≤
        (D.filter (fun r => r.graph_item_type == item'.GraphItemType)).length :=
      List.length_filter_le _ _
    have h2 := length_filter_type_of_kept (delete_kept gs faultD tD { Items := [item] })
      item'.GraphItemType
    rw [hD, hT] at h2
    rw [hT] at h1
    rw [hT]
    omega
  generalize hm : ((D.filter (fun r => !decide (r.hasIdentityOf item'))).filter
      (fun r => r.graph_item_type == item'.GraphItemType)).length = m at hlen
  generalize hL : Tracker.max (Tracker.min count 100) 10 = L at hL1 hL2
  obtain ⟨Ln, rfl⟩ : ∃ n : Nat, L = (n : Int) := ⟨L.toNat, (Int.toNat_of_nonneg (by omega)).symm⟩
  have hLn : 0 < Ln := by omega
  have hdiv : m / Ln * Ln ≤ m := Nat.div_mul_le_self _ _
  have hdiv2 : m / Ln ≤ m := Nat.div_le_self _ _
  obtain ⟨q, hq⟩ : ∃ q, q = m / Ln := ⟨_, rfl⟩
  rw [← hq] at hdiv hdiv2
  refine ⟨(q : Int) + 1, by omega, by omega, _, rfl, ?_⟩
  have hpage : Tracker.max ((q : Int) + 1) 1 = (q : Int) + 1 := by
    unfold Tracker.max; split_ifs <;> omega
  have hoff : wrapInt32 (((q : Int) + 1 - 1) * (Ln : Int)) = ((q * Ln : Nat) : Int) := by
    have e : ((q : Int) + 1 - 1) * (Ln : Int) = ((q * Ln : Nat) : Int) := by
      push_cast; ring
    rw [e]
    apply wrapInt32_of_range <;> omega
  simp only [hpage, hL, hoff]
  rw [put_after_delete_table hok, hD, ← row_item item' tP]
  have := mem_listGraphData_last (D.filter (fun r => !decide (r.hasIdentityOf item')))
    (item'.row tP) item'.GraphItemType Ln hLn rfl
  rw [hm, ← hq] at this
  exact List.mem_map_of_mem _ this

theorem hasIdentityOf_of_item {r : Row} (h : r.keysEncoded) {item : GraphItem}
    (hid : r.item.sameIdentity item) : r.hasIdentityOf item :=
  ⟨hid.1, item_K1_eq h hid.2.1, item_K2_eq h hid.2.2⟩

theorem upstream_put_after_delete {gs : graphStore} {faultD faultP : Nat → Bool}
    {tD tP : Nat} {item item' : GraphItem} (hsame : item'.sameIdentity item)
    (henc : gs.keysEncoded)
    (hok : ((gs.Delete faultD tD { Items := [item] }).1.Put faultP tP { Items := [item'] }).2 =
      .ok {})
    (key : String) (edgeTypes : List String) (p : GraphItemPair)
    (hp : p ∈ readGraphItemPairs
      (selectGraphDataUpstreamDependencies gs.dts_graphdata key edgeTypes)) :
    (p.Edge.sameIdentity item →
      { Node := p.Node, Edge := item'.stored } ∈ readGraphItemPairs
        (selectGraphDataUpstreamDependencies
          ((gs.Delete faultD tD { Items := [item] }).1.Put faultP tP
            { Items := [item'] }).1.dts_graphdata key edgeTypes)) ∧
    (p.Node.sameIdentity item →
      { Node := item'.stored, Edge := p.Edge } ∈ readGraphItemPairs
        (selectGraphDataUpstreamDependencies
          ((gs.Delete faultD tD { Items := [item] }).1.Put faultP tP
            { Items := [item'] }).1.dts_graphdata key edgeTypes)) := by
  obtain ⟨node, hn, edge, he, hel, hty, hk, hne, hnl, hself, hjoin, rfl⟩ :=
    mem_upstreamPairs.mp hp
  obtain ⟨s0, s1, s2⟩ := hsame
  constructor
  · intro hid
    obtain ⟨e0, e1, e2⟩ := hasIdentityOf_of_item (henc edge he) hid
    have hnode : ¬ node.hasIdentityOf item := by
      rintro ⟨-, n1, n2⟩
      exact hne (((e1.trans n1.symm).trans hself).trans (n2.trans e2.symm))
    refine mem_upstreamPairs.mpr ⟨node, mem_put_after_delete_of_other ⟨s0, s1, s2⟩ hok node hn
      hnode, item'.row tP, mem_put_after_delete_self hok, rfl, ?_, ?_, ?_, hnl, hself, ?_, ?_⟩
    · show item'.GraphItemType ∈ edgeTypes
      rw [s0, ← e0]; exact hty
    · show Base64encode item'.K1 = key
      rw [s1, ← e1]; exact hk
    · show Base64encode item'.K1 ≠ Base64encode item'.K2
      rw [s1, s2, ← e1, ← e2]; exact hne
    · show node.k1 = Base64encode item'.K2
      rw [s2, ← e2]; exact hjoin
    · rw [row_item]
  · intro hid
    obtain ⟨n0, n1, n2⟩ := hasIdentityOf_of_item (henc node hn) hid
    have hedge : ¬ edge.hasIdentityOf item := by
      rintro ⟨-, e1, e2⟩
      exact hne (((e1.trans n1.symm).trans hself).trans (n2.trans e2.symm))
    refine mem_upstreamPairs.mpr ⟨item'.row tP, mem_put_after_delete_self hok, edge,
      mem_put_after_delete_of_other ⟨s0, s1, s2⟩ hok edge he hedge, hel, hty, hk, hne, rfl,
      ?_, ?_, ?_⟩
    · show Base64encode item'.K1 = Base64encode item'.K2
      rw [s1, s2, ← n1, ← n2]; exact hself
    · show Base64encode item'.K1 = edge.k2
      rw [s1, ← n1]; exact hjoin
    · rw [row_item]

theorem downstream_put_after_delete {gs : graphStore} {faultD faultP : Nat → Bool}
    {tD tP : Nat} {item item' : GraphItem} (hsame : item'.sameIdentity item)
    (henc : gs.keysEncoded)
    (hok : ((gs.Delete faultD tD { Items := [item] }).1.Put faultP tP { Items := [item'] }).2 =
      .ok {})
    (key : String) (edgeTypes : List String) (p : GraphItemPair)
    (hp : p ∈ readGraphItemPairs
      (selectGraphDataDownstreamDependencies gs.dts_graphdata key edgeTypes)) :
    (p.Edge.sameIdentity item →
      { Node := p.Node, Edge := item'.stored } ∈ readGraphItemPairs
        (selectGraphDataDownstreamDependencies
          ((gs.Delete faultD tD { Items := [item] }).1.Put faultP tP
            { Items := [item'] }).1.dts_graphdata key edgeTypes)) ∧
    (p.Node.sameIdentity item →
      { Node := item'.stored, Edge := p.Edge } ∈ readGraphItemPairs
        (selectGraphDataDownstreamDependencies
          ((gs.Delete faultD tD { Items := [item] }).1.Put faultP tP
            { Items := [item'] }).1.dts_graphdata key edgeTypes)) := by
  obtain ⟨node, hn, edge, he, hel, hty, hk, hne, hnl, hself, hjoin, rfl⟩ :=
    mem_downstreamPairs.mp hp
  obtain ⟨s0, s1, s2⟩ := hsame
  constructor
  · intro hid
    obtain ⟨e0, e1, e2⟩ := hasIdentityOf_of_item (henc edge he) hid
    have hnode : ¬ node.hasIdentityOf item := by
      rintro ⟨-, n1, n2⟩
      exact hne ((e1.trans n1.symm).trans (hself.trans (n2.trans e2.symm)))
    refine mem_downstreamPairs.mpr ⟨node, mem_put_after_delete_of_other ⟨s0, s1, s2⟩ hok node hn
      hnode, item'.row tP, mem_put_after_delete_self hok, rfl, ?_, ?_, ?_, hnl, hself, ?_, ?_⟩
    · show item'.GraphItemType ∈ edgeTypes
      rw [s0, ← e0]; exact hty
    · show Base64encode item'.K2 = key
      rw [s2, ← e2]; exact hk
    · show Base64encode item'.K1 ≠ Base64encode item'.K2
      rw [s1, s2, ← e1, ← e2]; exact hne
    · show node.k1 = Base64encode item'.K1
      rw [s1, ← e1]; exact hjoin
    · rw [row_item]
  · intro hid
    obtain ⟨n0, n1, n2⟩ := hasIdentityOf_of_item (henc node hn) hid
    have hedge : ¬ edge.hasIdentityOf item := by
      rintro ⟨-, e1, e2⟩
      exact hne ((e1.trans n1.symm).trans (hself.trans (n2.trans e2.symm)))
    refine mem_downstreamPairs.mpr ⟨item'.row tP, mem_put_after_delete_self hok, edge,
      mem_put_after_delete_of_other ⟨s0, s1, s2⟩ hok edge he hedge, hel, hty, hk, hne, rfl,
      ?_, ?_, ?_⟩
    · show Base64encode item'.K1 = Base64encode item'.K2
      rw [s1, s2, ← n1, ← n2]; exact hself
    · show Base64encode item'.K1 = edge.k1
      rw [s1, ← n1]; exact hjoin
    · rw [row_item]

/-- C8: after `Delete` of an item followed by a successful `Put` of an item of
the same identity, the item is visible again. `List` of its type returns it
(as stored: type, keys, encoding and payload) on some page, for every count;
and every pair `FindUpstream` or `FindDownstream` returned before the
`Delete` with an edge, or a node, of that identity is returned after the `Put`
with the item put in that place. Stated for a store whose key columns hold
encoded keys and whose rows of that type number less than `2^31 - 1`, so that
the page number is an `int32`. -/
theorem C8_put_after_delete_visible (gs : graphStore) (faultD faultP : Nat → Bool)
    (tD tP : Nat) (item item' : GraphItem)
    (hsame : item'.sameIdentity item)
    (henc : gs.keysEncoded)
    (hsize : (gs.dts_graphdata.filter
      (fun r => r.graph_item_type == item.GraphItemType)).length < 2147483647)
    (hok : ((gs.Delete faultD tD { Items := [item] }).1.Put faultP tP { Items := [item'] }).2 =
      .ok {}) :
    (∀ count : Int, ∃ page : Int, 1 ≤ page ∧ page < 2147483648 ∧ ∃ items,
      ((gs.Delete faultD tD { Items := [item] }).1.Put faultP tP { Items := [item'] }).1.List
          { Page := page, Count := count, Type_ := item'.GraphItemType } =
        .ok { Items := items } ∧ item'.stored ∈ items) ∧
    (∀ q : FindRequest, ∃ before after,
      gs.FindUpstream q = .ok { Pairs := before } ∧
      ((gs.Delete faultD tD { Items := [item] }).1.Put faultP tP
        { Items := [item'] }).1.FindUpstream q = .ok { Pairs := after } ∧
      ∀ p ∈ before,
        (p.Edge.sameIdentity item → { Node := p.Node, Edge := item'.stored } ∈ after) ∧
        (p.Node.sameIdentity item → { Node := item'.stored, Edge := p.Edge } ∈ after)) ∧
    (∀ q : FindRequest, ∃ before after,
      gs.FindDownstream q = .ok { Pairs := before } ∧
      ((gs.Delete faultD tD { Items := [item] }).1.Put faultP tP
        { Items := [item'] }).1.FindDownstream q = .ok { Pairs := after } ∧
      ∀ p ∈ before,
        (p.Edge.sameIdentity item → { Node := p.Node, Edge := item'.stored } ∈ after) ∧
        (p.Node.sameIdentity item → { Node := item'.stored, Edge := p.Edge } ∈ after)) := by
  refine ⟨fun count => list_put_after_delete hsame hsize hok count, fun q => ?_, fun q => ?_⟩
  · exact ⟨_, _, findUpstream_eq gs q, findUpstream_eq _ q,
      fun p hp => upstream_put_after_delete hsame henc hok _ _ p hp⟩
  · exact ⟨_, _, findDownstream_eq gs q, findDownstream_eq _ q,
      fun p hp => downstream_put_after_delete hsame henc hok _ _ p hp⟩

/-- C8 at the test store: the edge `1001 -> 2002` is deleted and put again with
a new payload. -/
theorem C8_put_after_delete_visible_witness :
    ({ testItem "edge" (testKey 1) (testKey 2) [] with GraphItemData := [byteOf 9] }
        : GraphItem).sameIdentity (testItem "edge" (testKey 1) (testKey 2) []) ∧
    testStore.keysEncoded ∧
    ((testStore.Delete noFault 2 { Items := [testItem "edge" (testKey 1) (testKey 2) []] }).1.Put
      noFault 3 { Items := [{ testItem "edge" (testKey 1) (testKey 2) [] with
        GraphItemData := [byteOf 9] }] }).2 = .ok {} ∧
    ∃ page : Int, 1 ≤ page ∧ page < 2147483648 ∧ ∃ items,
      ((testStore.Delete noFault 2
          { Items := [testItem "edge" (testKey 1) (testKey 2) []] }).1.Put noFault 3
          { Items := [{ testItem "edge" (testKey 1) (testKey 2) [] with
            GraphItemData := [byteOf 9] }] }).1.List
          { Page := page, Count := 10, Type_ := "edge" } = .ok { Items := items } ∧
        ({ testItem "edge" (testKey 1) (testKey 2) [] with GraphItemData := [byteOf 9] }
          : GraphItem).stored ∈ items :=
  ⟨by decide, by decide, by decide,
   (C8_put_after_delete_visible testStore noFault noFault 2 3
      (testItem "edge" (testKey 1) (testKey 2) [])
      { testItem "edge" (testKey 1) (testKey 2) [] with GraphItemData := [byteOf 9] }
      (by decide) (by decide) (by decide) (by decide)).1 10⟩

/-! ## Every reachable table holds encoded keys -/

theorem execEach_preserves {α : Type} (fault : Nat → Bool) (stmt : List Row → α → List Row)
    (P : List Row → Prop) (hstmt : ∀ table item, P table → P (stmt table item)) :
    ∀ (items : List α) (i : Nat) (table : List Row) (errors : List Error),
      P table → P (execEach fault stmt i items table errors).1 := by
  intro items
  induction items with
  | nil => intro i table errors h; exact h
  | cons x xs ih =>
    intro i table errors h
    by_cases hf : fault i = true
    · simp only [execEach, hf, if_true]; exact ih _ _ _ h
    · simp only [execEach, hf]; exact ih _ _ _ (hstmt _ _ h)

theorem keysEncoded_new (rwdb : Bool) : (NewSQLGraphStore rwdb none).keysEncoded := by
  intro r hr
  simp [NewSQLGraphStore] at hr

theorem row_keysEncoded (item : GraphItem) (timestamp : Nat) :
    (item.row timestamp).keysEncoded := by
  simp [Row.keysEncoded, GraphItem.row, Base64decode_Base64encode]

theorem keysEncoded_put (gs : graphStore) (fault : Nat → Bool) (timestamp : Nat)
    (req : PutRequest) (h : gs.keysEncoded) : (gs.Put fault timestamp req).1.keysEncoded := by
  have hp := execEach_preserves fault (execInsert timestamp) (fun t => ∀ r ∈ t, r.keysEncoded)
    (by
      intro table item ht r hr
      rw [execInsert_eq, List.mem_append] at hr
      rcases hr with h1 | h1
      · exact ht r (List.mem_filter.mp h1).1
      · rw [List.mem_singleton] at h1
        rw [h1]; exact row_keysEncoded item timestamp)
    req.Items 0 gs.dts_graphdata [] h
  unfold graphStore.Put graphStore.keysEncoded
  split
  · exact h
  · split
    · exact h
    · dsimp only
      split <;> exact hp

theorem keysEncoded_delete (gs : graphStore) (fault : Nat → Bool) (timestamp : Nat)
    (req : DeleteRequest) (h : gs.keysEncoded) :
    (gs.Delete fault timestamp req).1.keysEncoded := by
  have hp := execEach_preserves fault (execDelete timestamp) (fun t => ∀ r ∈ t, r.keysEncoded)
    (by
      intro table item ht r hr
      rw [execDelete_eq_map] at hr
      obtain ⟨r0, hr0, rfl⟩ := List.mem_map.mp hr
      have := ht r0 hr0
      unfold stampRow
      split
      · exact this
      · exact this)
    req.Items 0 gs.dts_graphdata [] h
  unfold graphStore.Delete graphStore.keysEncoded
  split
  · exact h
  · split
    · exact h
    · dsimp only
      split <;> exact hp

/-! ## Rejected and empty writes -/

/-- C12: on a store with no write handle, `Put` and `Delete` of every request
(the empty one included, whatever the driver would do and at every instant)
return no response and the error `ErrUnsupported`, and leave the store as it
is. -/
theorem C12_read_only_rejects_writes (gs : graphStore) (hro : gs.rwdb = false)
    (fault : Nat → Bool) (timestamp : Nat) (items : List GraphItem) :
    gs.Put fault timestamp { Items := items } = (gs, .error .ErrUnsupported) ∧
      gs.Delete fault timestamp { Items := items } = (gs, .error .ErrUnsupported) := by
  constructor
  · simp [graphStore.Put, hro]
  · simp [graphStore.Delete, hro]

/-- C12 at a read-only store holding the test data, for the empty request and
for the test batch. -/
theorem C12_read_only_rejects_writes_witness :
    readOnlyStore.rwdb = false ∧
      readOnlyStore.Put noFault 5 { Items := [] } = (readOnlyStore, .error .ErrUnsupported) ∧
      readOnlyStore.Delete noFault 5 { Items := testData } =
        (readOnlyStore, .error .ErrUnsupported) :=
  ⟨rfl, (C12_read_only_rejects_writes readOnlyStore rfl noFault 5 []).1,
    (C12_read_only_rejects_writes readOnlyStore rfl noFault 5 testData).2⟩

/-- C13: on a writable store, `Put` with no items and `Delete` with no items
return an empty response and no error, and leave the store as it is, whatever
the driver would do to a statement. -/
theorem C13_empty_batch_is_noop (gs : graphStore) (hw : gs.rwdb = true) (fault : Nat → Bool)
    (timestamp : Nat) :
    gs.Put fault timestamp { Items := [] } = (gs, .ok {}) ∧
      gs.Delete fault timestamp { Items := [] } = (gs, .ok {}) := by
  constructor
  · simp [graphStore.Put, hw]
  · simp [graphStore.Delete, hw]

/-- C13 at the test store, with a driver that would fail every statement. -/
theorem C13_empty_batch_is_noop_witness :
    testStore.rwdb = true ∧
      testStore.Put (fun _ => true) 5 { Items := [] } = (testStore, .ok {}) ∧
      testStore.Delete (fun _ => true) 5 { Items := [] } = (testStore, .ok {}) :=
  ⟨by decide, C13_empty_batch_is_noop testStore (by decide) (fun _ => true) 5⟩

/-! ## Paging of `List` -/

theorem tracker_max_eq (a b : Int) : Tracker.max a b = max a b := by
  unfold Tracker.max
  split_ifs with h
  · exact (max_eq_left (le_of_lt h)).symm
  · exact (max_eq_right (not_lt.mp h)).symm

theorem tracker_min_eq (a b : Int) : Tracker.min a b = min a b := by
  unfold Tracker.min
  split_ifs with h
  · exact (min_eq_left (le_of_lt h)).symm
  · exact (min_eq_right (not_lt.mp h)).symm

/-- The paging of `List`: for every store and request, `List` answers with the
rows the list statement selects for the request's type with limit
`max (min count 100) 10`, which lies in `[10, 100]`, and offset
`(max page 1 - 1) * limit` computed in `int32`; the offset is that product
itself whenever the product is below `2^31`. Hence `List(type, 0, 1000)`
equals `List(type, 1, 100)` and `List(type, 1, 1)` equals
`List(type, 1, 10)`. -/
theorem list_paging (gs : graphStore) (page count : Int) (t : String) :
    gs.List { Page := page, Count := count, Type_ := t } =
        .ok ⟨readGraphItems (listGraphData gs.dts_graphdata t (max (min count 100) 10)
          (wrapInt32 ((max page 1 - 1) * max (min count 100) 10)))⟩ ∧
      10 ≤ max (min count 100) 10 ∧ max (min count 100) 10 ≤ 100 ∧
      ((max page 1 - 1) * max (min count 100) 10 < 2147483648 →
        wrapInt32 ((max page 1 - 1) * max (min count 100) 10) =
          (max page 1 - 1) * max (min count 100) 10) ∧
      gs.List { Page := 0, Count := 1000, Type_ := t } =
        gs.List { Page := 1, Count := 100, Type_ := t } ∧
      gs.List { Page := 1, Count := 1, Type_ := t } =
        gs.List { Page := 1, Count := 10, Type_ := t } := by
  refine ⟨?_, le_max_right _ _, max_le (min_le_right _ _) (by decide), ?_, rfl, rfl⟩
  · simp only [graphStore.List, tracker_max_eq, tracker_min_eq]
  · intro h
    apply wrapInt32_of_range _ _ h
    have h1 : 0 ≤ max page 1 - 1 := by
      have := le_max_right page 1
      omega
    have h2 : (0 : Int) ≤ max (min count 100) 10 := le_trans (by decide) (le_max_right _ _)
    have := mul_nonneg h1 h2
    omega

/-- C15, evaluated: for page `2147483647` and count `100` the effective page is
`2147483647` and the limit `100`, so the offset of the claim is the product
`2147483646 * 100 = 214748364600`; the offset `List` passes to the list
statement is the `int32` value of that product, `-200`. With the product as
offset the statement selects no row of the test store; `List` returns its six
nodes, as for page 1. -/
theorem C15_offset_is_not_the_product :
    Tracker.max 2147483647 1 = 2147483647 ∧
      Tracker.max (Tracker.min 100 100) 10 = 100 ∧
      (Tracker.max 2147483647 1 - 1) * Tracker.max (Tracker.min 100 100) 10 = 214748364600 ∧
      testStore.List { Page := 2147483647, Count := 100, Type_ := "node" } =
        .ok ⟨readGraphItems (listGraphData testStore.dts_graphdata "node" 100 (-200))⟩ ∧
      readGraphItems (listGraphData testStore.dts_graphdata "node" 100 214748364600) = [] ∧
      (testStore.List { Page := 2147483647, Count := 100, Type_ := "node" }).toOption.map
        (fun r => r.Items.length) = some 6 ∧
      testStore.List { Page := 2147483647, Count := 100, Type_ := "node" } =
        testStore.List { Page := 1, Count := 100, Type_ := "node" } := by
  decide

/-! ## Driver names -/

/-- C16: `ResolveDriverName` returns no error exactly for the names `mysql`,
`sqlite` and `postgres`, with the driver names `mysql`, `sqlite3` and `pgx`;
for every other name it returns the empty driver name and an error whose
message is the name followed by a text that lists `mysql/postgres/sqlite`. -/
theorem C16_resolveDriverName (dbmsName : String) :
    ((ResolveDriverName dbmsName).2 = none ↔
        dbmsName = "mysql" ∨ dbmsName = "sqlite" ∨ dbmsName = "postgres") ∧
      ResolveDriverName "mysql" = ("mysql", none) ∧
      ResolveDriverName "sqlite" = ("sqlite3", none) ∧
      ResolveDriverName "postgres" = ("pgx", none) ∧
      (¬ (dbmsName = "mysql" ∨ dbmsName = "sqlite" ∨ dbmsName = "postgres") →
        ResolveDriverName dbmsName =
          ("", some (dbmsName ++ (" not supported, specify one of the supported systems; " ++
            "mysql/postgres/sqlite")))) := by
  refine ⟨?_, by decide, by decide, by decide, ?_⟩
  · unfold ResolveDriverName
    by_cases h1 : dbmsName = "mysql"
    · simp [h1]
    · by_cases h2 : dbmsName = "sqlite"
      · simp [h2]
      · by_cases h3 : dbmsName = "postgres"
        · simp [h3]
        · simp [h1, h2, h3]
  · intro h
    simp only [not_or] at h
    obtain ⟨h1, h2, h3⟩ := h
    simp [ResolveDriverName, h1, h2, h3]

/-- C16 at the name of the repository's test that is not supported. -/
theorem C16_resolveDriverName_witness :
    ResolveDriverName "noDB" =
      ("", some "noDB not supported, specify one of the supported systems; mysql/postgres/sqlite") :=
  (C16_resolveDriverName "noDB").2.2.2.2 (by decide)

/-! ## Batches with failing statements -/

/-- The write loop runs the statements of the items the driver does not fail,
in order, and collects one error per failed statement. -/
theorem execEach_eq {α : Type} (fault : Nat → Bool) (stmt : List Row → α → List Row) :
    ∀ (items : List α) (i : Nat) (table : List Row) (errors : List Error),
      execEach fault stmt i items table errors =
        ((executed fault i items).foldl stmt table, errors ++ failures fault i items) := by
  intro items
  induction items with
  | nil => intro i table errors; simp [execEach, executed, failures]
  | cons x xs ih =>
    intro i table errors
    by_cases hf : fault i = true
    · simp only [execEach, hf, if_true, ih]
      simp [executed, failures, List.enumFrom_cons, List.filter_cons, hf]
    · simp only [execEach, hf, ih]
      simp [executed, failures, List.enumFrom_cons, List.filter_cons, hf]

theorem failures_eq_nil_iff {α : Type} (fault : Nat → Bool) :
    ∀ (items : List α) (i : Nat),
      failures fault i items = [] ↔ ∀ j, j < items.length → fault (i + j) = false := by
  intro items
  induction items with
  | nil => intro i; simp [failures]
  | cons x xs ih =>
    intro i
    have hcons : failures fault i (x :: xs) =
        (if fault i then [Error.driver i] else []) ++ failures fault (i + 1) xs := by
      by_cases hf : fault i = true <;>
        simp [failures, List.enumFrom_cons, List.filter_cons, hf]
    rw [hcons, List.append_eq_nil, ih]
    constructor
    · rintro ⟨h0, hrest⟩ j hj
      cases j with
      | zero =>
        by_cases hf : fault i = true
        · simp [hf] at h0
        · simpa using hf
      | succ k =>
        have := hrest k (by simpa using hj)
        rwa [show i + (k + 1) = i + 1 + k by omega]
    · intro h
      constructor
      · have := h 0 (by simp)
        simp at this
        simp [this]
      · intro j hj
        have := h (j + 1) (by simp; omega)
        rwa [show i + (j + 1) = i + 1 + j by omega] at this

theorem executed_append {α : Type} (fault : Nat → Bool) (i : Nat) (pre post : List α) :
    executed fault i (pre ++ post) =
      executed fault i pre ++ executed fault (i + pre.length) post := by
  induction pre generalizing i with
  | nil => simp [executed]
  | cons x xs ih =>
    have hc : ∀ (l : List α), executed fault i (x :: l) =
        (if fault i then [] else [x]) ++ executed fault (i + 1) l := by
      intro l
      by_cases hf : fault i = true <;>
        simp [executed, List.enumFrom_cons, List.filter_cons, hf]
    rw [List.cons_append, hc, hc, ih, List.append_assoc, List.length_cons,
      show i + 1 + xs.length = i + (xs.length + 1) by omega]

theorem executed_cons_ok {α : Type} (fault : Nat → Bool) (i : Nat) (x : α) (xs : List α)
    (hf : fault i = false) :
    executed fault i (x :: xs) = x :: executed fault (i + 1) xs := by
  simp [executed, List.enumFrom_cons, List.filter_cons, hf]

theorem executed_cons {α : Type} (fault : Nat → Bool) (i : Nat) (x : α) (xs : List α) :
    executed fault i (x :: xs) =
      (if fault i then [] else [x]) ++ executed fault (i + 1) xs := by
  by_cases hf : fault i = true <;>
    simp [executed, List.enumFrom_cons, List.filter_cons, hf]

theorem mem_of_mem_executed {α : Type} (fault : Nat → Bool) :
    ∀ (items : List α) (i : Nat) (x : α), x ∈ executed fault i items → x ∈ items := by
  intro items
  induction items with
  | nil => intro i x h; simp [executed] at h
  | cons y ys ih =>
    intro i x h
    rw [executed_cons, List.mem_append] at h
    rcases h with h | h
    · by_cases hf : fault i = true
      · simp [hf] at h
      · simp [hf] at h
        rw [h]; exact List.mem_cons_self _ _
    · exact List.mem_cons_of_mem _ (ih _ _ h)

/-- The item at a position the driver does not fail is among the executed. -/
theorem mem_executed_of_getElem {α : Type} (fault : Nat → Bool) :
    ∀ (items : List α) (i j : Nat) (x : α), items[j]? = some x → fault (i + j) = false →
      x ∈ executed fault i items := by
  intro items
  induction items with
  | nil => intro i j x h; simp at h
  | cons y ys ih =>
    intro i j x h hf
    have hc : executed fault i (y :: ys) =
        (if fault i then [] else [y]) ++ executed fault (i + 1) ys := by
      by_cases hf : fault i = true <;>
        simp [executed, List.enumFrom_cons, List.filter_cons, hf]
    rw [hc, List.mem_append]
    cases j with
    | zero =>
      left
      simp at h hf
      simp [hf, h]
    | succ k =>
      right
      simp at h
      exact ih (i + 1) k x h (by rwa [show i + 1 + k = i + (k + 1) by omega])

/-- What `Put` does on a writable store: it runs the insert statement of every
item the driver does not fail and reports an error when some statement
failed. -/
theorem put_eq (gs : graphStore) (hw : gs.rwdb = true) (fault : Nat → Bool) (timestamp : Nat)
    (items : List GraphItem) :
    gs.Put fault timestamp { Items := items } =
      ({ gs with dts_graphdata :=
          (executed fault 0 items).foldl (execInsert timestamp) gs.dts_graphdata },
        if failures (α := GraphItem) fault 0 items = [] then .ok {}
        else .error .ErrPartialInsertion) := by
  unfold graphStore.Put
  by_cases h0 : items = []
  · subst h0
    simp [hw, executed, failures]
    cases gs
    simp_all
  · have hlen : ¬ items.length = 0 := fun h => h0 (List.length_eq_zero.mp h)
    simp only [hw, Bool.true_eq_false, if_false, hlen, execEach_eq, List.nil_append]
    by_cases hf : failures (α := GraphItem) fault 0 items = []
    · simp [hf]
    · have : (failures (α := GraphItem) fault 0 items).length > 0 :=
        List.length_pos.mpr hf
      simp [hf, this]

/-- What `Delete` does on a writable store. -/
theorem delete_eq (gs : graphStore) (hw : gs.rwdb = true) (fault : Nat → Bool)
    (timestamp : Nat) (items : List GraphItem) :
    gs.Delete fault timestamp { Items := items } =
      ({ gs with dts_graphdata :=
          (executed fault 0 items).foldl (execDelete timestamp) gs.dts_graphdata },
        if failures (α := GraphItem) fault 0 items = [] then .ok {}
        else .error .ErrPartialDeletion) := by
  unfold graphStore.Delete
  by_cases h0 : items = []
  · subst h0
    simp [hw, executed, failures]
    cases gs
    simp_all
  · have hlen : ¬ items.length = 0 := fun h => h0 (List.length_eq_zero.mp h)
    simp only [hw, Bool.true_eq_false, if_false, hlen, execEach_eq, List.nil_append]
    by_cases hf : failures (α := GraphItem) fault 0 items = []
    · simp [hf]
    · have : (failures (α := GraphItem) fault 0 items).length > 0 :=
        List.length_pos.mpr hf
      simp [hf, this]

theorem failures_ne_nil_iff {α : Type} (fault : Nat → Bool) (items : List α) :
    failures fault 0 items ≠ [] ↔ ∃ j, j < items.length ∧ fault j = true := by
  rw [Ne, failures_eq_nil_iff]
  simp only [Nat.zero_add, not_forall, Bool.not_eq_false, exists_prop]

/-- C14: batch writes are all-attempted and not atomic. On a writable store,
for every batch and every behaviour of the driver, the table after `Put` is
the old table with the insert statement run, in order, for exactly the items
whose statement the driver did not fail (so a failure stops nothing);
`Put` returns `ErrPartialInsertion` and no response exactly when some
statement failed, and an empty response otherwise; and an item whose own
statement succeeded, and which no later item of the batch overwrites, has its
row in the table even when the call fails. `Delete` does the same with the
delete statement and `ErrPartialDeletion`: the rows matching an item whose
statement succeeded are stamped with the delete time. -/
theorem C14_batch_all_attempted (gs : graphStore) (hw : gs.rwdb = true) (fault : Nat → Bool)
    (timestamp : Nat) (items : List GraphItem) :
    ((gs.Put fault timestamp { Items := items }).1.dts_graphdata =
        (executed fault 0 items).foldl (execInsert timestamp) gs.dts_graphdata) ∧
    ((gs.Put fault timestamp { Items := items }).2 = .error .ErrPartialInsertion ↔
        ∃ j, j < items.length ∧ fault j = true) ∧
    ((gs.Put fault timestamp { Items := items }).2 = .ok {} ↔
        ∀ j, j < items.length → fault j = false) ∧
    (∀ pre item post, items = pre ++ item :: post → fault pre.length = false →
        (∀ x ∈ post, ¬ x.sameIdentity item) →
        (gs.Put fault timestamp { Items := items }).1.dts_graphdata.filter
            (fun r => decide (r.hasIdentityOf item)) = [item.row timestamp]) ∧
    ((gs.Delete fault timestamp { Items := items }).1.dts_graphdata =
        (executed fault 0 items).foldl (execDelete timestamp) gs.dts_graphdata) ∧
    ((gs.Delete fault timestamp { Items := items }).2 = .error .ErrPartialDeletion ↔
        ∃ j, j < items.length ∧ fault j = true) ∧
    ((gs.Delete fault timestamp { Items := items }).2 = .ok {} ↔
        ∀ j, j < items.length → fault j = false) ∧
    (∀ j item, items[j]? = some item → fault j = false →
        ∀ r ∈ (gs.Delete fault timestamp { Items := items }).1.dts_graphdata,
          r.hasIdentityOf item → r.date_deleted = some timestamp) := by
  have hnil := failures_eq_nil_iff (α := GraphItem) fault items 0
  simp only [Nat.zero_add] at hnil
  have hne := failures_ne_nil_iff (α := GraphItem) fault items
  rw [put_eq gs hw, delete_eq gs hw]
  refine ⟨rfl, ?_, ?_, ?_, rfl, ?_, ?_, ?_⟩
  · rw [← hne]
    by_cases hf : failures (α := GraphItem) fault 0 items = [] <;> simp [hf]
  · rw [← hnil]
    by_cases hf : failures (α := GraphItem) fault 0 items = [] <;> simp [hf]
  · intro pre item post hitems hfault hpost
    subst hitems
    simp only
    rw [executed_append, Nat.zero_add, executed_cons_ok fault _ item post hfault,
      List.foldl_append, List.foldl_cons,
      filter_identity_foldl_other timestamp item _ _
        (fun x hx => hpost x (mem_of_mem_executed fault post _ x hx)),
      filter_identity_execInsert_self]
  · rw [← hne]
    by_cases hf : failures (α := GraphItem) fault 0 items = [] <;> simp [hf]
  · rw [← hnil]
    by_cases hf : failures (α := GraphItem) fault 0 items = [] <;> simp [hf]
  · intro j item hj hfault r hr hid
    simp only at hr
    rw [foldl_execDelete_eq_map] at hr
    obtain ⟨r0, -, rfl⟩ := List.mem_map.mp hr
    exact foldl_stampRow_of_mem timestamp item _ r0
      (mem_executed_of_getElem fault items 0 j item hj (by simpa using hfault))
      ((foldl_stampRow_hasIdentityOf timestamp item _ r0).mp hid)

/-- C14 at an empty writable store and a batch of three nodes of which the
driver fails the second: the call fails and the first and third are stored. -/
theorem C14_batch_all_attempted_witness :
    (NewSQLGraphStore true none).rwdb = true ∧
    ((NewSQLGraphStore true none).Put secondFails 1 { Items := threeNodes }).2 =
      .error .ErrPartialInsertion ∧
    ((NewSQLGraphStore true none).Put secondFails 1 { Items := threeNodes }).1.dts_graphdata =
      [(testItem "node" (testKey 1) (testKey 1) []).row 1,
       (testItem "node" (testKey 3) (testKey 3) []).row 1] :=
  ⟨rfl,
   (C14_batch_all_attempted (NewSQLGraphStore true none) rfl secondFails 1 threeNodes).2.1.mpr
     ⟨1, by decide, rfl⟩,
   (C14_batch_all_attempted (NewSQLGraphStore true none) rfl secondFails 1 threeNodes).1.trans
     (by decide)⟩

/-! ## `Delete` twice -/

theorem matchesAny_stamp (r : Row) (d : Option Nat) (items : List GraphItem) :
    Row.matchesAny { r with date_deleted := d } items = r.matchesAny items := rfl

/-- The delete statements of a batch, seen from one row: the row is stamped
when it has the identity of some item of the batch and is left alone
otherwise. -/
theorem foldl_stampRow_eq (timestamp : Nat) :
    ∀ (items : List GraphItem) (r : Row),
      items.foldl (stampRow timestamp) r =
        if r.matchesAny items then { r with date_deleted := some timestamp } else r := by
  intro items
  induction items with
  | nil => intro r; simp [Row.matchesAny]
  | cons x xs ih =>
    intro r
    rw [List.foldl_cons, ih]
    by_cases hx : r.hasIdentityOf x
    · have hs : stampRow timestamp r x = { r with date_deleted := some timestamp } := by
        obtain ⟨h1, h2, h3⟩ := hx
        simp [stampRow, h1, h2, h3]
      have hm : r.matchesAny (x :: xs) = true := by simp [Row.matchesAny, hx]
      rw [hs, matchesAny_stamp, hm]
      by_cases hxs : r.matchesAny xs = true <;> simp [hxs]
    · have hs : stampRow timestamp r x = r := by
        unfold stampRow
        split
        · rename_i hc
          simp only [Bool.and_eq_true, beq_iff_eq] at hc
          exact absurd ⟨hc.1.1, hc.1.2, hc.2⟩ hx
        · rfl
      have hm : r.matchesAny (x :: xs) = r.matchesAny xs := by simp [Row.matchesAny, hx]
      rw [hs, hm]

theorem foldl_execDelete_eq (timestamp : Nat) (items : List GraphItem) (table : List Row) :
    items.foldl (execDelete timestamp) table =
      table.map (fun r =>
        if r.matchesAny items then { r with date_deleted := some timestamp } else r) := by
  rw [foldl_execDelete_eq_map]
  apply List.map_congr_left
  intro r _
  exact foldl_stampRow_eq timestamp items r

/-- Running the delete statements of a batch again, at a later instant, gives
the table a single run at that instant gives. -/
theorem foldl_execDelete_twice (t1 t2 : Nat) (items : List GraphItem) (table : List Row) :
    items.foldl (execDelete t2) (items.foldl (execDelete t1) table) =
      items.foldl (execDelete t2) table := by
  rw [foldl_execDelete_eq t2, foldl_execDelete_eq t1, foldl_execDelete_eq t2, List.map_map]
  apply List.map_congr_left
  intro r _
  simp only [Function.comp]
  by_cases hm : r.matchesAny items = true
  · simp [hm, matchesAny_stamp]
  · simp [hm]

/-- The second run changes at most the instant of the tombstones. -/
theorem foldl_execDelete_twice_untimed (t1 t2 : Nat) (items : List GraphItem)
    (table : List Row) :
    (items.foldl (execDelete t2) (items.foldl (execDelete t1) table)).map Row.untimed =
      (items.foldl (execDelete t1) table).map Row.untimed := by
  rw [foldl_execDelete_twice, foldl_execDelete_eq t2, foldl_execDelete_eq t1, List.map_map,
    List.map_map]
  apply List.map_congr_left
  intro r _
  simp only [Function.comp]
  by_cases hm : r.matchesAny items = true
  · simp [hm, Row.untimed]
  · simp [hm]

/-- A batch that matches no row leaves the table as it is. -/
theorem foldl_execDelete_of_no_match (timestamp : Nat) (items : List GraphItem)
    (table : List Row) (h : ∀ item ∈ items, ∀ r ∈ table, ¬ r.hasIdentityOf item) :
    items.foldl (execDelete timestamp) table = table := by
  rw [foldl_execDelete_eq]
  conv_rhs => rw [← List.map_id table]
  apply List.map_congr_left
  intro r hr
  have hm : r.matchesAny items = false := by
    simp only [Row.matchesAny, List.any_eq_false, decide_eq_true_eq]
    intro x hx
    exact h x hx r hr
  simp [hm]

/-! ## Reads do not see the instant of a tombstone -/

theorem listGraphData_untimed (table : List Row) (t : String) (limit offset : Int) :
    listGraphData (table.map Row.untimed) t limit offset = listGraphData table t limit offset := by
  have hc : Row.columns ∘ Row.untimed = Row.columns := funext fun _ => rfl
  have hp : (fun r : Row => r.graph_item_type == t) ∘ Row.untimed =
      fun r : Row => r.graph_item_type == t := funext fun _ => rfl
  unfold listGraphData
  simp only [List.filter_map, ← List.map_drop, ← List.map_take, hp]
  split <;> rw [List.map_map, hc]

theorem untimed_isNone (r : Row) : r.untimed.date_deleted.isNone = r.date_deleted.isNone := by
  cases h : r.date_deleted <;> simp [Row.untimed, h]

theorem selectUpstream_untimed (table : List Row) (key : String) (edgeTypes : List String) :
    selectGraphDataUpstreamDependencies (table.map Row.untimed) key edgeTypes =
      selectGraphDataUpstreamDependencies table key edgeTypes := by
  unfold selectGraphDataUpstreamDependencies
  simp only [List.flatMap_map, List.filter_map, List.map_map]
  apply List.flatMap_congr
  intro g1 _
  have hc : (fun g2 : Row => (g1.untimed.columns, g2.columns)) ∘ Row.untimed =
      fun g2 : Row => (g1.columns, g2.columns) := funext fun _ => rfl
  rw [hc]
  congr 1
  apply List.filter_congr
  intro g2 _
  simp only [Function.comp, untimed_isNone]
  rfl

theorem selectDownstream_untimed (table : List Row) (key : String) (edgeTypes : List String) :
    selectGraphDataDownstreamDependencies (table.map Row.untimed) key edgeTypes =
      selectGraphDataDownstreamDependencies table key edgeTypes := by
  unfold selectGraphDataDownstreamDependencies
  simp only [List.flatMap_map, List.filter_map, List.map_map]
  apply List.flatMap_congr
  intro g1 _
  have hc : (fun g2 : Row => (g1.untimed.columns, g2.columns)) ∘ Row.untimed =
      fun g2 : Row => (g1.columns, g2.columns) := funext fun _ => rfl
  rw [hc]
  congr 1
  apply List.filter_congr
  intro g2 _
  simp only [Function.comp, untimed_isNone]
  rfl

/-- Two stores whose tables agree up to the instants of the tombstones answer
every read alike. -/
theorem reads_eq_of_untimed_eq {s1 s2 : graphStore}
    (h : s1.dts_graphdata.map Row.untimed = s2.dts_graphdata.map Row.untimed) :
    (∀ req, s1.List req = s2.List req) ∧ (∀ req, s1.FindUpstream req = s2.FindUpstream req) ∧
      (∀ req, s1.FindDownstream req = s2.FindDownstream req) := by
  refine ⟨fun req => ?_, fun req => ?_, fun req => ?_⟩
  · unfold graphStore.List
    simp only
    rw [← listGraphData_untimed s1.dts_graphdata, ← listGraphData_untimed s2.dts_graphdata, h]
  · rw [findUpstream_eq, findUpstream_eq, ← selectUpstream_untimed s1.dts_graphdata,
      ← selectUpstream_untimed s2.dts_graphdata, h]
  · rw [findDownstream_eq, findDownstream_eq, ← selectDownstream_untimed s1.dts_graphdata,
      ← selectDownstream_untimed s2.dts_graphdata, h]

/-- `Delete` on a writable store whose driver fails no statement of the batch. -/
theorem delete_eq_of_no_fault (gs : graphStore) (hw : gs.rwdb = true) (fault : Nat → Bool)
    (timestamp : Nat) (items : List GraphItem)
    (hf : ∀ i, i < items.length → fault i = false) :
    gs.Delete fault timestamp { Items := items } =
      ({ gs with dts_graphdata := items.foldl (execDelete timestamp) gs.dts_graphdata },
        .ok {}) := by
  have hnil : failures (α := GraphItem) fault 0 items = [] :=
    (failures_eq_nil_iff fault items 0).mpr (by simpa using hf)
  have hex : executed fault 0 items = items := by
    have key : ∀ (l : List GraphItem) (i : Nat),
        (∀ j, j < l.length → fault (i + j) = false) → executed fault i l = l := by
      intro l
      induction l with
      | nil => intro i _; simp [executed]
      | cons x xs ih =>
        intro i h
        have h0 : fault i = false := by simpa using h 0 (by simp)
        rw [executed_cons_ok fault i x xs h0, ih (i + 1)]
        intro j hj
        have := h (j + 1) (by simp; omega)
        rwa [show i + (j + 1) = i + 1 + j by omega] at this
    exact key items 0 (by simpa using hf)
  rw [delete_eq gs hw, hnil, hex]
  rfl

/-- C11, as the code has it: the second `Delete` carries its own instant. The
test store after deleting node `3003` at instant 2 and again at instant 3
(both calls without error) is not the store after the first `Delete`: the
tombstone of the row reads 3, not 2. -/
theorem C11_second_delete_restamps :
    (testStore.Delete noFault 2 { Items := [testItem "node" (testKey 3) (testKey 3) []] }).2 =
        .ok {} ∧
      ((testStore.Delete noFault 2
          { Items := [testItem "node" (testKey 3) (testKey 3) []] }).1.Delete noFault 3
          { Items := [testItem "node" (testKey 3) (testKey 3) []] }).2 = .ok {} ∧
      ((testStore.Delete noFault 2
          { Items := [testItem "node" (testKey 3) (testKey 3) []] }).1.Delete noFault 3
          { Items := [testItem "node" (testKey 3) (testKey 3) []] }).1 ≠
        (testStore.Delete noFault 2
          { Items := [testItem "node" (testKey 3) (testKey 3) []] }).1 := by
  decide

/-- C11, amended: on a writable store, when the driver fails no statement,
deleting a batch twice returns no error on either call and leaves the state a
single `Delete` at the instant of the second call leaves; this state has the
rows of the state after the first call, in the same order, equal in every
column and in being tombstoned or not (only the instant of the matched
tombstones is the second one), it is the very same state when both calls
carry the same instant, and every `List`, `FindUpstream` and
`FindDownstream` request gets the same answer after the second call as after
the first. Deleting items whose identities are not in the table returns no
error and leaves the state unchanged. -/
theorem C11_delete_idempotent (gs : graphStore) (hw : gs.rwdb = true)
    (fault1 fault2 : Nat → Bool) (t1 t2 : Nat) (items : List GraphItem)
    (h1 : ∀ i, i < items.length → fault1 i = false)
    (h2 : ∀ i, i < items.length → fault2 i = false) :
    (gs.Delete fault1 t1 { Items := items }).2 = .ok {} ∧
    ((gs.Delete fault1 t1 { Items := items }).1.Delete fault2 t2 { Items := items }).2 =
      .ok {} ∧
    ((gs.Delete fault1 t1 { Items := items }).1.Delete fault2 t2 { Items := items }).1 =
      (gs.Delete fault2 t2 { Items := items }).1 ∧
    (((gs.Delete fault1 t1 { Items := items }).1.Delete fault2 t2
        { Items := items }).1.dts_graphdata.map
        (fun r => (r.graph_item_type, r.k1, r.k2, r.encoding, r.graph_item_data,
          r.last_modified, r.date_deleted.isSome)) =
      (gs.Delete fault1 t1 { Items := items }).1.dts_graphdata.map
        (fun r => (r.graph_item_type, r.k1, r.k2, r.encoding, r.graph_item_data,
          r.last_modified, r.date_deleted.isSome))) ∧
    (t1 = t2 →
      ((gs.Delete fault1 t1 { Items := items }).1.Delete fault2 t2 { Items := items }).1 =
        (gs.Delete fault1 t1 { Items := items }).1) ∧
    (∀ q, ((gs.Delete fault1 t1 { Items := items }).1.Delete fault2 t2 { Items := items }).1.List
        q = (gs.Delete fault1 t1 { Items := items }).1.List q) ∧
    (∀ q, ((gs.Delete fault1 t1 { Items := items }).1.Delete fault2 t2
        { Items := items }).1.FindUpstream q =
      (gs.Delete fault1 t1 { Items := items }).1.FindUpstream q) ∧
    (∀ q, ((gs.Delete fault1 t1 { Items := items }).1.Delete fault2 t2
        { Items := items }).1.FindDownstream q =
      (gs.Delete fault1 t1 { Items := items }).1.FindDownstream q) ∧
    ((∀ item ∈ items, ∀ r ∈ gs.dts_graphdata, ¬ r.hasIdentityOf item) →
      gs.Delete fault1 t1 { Items := items } = (gs, .ok {})) := by
  have e1 := delete_eq_of_no_fault gs hw fault1 t1 items h1
  have e2 := delete_eq_of_no_fault gs hw fault2 t2 items h2
  have e12 := delete_eq_of_no_fault
    { gs with dts_graphdata := items.foldl (execDelete t1) gs.dts_graphdata } hw fault2 t2 items h2
  rw [e1, e2]
  simp only
  rw [e12]
  simp only
  have hu := foldl_execDelete_twice_untimed t1 t2 items gs.dts_graphdata
  obtain ⟨rl, ru, rd⟩ := @reads_eq_of_untimed_eq
    ⟨gs.rwdb, items.foldl (execDelete t2) (items.foldl (execDelete t1) gs.dts_graphdata)⟩
    ⟨gs.rwdb, items.foldl (execDelete t1) gs.dts_graphdata⟩ hu
  refine ⟨trivial, trivial, ?_, ?_, ?_, rl, ru, rd, ?_⟩
  · rw [foldl_execDelete_twice]
  · have hg : (fun r : Row => (r.graph_item_type, r.k1, r.k2, r.encoding, r.graph_item_data,
        r.last_modified, r.date_deleted.isSome)) ∘ Row.untimed =
        fun r : Row => (r.graph_item_type, r.k1, r.k2, r.encoding, r.graph_item_data,
          r.last_modified, r.date_deleted.isSome) := by
      funext r
      cases h : r.date_deleted <;> simp [Row.untimed, h]
    have := congrArg (List.map (fun r : Row => (r.graph_item_type, r.k1, r.k2, r.encoding,
      r.graph_item_data, r.last_modified, r.date_deleted.isSome))) hu
    simpa only [List.map_map, hg] using this
  · intro ht
    subst ht
    rw [foldl_execDelete_twice]
  · intro hno
    rw [foldl_execDelete_of_no_match t1 items gs.dts_graphdata hno]

/-- C11 (amended) at the test store: node `3003` deleted at instant 2 and again
at instant 3, and a delete of a node that was never put. -/
theorem C11_delete_idempotent_witness :
    testStore.rwdb = true ∧
    ((testStore.Delete noFault 2
        { Items := [testItem "node" (testKey 3) (testKey 3) []] }).1.Delete noFault 3
        { Items := [testItem "node" (testKey 3) (testKey 3) []] }).1 =
      (testStore.Delete noFault 3
        { Items := [testItem "node" (testKey 3) (testKey 3) []] }).1 ∧
    testStore.Delete noFault 2 { Items := [testItem "node" (testKey 7) (testKey 7) []] } =
      (testStore, .ok {}) :=
  ⟨by decide,
   (C11_delete_idempotent testStore (by decide) noFault noFault 2 3
      [testItem "node" (testKey 3) (testKey 3) []] (fun _ _ => rfl) (fun _ _ => rfl)).2.2.1,
   (C11_delete_idempotent testStore (by decide) noFault noFault 2 3
      [testItem "node" (testKey 7) (testKey 7) []] (fun _ _ => rfl)
      (fun _ _ => rfl)).2.2.2.2.2.2.2.2 (by decide)⟩

/-! ## Statement configuration -/

theorem get_set_same (s : Statements) (n : StatementName) (v : String) :
    (s.set n v).get n = v := by
  cases n <;> rfl

theorem get_set_other (s : Statements) (n m : StatementName) (v : String) (h : m ≠ n) :
    (s.set m v).get n = s.get n := by
  cases n <;> cases m <;> first | rfl | exact absurd rfl h

theorem getLast?_cons_getD {α : Type} (x : α) (l : List α) (d : α) :
    ((x :: l).getLast?).getD d = (l.getLast?).getD x := by
  cases l with
  | nil => rfl
  | cons y ys =>
    rw [List.getLast?_cons_cons, List.getLast?_eq_getLast _ (List.cons_ne_nil y ys)]
    rfl

theorem specifiedTexts_cons (e : String × YAMLValue) (es : List (String × YAMLValue))
    (n : StatementName) :
    specifiedTexts (e :: es) n =
      (if fieldNamed e.1 = some n then e.2.text?.toList else []) ++ specifiedTexts es n := by
  unfold specifiedTexts namesStatement
  by_cases h : fieldNamed e.1 = some n
  · cases ht : e.2.text? <;> simp [List.filter_cons, List.filterMap_cons, h, ht]
  · simp [List.filter_cons, h]

/-- Decoding a list of keys sets each field to the last text the list gives
for it and leaves a field the list gives no text for as it was. -/
theorem foldl_unmarshalEntry_get (n : StatementName) :
    ∀ (entries : List (String × YAMLValue)) (acc : Statements × Option String),
      (entries.foldl unmarshalEntry acc).1.get n =
        ((specifiedTexts entries n).getLast?).getD (acc.1.get n) := by
  intro entries
  induction entries with
  | nil => intro acc; rfl
  | cons e es ih =>
    intro acc
    rw [List.foldl_cons, ih, specifiedTexts_cons]
    obtain ⟨k, v⟩ := e
    unfold unmarshalEntry
    cases hk : fieldNamed k with
    | none => simp
    | some m =>
      by_cases hm : m = n
      · subst hm
        cases v with
        | text s => simp [YAMLValue.text?, get_set_same, getLast?_cons_getD]
        | scalar s => simp [YAMLValue.text?, get_set_same, getLast?_cons_getD]
        | null => simp [YAMLValue.text?]
        | other => simp [YAMLValue.text?]
      · cases v with
        | text s => simp [hm, get_set_other _ _ _ _ hm]
        | scalar s => simp [hm, get_set_other _ _ _ _ hm]
        | null => simp [hm]
        | other => simp [hm]

theorem mem_specifiedTexts {l : List (String × YAMLValue)} {n : StatementName} {s : String} :
    s ∈ specifiedTexts l n ↔ ∃ e ∈ l, fieldNamed e.1 = some n ∧ e.2.text? = some s := by
  simp only [specifiedTexts, namesStatement, List.mem_filterMap, List.mem_filter, beq_iff_eq]
  constructor
  · rintro ⟨e, ⟨h1, h2⟩, h3⟩; exact ⟨e, h1, h2, h3⟩
  · rintro ⟨e, h1, h2, h3⟩; exact ⟨e, ⟨h1, h2⟩, h3⟩

theorem perm_insertByKey (e : String × YAMLValue) :
    ∀ l : List (String × YAMLValue), (insertByKey e l).Perm (e :: l) := by
  intro l
  induction l with
  | nil => exact List.Perm.refl _
  | cons x xs ih =>
    unfold insertByKey
    split_ifs
    · exact List.Perm.refl _
    · exact (List.Perm.cons x ih).trans (List.Perm.swap e x xs)

/-- The JSON object holds the keys and values of the map, in another order. -/
theorem perm_jsonObject (entries : List (String × YAMLValue)) :
    (jsonObject entries).Perm (yamlMapping entries) := by
  unfold jsonObject
  induction yamlMapping entries with
  | nil => exact List.Perm.refl _
  | cons x xs ih =>
    rw [List.foldr_cons]
    exact (perm_insertByKey x _).trans (List.Perm.cons x ih)

theorem mem_foldl_yamlMapping (e : String × YAMLValue) :
    ∀ (entries acc : List (String × YAMLValue)),
      e ∈ entries.foldl (fun m x => m.filter (fun y => y.1 != x.1) ++ [x]) acc →
        e ∈ acc ∨ e ∈ entries := by
  intro entries
  induction entries with
  | nil => intro acc h; exact Or.inl h
  | cons x xs ih =>
    intro acc h
    rw [List.foldl_cons] at h
    rcases ih _ h with h1 | h1
    · rcases List.mem_append.mp h1 with h2 | h2
      · exact Or.inl (List.mem_filter.mp h2).1
      · exact Or.inr (by rw [List.mem_singleton.mp h2]; exact List.mem_cons_self _ _)
    · exact Or.inr (List.mem_cons_of_mem _ h1)

/-- Every key and value the decoder reads is a key and value of the document. -/
theorem mem_of_mem_jsonObject {entries : List (String × YAMLValue)} {e : String × YAMLValue}
    (h : e ∈ jsonObject entries) : e ∈ entries := by
  have h1 : e ∈ yamlMapping entries := (perm_jsonObject entries).mem_iff.mp h
  rcases mem_foldl_yamlMapping e entries [] h1 with h2 | h2
  · exact absurd h2 (List.not_mem_nil _)
  · exact h2

theorem filter_foldl_yamlMapping (p : String × YAMLValue → Bool)
    (hp : ∀ x y : String × YAMLValue, x.1 = y.1 → p x = p y) :
    ∀ (entries acc : List (String × YAMLValue)),
      (entries.foldl (fun m x => m.filter (fun y => y.1 != x.1) ++ [x]) acc).filter p =
        (entries.filter p).foldl (fun m x => m.filter (fun y => y.1 != x.1) ++ [x])
          (acc.filter p) := by
  intro entries
  induction entries with
  | nil => intro acc; rfl
  | cons x xs ih =>
    intro acc
    rw [List.foldl_cons, ih]
    by_cases hx : p x = true
    · rw [List.filter_cons_of_pos hx, List.foldl_cons]
      congr 1
      rw [List.filter_append, List.filter_filter, List.filter_filter]
      congr 1
      · apply List.filter_congr
        intro y _
        exact Bool.and_comm _ _
      · simp [List.filter_cons, hx]
    · rw [List.filter_cons_of_neg hx]
      congr 1
      rw [List.filter_append, List.filter_filter]
      have hx2 : p x = false := by simpa using hx
      have h1 : [x].filter p = [] := by simp [List.filter_cons, hx2]
      rw [h1, List.append_nil]
      apply List.filter_congr
      intro y _
      by_cases hy : p y = true
      · have hne : y.1 ≠ x.1 := by
          intro heq
          rw [hp y x heq, hx2] at hy
          exact absurd hy (by simp)
        simp [hy, hne]
      · have hy2 : p y = false := by simpa using hy
        simp [hy2]

/-- When one key of the document names a statement, that key and its value are
what the decoder reads for the statement. -/
theorem filter_jsonObject_of_single (n : StatementName) (entries : List (String × YAMLValue))
    (e : String × YAMLValue) (h : entries.filter (namesStatement n) = [e]) :
    (jsonObject entries).filter (namesStatement n) = [e] := by
  have h1 : (yamlMapping entries).filter (namesStatement n) = [e] := by
    unfold yamlMapping
    rw [filter_foldl_yamlMapping (namesStatement n)
      (fun x y hxy => by unfold namesStatement; rw [hxy]) entries [], h]
    rfl
  have h2 := (perm_jsonObject entries).filter (namesStatement n)
  rw [h1] at h2
  exact h2.eq_singleton

theorem loadStatements_ok {entries : List (String × YAMLValue)} {loaded : Statements}
    (h : LoadStatements (.ok entries) = .ok loaded) :
    loaded = ((jsonObject entries).foldl unmarshalEntry (⟨"", "", "", "", "", ""⟩, none)).1 := by
  unfold LoadStatements yamlUnmarshal at h
  simp only at h
  split at h
  · exact absurd h (by simp)
  · rename_i l heq
    simp only [Except.ok.injEq] at h
    rw [← h, heq]

theorem foldl_unmarshalEntry_no_error :
    ∀ (l : List (String × YAMLValue)) (acc : Statements × Option String),
      acc.2 = none → (∀ e ∈ l, fieldNamed e.1 ≠ none → e.2 ≠ .other) →
        (l.foldl unmarshalEntry acc).2 = none := by
  intro l
  induction l with
  | nil => intro acc h _; exact h
  | cons x xs ih =>
    intro acc hacc hall
    rw [List.foldl_cons]
    apply ih
    · obtain ⟨k, v⟩ := x
      have hx := hall (k, v) (List.mem_cons_self _ _)
      unfold unmarshalEntry
      cases hk : fieldNamed k with
      | none => simpa using hacc
      | some m =>
        cases v with
        | text s => simpa using hacc
        | scalar s => simpa using hacc
        | null => simpa using hacc
        | other => exact absurd rfl (hx (by simp [hk]))
    · intro e he
      exact hall e (List.mem_cons_of_mem _ he)

/-- A document in which no key that names a statement has a sequence or a
mapping as value loads. -/
theorem loadStatements_loads (entries : List (String × YAMLValue))
    (h : ∀ e ∈ entries, fieldNamed e.1 ≠ none → e.2 ≠ .other) :
    ∃ loaded, LoadStatements (.ok entries) = .ok loaded := by
  have hnone := foldl_unmarshalEntry_no_error (jsonObject entries)
    (⟨"", "", "", "", "", ""⟩, none) rfl (fun e he => h e (mem_of_mem_jsonObject he))
  refine ⟨((jsonObject entries).foldl unmarshalEntry (⟨"", "", "", "", "", ""⟩, none)).1, ?_⟩
  unfold LoadStatements yamlUnmarshal
  simp only
  split
  · rename_i l err heq
    rw [heq] at hnone
    exact absurd hnone (by simp)
  · rename_i l heq
    rw [heq]

/-- The built-in document loads, and `DefaultStatements` is what it loads to. -/
theorem defaultStatements_loaded : LoadStatements sqlStatements = .ok DefaultStatements := by
  rfl

/-- C17, as the code has it: `LoadStatements` starts from the empty struct, not
from the defaults. The document that specifies `insertGraphData` only loads
without error, gives no text for `createGraphDataTable`, and the loaded
`CreateGraphDataTable` is the empty string, not the built-in default. -/
theorem C17_unspecified_statement_is_empty :
    ∃ loaded, LoadStatements overrideInsertOnly = .ok loaded ∧
      loaded.InsertGraphData =
        "INSERT INTO dts_graphdata VALUES (?, ?, ?, ?, ?, ?, NULL);" ∧
      specifiedTexts [("insertGraphData",
        .text "INSERT INTO dts_graphdata VALUES (?, ?, ?, ?, ?, ?, NULL);")]
        .createGraphDataTable = [] ∧
      loaded.CreateGraphDataTable = "" ∧
      loaded.CreateGraphDataTable ≠ DefaultStatements.CreateGraphDataTable :=
  ⟨_, rfl, by decide, by decide, by decide, by decide⟩

/-- C17, amended: for every document that loads without error, each of the six
statements for which no key of the document gives a text is the empty string
in the loaded set, not the built-in default; a statement that one key of the
document names takes the text of that key (a number or boolean as the text
the library makes of it); and in general a statement takes the last text that
the keys naming it give in the order in which the decoder reads them, which is
the increasing order of the keys, a repeated key counting once, with its last
value. A document that does not parse does not load, and every document in
which no key that names a statement has a sequence or mapping as value
loads. -/
theorem C17_loadStatements (entries : List (String × YAMLValue)) (loaded : Statements)
    (h : LoadStatements (.ok entries) = .ok loaded) :
    (∀ n, specifiedTexts entries n = [] → loaded.get n = "") ∧
      (∀ n e s, entries.filter (namesStatement n) = [e] → e.2.text? = some s →
        loaded.get n = s) ∧
      (∀ n, loaded.get n = ((specifiedTexts (jsonObject entries) n).getLast?).getD "") ∧
      (∀ e, LoadStatements (.error e) = .error e) ∧
      (∀ doc : List (String × YAMLValue),
        (∀ e ∈ doc, fieldNamed e.1 ≠ none → e.2 ≠ .other) →
          ∃ l, LoadStatements (.ok doc) = .ok l) := by
  have hl := loadStatements_ok h
  have hget : ∀ n, loaded.get n =
      ((specifiedTexts (jsonObject entries) n).getLast?).getD "" := by
    intro n
    rw [hl, foldl_unmarshalEntry_get]
    cases n <;> rfl
  refine ⟨?_, ?_, hget, fun e => rfl, loadStatements_loads⟩
  · intro n hn
    have hnil : specifiedTexts (jsonObject entries) n = [] := by
      apply List.eq_nil_iff_forall_not_mem.mpr
      intro s hs
      obtain ⟨e, he, h1, h2⟩ := mem_specifiedTexts.mp hs
      have : s ∈ specifiedTexts entries n :=
        mem_specifiedTexts.mpr ⟨e, mem_of_mem_jsonObject he, h1, h2⟩
      rw [hn] at this
      exact absurd this (List.not_mem_nil _)
    rw [hget, hnil]
    rfl
  · intro n e s hone hs
    rw [hget]
    unfold specifiedTexts
    rw [filter_jsonObject_of_single n entries e hone]
    simp [hs]

/-- C17 (amended) at three override documents: one that specifies one statement;
one that gives the number `5` for a statement, which loads as the text `5`;
and one with the keys `insertGraphData` and `InsertGraphData`, of which the
greater key `insertGraphData` is read last, and a repeated key
`listGraphData`, which keeps its last value. -/
theorem C17_loadStatements_witness :
    LoadStatements overrideInsertOnly =
        .ok ⟨"", "INSERT INTO dts_graphdata VALUES (?, ?, ?, ?, ?, ?, NULL);", "", "", "", ""⟩ ∧
      (⟨"", "INSERT INTO dts_graphdata VALUES (?, ?, ?, ?, ?, ?, NULL);", "", "", "", ""⟩ :
        Statements).get .listGraphData = "" ∧
      LoadStatements overrideNumber = .ok ⟨"", "5", "", "", "", ""⟩ ∧
      (⟨"", "5", "", "", "", ""⟩ : Statements).get .insertGraphData = "5" ∧
      LoadStatements overrideTwoCases = .ok ⟨"", "first", "", "two", "", ""⟩ :=
  ⟨by decide,
   (C17_loadStatements
      [("insertGraphData", .text "INSERT INTO dts_graphdata VALUES (?, ?, ?, ?, ?, ?, NULL);")]
      ⟨"", "INSERT INTO dts_graphdata VALUES (?, ?, ?, ?, ?, ?, NULL);", "", "", "", ""⟩
      (by decide)).1 .listGraphData (by decide),
   by decide,
   (C17_loadStatements [("insertGraphData", .scalar "5")] ⟨"", "5", "", "", "", ""⟩
      (by decide)).2.1 .insertGraphData ("insertGraphData", .scalar "5") "5" (by decide) rfl,
   by decide⟩

/-! ## Key derivation -/

/-- The digest of the empty message, as in the standard's test vectors. -/
theorem sum256_empty :
    sha256.Sum256 [] =
      [0xe3, 0xb0, 0xc4, 0x42, 0x98, 0xfc, 0x1c, 0x14, 0x9a, 0xfb, 0xf4, 0xc8, 0x99, 0x6f, 0xb9,
       0x24, 0x27, 0xae, 0x41, 0xe4, 0x64, 0x9b, 0x93, 0x4c, 0xa4, 0x95, 0x99, 0x1b, 0x78, 0x52,
       0xb8, 0x55] := by
  decide!

/-- The digest of `abc`, as in the standard's test vectors. -/
theorem sum256_abc :
    sha256.Sum256 (asciiBytes "abc") =
      [0xba, 0x78, 0x16, 0xbf, 0x8f, 0x01, 0xcf, 0xea, 0x41, 0x41, 0x40, 0xde, 0x5d, 0xae, 0x22,
       0x23, 0xb0, 0x03, 0x61, 0xa3, 0x96, 0x17, 0x7a, 0x9c, 0xb4, 0x10, 0xff, 0x61, 0xf2, 0x00,
       0x15, 0xad] := by
  decide!

theorem sum256_length (data : List Byte) : (sha256.Sum256 data).length = 32 := by
  simp [sha256.Sum256, sha256.wordBytes]

theorem foldl_write (vars : List (List Byte)) (d : sha256.digest) :
    (vars.foldl (fun hash val => hash.Write val) d).written = d.written ++ vars.flatten := by
  induction vars generalizing d with
  | nil => simp
  | cons v vs ih =>
    rw [List.foldl_cons, ih]
    simp [sha256.digest.Write, List.append_assoc]

theorem key_eq (vars : List (List Byte)) : Tracker.key vars = sha256.Sum256 vars.flatten := by
  simp [Tracker.key, sha256.digest.Sum, foldl_write, sha256.New]

/-- C18: `key(f1, ..., fn)` is the SHA-256 digest of the concatenation
`f1 ++ ... ++ fn` and is 32 bytes long for every list of fields (none, or
empty ones, included); `keyForModule(m)` is `key(language, organization,
module)` in that order and `keyForSource(s)` is `key(url)`. -/
theorem C18_key_is_sha256 (vars : List (List Byte)) (m : Module) (s : Source) :
    Tracker.key vars = sha256.Sum256 vars.flatten ∧
      (Tracker.key vars).length = 32 ∧
      Tracker.key [] = sha256.Sum256 [] ∧
      keyForModule m = Tracker.key [m.Language, m.Organization, m.Module] ∧
      keyForModule m = sha256.Sum256 (m.Language ++ m.Organization ++ m.Module) ∧
      keyForSource s = Tracker.key [s.Url] ∧
      keyForSource s = sha256.Sum256 s.Url := by
  refine ⟨key_eq vars, ?_, key_eq [], rfl, ?_, rfl, ?_⟩
  · rw [key_eq]; exact sum256_length _
  · rw [keyForModule, key_eq]; simp
  · rw [keyForSource, key_eq]; simp

/-- C19: two modules with the same language, organization and name have the
same key, whatever else they carry; and the key of a dependency request is the
key of every module with the request's language, organization and module
name. -/
theorem C19_same_identity_same_key (m1 m2 : Module) (r : DependencyRequest)
    (hl : m1.Language = m2.Language) (ho : m1.Organization = m2.Organization)
    (hm : m1.Module = m2.Module) :
    keyForModule m1 = keyForModule m2 ∧
      ∀ m : Module, m.Language = r.Language → m.Organization = r.Organization →
        m.Module = r.Module → keyForDependencyRequest r = keyForModule m := by
  constructor
  · simp only [keyForModule, hl, ho, hm]
  · intro m h1 h2 h3
    simp only [keyForDependencyRequest, keyForModule, h1, h2, h3]

/-- C19 at two records of one module that differ in their other data, and at
the request for it. -/
theorem C19_same_identity_same_key_witness :
    keyForModule moduleA = keyForModule moduleB ∧
      keyForDependencyRequest
          { Language := asciiBytes "go", Organization := asciiBytes "github.com/deps-cloud",
            Module := asciiBytes "tracker" } = keyForModule moduleB :=
  ⟨(C19_same_identity_same_key moduleA moduleB
      { Language := asciiBytes "go", Organization := asciiBytes "github.com/deps-cloud",
        Module := asciiBytes "tracker" } rfl rfl rfl).1,
   (C19_same_identity_same_key moduleA moduleB
      { Language := asciiBytes "go", Organization := asciiBytes "github.com/deps-cloud",
        Module := asciiBytes "tracker" } rfl rfl rfl).2 moduleB rfl rfl rfl⟩

/-! ## The key codec -/

theorem encodeGroups_length (key : List Byte) :
    (encodeGroups key).length = 4 * ((key.length + 2) / 3) := by
  induction key using encodeGroups.induct with
  | case1 b0 b1 b2 rest ih =>
    simp only [encodeGroups, List.length_cons, ih]
    omega
  | case2 b0 b1 => simp [encodeGroups]
  | case3 b0 => simp [encodeGroups]
  | case4 => rfl

/-- C20: the key codec is lossless. For every byte key `k`,
`Base64decode(Base64encode(k))` succeeds and returns `k`; so it does for the
32-byte keys of key derivation, whose text has 44 characters; and for every
row `Put` writes, the reads decode both key columns without error to the keys
of the item put. -/
theorem C20_key_codec_lossless (k : List Byte) (vars : List (List Byte)) (item : GraphItem)
    (timestamp : Nat) :
    Base64decode (Base64encode k) = (k, true) ∧
      Base64decode (Base64encode (Tracker.key vars)) = (Tracker.key vars, true) ∧
      (Base64encode (Tracker.key vars)).length = 44 ∧
      Base64decode (item.row timestamp).k1 = (item.K1, true) ∧
      Base64decode (item.row timestamp).k2 = (item.K2, true) ∧
      (scanGraphItem (item.row timestamp).columns).K1 = item.K1 ∧
      (scanGraphItem (item.row timestamp).columns).K2 = item.K2 := by
  refine ⟨Base64decode_Base64encode k, Base64decode_Base64encode _, ?_,
    Base64decode_Base64encode _, Base64decode_Base64encode _, ?_, ?_⟩
  · have h := sum256_length vars.flatten
    rw [← key_eq] at h
    simp only [Base64encode, String.length, encodeGroups_length, h]
  · simp [scanGraphItem, GraphItem.row, Row.columns, Base64decode_Base64encode]
  · simp [scanGraphItem, GraphItem.row, Row.columns, Base64decode_Base64encode]

/-! ## Writes touch only the identities they are given -/

theorem noIdentityIn_iff (items : List GraphItem) (r : Row) :
    noIdentityIn items r = true ↔ ∀ item ∈ items, ¬ r.hasIdentityOf item := by
  simp [noIdentityIn]

theorem noIdentityIn_stamp (items : List GraphItem) (r : Row) (d : Option Nat) :
    noIdentityIn items { r with date_deleted := d } = noIdentityIn items r := rfl

theorem matchesAny_false_of_noIdentityIn {items sub : List GraphItem} {r : Row}
    (hsub : ∀ x ∈ sub, x ∈ items) (h : noIdentityIn items r = true) :
    r.matchesAny sub = false := by
  rw [noIdentityIn_iff] at h
  simp only [Row.matchesAny, List.any_eq_false, decide_eq_true_eq]
  intro x hx
  exact h x (hsub x hx)

/-- The insert statements of part of a batch leave the rows of identities
outside the batch as they are, in their order. -/
theorem filter_noIdentityIn_foldl_execInsert (timestamp : Nat) (items sub : List GraphItem)
    (hsub : ∀ x ∈ sub, x ∈ items) (table : List Row) :
    (sub.foldl (execInsert timestamp) table).filter (noIdentityIn items) =
      table.filter (noIdentityIn items) := by
  rw [foldl_execInsert_normal, List.filter_append, List.filter_filter]
  have h1 : (sub.foldl (execInsert timestamp) []).filter (noIdentityIn items) = [] := by
    rw [List.filter_eq_nil_iff]
    intro r hr
    rcases mem_foldl_execInsert timestamp sub [] r hr with h | ⟨x, hx, hid⟩
    · simp at h
    · intro hc
      exact (noIdentityIn_iff items r).mp hc x (hsub x hx) hid
  rw [h1, List.append_nil]
  apply List.filter_congr
  intro r _
  by_cases hr : noIdentityIn items r = true
  · have : noIdentityIn sub r = true :=
      (noIdentityIn_iff sub r).mpr
        (fun x hx => (noIdentityIn_iff items r).mp hr x (hsub x hx))
    simp [hr, this]
  · simp [hr]

/-- The delete statements of part of a batch leave the rows of identities
outside the batch as they are, in their order. -/
theorem filter_noIdentityIn_foldl_execDelete (timestamp : Nat) (items sub : List GraphItem)
    (hsub : ∀ x ∈ sub, x ∈ items) (table : List Row) :
    (sub.foldl (execDelete timestamp) table).filter (noIdentityIn items) =
      table.filter (noIdentityIn items) := by
  rw [foldl_execDelete_eq, List.filter_map]
  have hp : (noIdentityIn items ∘ fun r : Row =>
      if r.matchesAny sub then { r with date_deleted := some timestamp } else r) =
      noIdentityIn items := by
    funext r
    simp only [Function.comp]
    split <;> rfl
  rw [hp]
  conv_rhs => rw [← List.map_id (table.filter (noIdentityIn items))]
  apply List.map_congr_left
  intro r hr
  have := matchesAny_false_of_noIdentityIn hsub (List.mem_filter.mp hr).2
  simp [this]

theorem put_table_cases (gs : graphStore) (fault : Nat → Bool) (timestamp : Nat)
    (items : List GraphItem) :
    (gs.Put fault timestamp { Items := items }).1.dts_graphdata = gs.dts_graphdata ∨
      (gs.Put fault timestamp { Items := items }).1.dts_graphdata =
        (executed fault 0 items).foldl (execInsert timestamp) gs.dts_graphdata := by
  by_cases hw : gs.rwdb = true
  · right; rw [put_eq gs hw]
  · left
    have : gs.rwdb = false := by simpa using hw
    simp [graphStore.Put, this]

theorem delete_table_cases (gs : graphStore) (fault : Nat → Bool) (timestamp : Nat)
    (items : List GraphItem) :
    (gs.Delete fault timestamp { Items := items }).1.dts_graphdata = gs.dts_graphdata ∨
      (gs.Delete fault timestamp { Items := items }).1.dts_graphdata =
        (executed fault 0 items).foldl (execDelete timestamp) gs.dts_graphdata := by
  by_cases hw : gs.rwdb = true
  · right; rw [delete_eq gs hw]
  · left
    have : gs.rwdb = false := by simpa using hw
    simp [graphStore.Delete, this]

/-- C25: `Put` and `Delete` touch only the identities they are given. For every
store state, driver behaviour and request, the rows whose identity
`(itemType, k1, k2)` is that of no item of the request are the same rows, in
the same order, after the call as before (every column, `last_modified` and
`date_deleted` included); in particular such a row is in the table after the
call exactly when it was before. -/
theorem C25_writes_touch_only_given_identities (gs : graphStore) (fault : Nat → Bool)
    (timestamp : Nat) (items : List GraphItem) :
    ((gs.Put fault timestamp { Items := items }).1.dts_graphdata.filter
        (fun r => decide (∀ item ∈ items, ¬ r.hasIdentityOf item)) =
      gs.dts_graphdata.filter (fun r => decide (∀ item ∈ items, ¬ r.hasIdentityOf item))) ∧
    ((gs.Delete fault timestamp { Items := items }).1.dts_graphdata.filter
        (fun r => decide (∀ item ∈ items, ¬ r.hasIdentityOf item)) =
      gs.dts_graphdata.filter (fun r => decide (∀ item ∈ items, ¬ r.hasIdentityOf item))) ∧
    (∀ r : Row, (∀ item ∈ items, ¬ r.hasIdentityOf item) →
      (r ∈ (gs.Put fault timestamp { Items := items }).1.dts_graphdata ↔
        r ∈ gs.dts_graphdata) ∧
      (r ∈ (gs.Delete fault timestamp { Items := items }).1.dts_graphdata ↔
        r ∈ gs.dts_graphdata)) := by
  have hfun : (fun r : Row => decide (∀ item ∈ items, ¬ r.hasIdentityOf item)) =
      noIdentityIn items := by
    funext r
    rw [Bool.eq_iff_iff, noIdentityIn_iff]
    simp
  have hsub : ∀ x ∈ executed fault 0 items, x ∈ items :=
    fun x hx => mem_of_mem_executed fault items 0 x hx
  have hput : (gs.Put fault timestamp { Items := items }).1.dts_graphdata.filter
      (noIdentityIn items) = gs.dts_graphdata.filter (noIdentityIn items) := by
    rcases put_table_cases gs fault timestamp items with h | h
    · rw [h]
    · rw [h]; exact filter_noIdentityIn_foldl_execInsert timestamp items _ hsub _
  have hdel : (gs.Delete fault timestamp { Items := items }).1.dts_graphdata.filter
      (noIdentityIn items) = gs.dts_graphdata.filter (noIdentityIn items) := by
    rcases delete_table_cases gs fault timestamp items with h | h
    · rw [h]
    · rw [h]; exact filter_noIdentityIn_foldl_execDelete timestamp items _ hsub _
  rw [hfun]
  refine ⟨hput, hdel, ?_⟩
  intro r hr
  have hn := (noIdentityIn_iff items r).mpr hr
  constructor
  · have := congrArg (fun l => r ∈ l) hput
    simpa [List.mem_filter, hn] using this
  · have := congrArg (fun l => r ∈ l) hdel
    simpa [List.mem_filter, hn] using this

/-- C25 at the test store: a `Put` of an item of type `module` with the keys of
node `3003` leaves the row of the node, which has the same keys and another
type, in the table. -/
theorem C25_writes_touch_only_given_identities_witness :
    (testItem "node" (testKey 3) (testKey 3) []).row 1 ∈
      (testStore.Put noFault 9 { Items := [testItem "module" (testKey 3) (testKey 3) []] }
        ).1.dts_graphdata :=
  ((C25_writes_touch_only_given_identities testStore noFault 9
      [testItem "module" (testKey 3) (testKey 3) []]).2.2
      ((testItem "node" (testKey 3) (testKey 3) []).row 1) (by decide)).1.mpr (by decide)

/-! ## Field boundaries in key derivation -/

/-- C26: key derivation depends only on the concatenation of the fields. Field
lists with equal concatenations have equal keys; so the modules with fields
`a`, `bc`, `d` and `ab`, `c`, `d`, which differ in language and organization,
have the same key. -/
theorem C26_key_ignores_field_boundaries (xs ys : List (List Byte))
    (h : xs.flatten = ys.flatten) :
    Tracker.key xs = Tracker.key ys ∧
      keyForModule moduleSplit1 = keyForModule moduleSplit2 ∧
      moduleSplit1.Language ≠ moduleSplit2.Language ∧
      moduleSplit1.Organization ≠ moduleSplit2.Organization := by
  refine ⟨by rw [key_eq, key_eq, h], ?_, by decide, by decide⟩
  rw [keyForModule, keyForModule, key_eq, key_eq]
  rfl

/-- C26 at the field lists `a`, `bc`, `d` and `ab`, `c`, `d`. -/
theorem C26_key_ignores_field_boundaries_witness :
    [asciiBytes "a", asciiBytes "bc", asciiBytes "d"].flatten =
        [asciiBytes "ab", asciiBytes "c", asciiBytes "d"].flatten ∧
      Tracker.key [asciiBytes "a", asciiBytes "bc", asciiBytes "d"] =
        Tracker.key [asciiBytes "ab", asciiBytes "c", asciiBytes "d"] :=
  ⟨by decide,
   (C26_key_ignores_field_boundaries [asciiBytes "a", asciiBytes "bc", asciiBytes "d"]
      [asciiBytes "ab", asciiBytes "c", asciiBytes "d"] (by decide)).1⟩

/-! ## Overflow of the offset -/

/-- C27, evaluated: for page `2147483647` and count `100` the `int32` product
`(page - 1) * limit` wraps to `-200`, although the mathematical product is
`214748364600`; `List` runs the statement with offset `-200`, which SQLite
takes as zero, so the last page answers like the first. -/
theorem C27_offset_wraps :
    wrapInt32 ((Tracker.max 2147483647 1 - 1) * Tracker.max (Tracker.min 100 100) 10) = -200 ∧
      (Tracker.max 2147483647 1 - 1) * Tracker.max (Tracker.min 100 100) 10 = 214748364600 ∧
      testStore.List { Page := 2147483647, Count := 100, Type_ := "edge" } =
        .ok ⟨readGraphItems (listGraphData testStore.dts_graphdata "edge" 100 (-200))⟩ ∧
      testStore.List { Page := 2147483647, Count := 100, Type_ := "edge" } =
        testStore.List { Page := 1, Count := 100, Type_ := "edge" } ∧
      (testStore.List { Page := 2147483647, Count := 100, Type_ := "edge" }).toOption.map
        (fun r => r.Items.length) = some 5 := by
  decide

/-! ## Duality of the two traversals -/

/-- C28: upstream and downstream traversal are dual. In every store whose key
columns hold encoded keys, for every edge-type list and keys `a != b` whose
self-loop rows `na`, `nb` are live, and every row `e` from `a` to `b`: some
pair of `FindUpstream(a, T)` has the edge read from `e` and node `b` exactly
when some pair of `FindDownstream(b, T)` has the edge read from `e` and node
`a`; and when `e` is live with its type in `T`, the two pairs
`(nb, e)` and `(na, e)` are in the two results. -/
theorem C28_traversals_dual (gs : graphStore) (edgeTypes : List String) (a b : List Byte)
    (na nb e : Row) (hab : a ≠ b) (henc : gs.keysEncoded)
    (hna : na ∈ gs.dts_graphdata ∧ na.live ∧ na.k1 = Base64encode a ∧ na.k2 = Base64encode a)
    (hnb : nb ∈ gs.dts_graphdata ∧ nb.live ∧ nb.k1 = Base64encode b ∧ nb.k2 = Base64encode b)
    (he : e ∈ gs.dts_graphdata ∧ e.k1 = Base64encode a ∧ e.k2 = Base64encode b) :
    ∃ up down,
      gs.FindUpstream { Key := a, EdgeTypes := edgeTypes } = .ok { Pairs := up } ∧
      gs.FindDownstream { Key := b, EdgeTypes := edgeTypes } = .ok { Pairs := down } ∧
      ((∃ p ∈ up, p.Edge = e.item ∧ p.Node.K1 = b) ↔
        (∃ p ∈ down, p.Edge = e.item ∧ p.Node.K1 = a)) ∧
      (e.live → e.graph_item_type ∈ edgeTypes →
        { Node := nb.item, Edge := e.item } ∈ up ∧ { Node := na.item, Edge := e.item } ∈ down) := by
  obtain ⟨hna_mem, hna_live, hna1, hna2⟩ := hna
  obtain ⟨hnb_mem, hnb_live, hnb1, hnb2⟩ := hnb
  obtain ⟨he_mem, he1, he2⟩ := he
  have hnaK : na.item.K1 = a := by
    simp [Row.item, scanGraphItem, Row.columns, hna1, Base64decode_Base64encode]
  have hnbK : nb.item.K1 = b := by
    simp [Row.item, scanGraphItem, Row.columns, hnb1, Base64decode_Base64encode]
  have heK1 : e.item.K1 = a := by
    simp [Row.item, scanGraphItem, Row.columns, he1, Base64decode_Base64encode]
  have heK2 : e.item.K2 = b := by
    simp [Row.item, scanGraphItem, Row.columns, he2, Base64decode_Base64encode]
  have hne : Base64encode a ≠ Base64encode b := fun h => hab (Base64encode_injective h)
  refine ⟨_, _, findUpstream_eq gs _, findDownstream_eq gs _, ⟨?_, ?_⟩, ?_⟩
  · rintro ⟨p, hp, hpe, -⟩
    obtain ⟨node, hn, edge, hedge, hel, hty, hk, hkne, -, -, -, rfl⟩ := mem_upstreamPairs.mp hp
    have hpe2 : edge.item = e.item := hpe
    have hk2 : edge.k2 = Base64encode b := item_K2_eq (henc edge hedge) (by rw [hpe2]; exact heK2)
    exact ⟨{ Node := na.item, Edge := edge.item },
      mem_downstreamPairs.mpr ⟨na, hna_mem, edge, hedge, hel, hty, hk2, hkne, hna_live,
        hna1.trans hna2.symm, hna1.trans hk.symm, rfl⟩, hpe, hnaK⟩
  · rintro ⟨p, hp, hpe, -⟩
    obtain ⟨node, hn, edge, hedge, hel, hty, hk, hkne, -, -, -, rfl⟩ := mem_downstreamPairs.mp hp
    have hpe2 : edge.item = e.item := hpe
    have hk1 : edge.k1 = Base64encode a := item_K1_eq (henc edge hedge) (by rw [hpe2]; exact heK1)
    exact ⟨{ Node := nb.item, Edge := edge.item },
      mem_upstreamPairs.mpr ⟨nb, hnb_mem, edge, hedge, hel, hty, hk1, hkne, hnb_live,
        hnb1.trans hnb2.symm, hnb1.trans hk.symm, rfl⟩, hpe, hnbK⟩
  · intro hlive hty
    have hkne : e.k1 ≠ e.k2 := by rw [he1, he2]; exact hne
    exact ⟨mem_upstreamPairs.mpr ⟨nb, hnb_mem, e, he_mem, hlive, hty, he1, hkne, hnb_live,
        hnb1.trans hnb2.symm, hnb1.trans he2.symm, rfl⟩,
      mem_downstreamPairs.mpr ⟨na, hna_mem, e, he_mem, hlive, hty, he2, hkne, hna_live,
        hna1.trans hna2.symm, hna1.trans he1.symm, rfl⟩⟩

/-- C28 at the test store and its edge `2002 -> 3003`. -/
theorem C28_traversals_dual_witness :
    testStore.keysEncoded ∧
      ({ Node := testItem "node" (testKey 3) (testKey 3) [],
         Edge := testItem "edge" (testKey 2) (testKey 3) [] } : GraphItemPair) ∈
        ((testStore.FindUpstream { Key := testKey 2, EdgeTypes := ["edge"] }).toOption.map
          (fun r => r.Pairs)).getD [] ∧
      ({ Node := testItem "node" (testKey 2) (testKey 2) [],
         Edge := testItem "edge" (testKey 2) (testKey 3) [] } : GraphItemPair) ∈
        ((testStore.FindDownstream { Key := testKey 3, EdgeTypes := ["edge"] }).toOption.map
          (fun r => r.Pairs)).getD [] := by
  obtain ⟨up, down, hu, hd, -, h⟩ := C28_traversals_dual testStore ["edge"] (testKey 2)
    (testKey 3) ((testItem "node" (testKey 2) (testKey 2) []).row 1)
    ((testItem "node" (testKey 3) (testKey 3) []).row 1)
    ((testItem "edge" (testKey 2) (testKey 3) []).row 1) (by decide) (by decide)
    (by decide) (by decide) (by decide)
  have h2 := h (by decide) (by decide)
  rw [hu, hd]
  exact ⟨by decide, h2.1, h2.2⟩

/-! ## The node row of the queried key -/

/-- The upstream statement never reads a self-loop row of the queried key. -/
theorem selectUpstream_without_self (table : List Row) (key : String)
    (edgeTypes : List String) :
    selectGraphDataUpstreamDependencies (table.filter (fun r => !r.selfLoopAt key)) key
        edgeTypes =
      selectGraphDataUpstreamDependencies table key edgeTypes := by
  unfold selectGraphDataUpstreamDependencies
  rw [flatMap_filter_eq]
  apply List.flatMap_congr
  intro g1 _
  rw [List.filter_filter]
  by_cases h1 : g1.selfLoopAt key = true
  · have hs : g1.k1 = key ∧ g1.k2 = key := by simpa [Row.selfLoopAt] using h1
    have hf : ∀ l : List Row, l.filter (fun g2 =>
        g1.k1 == g2.k2 && g2.k1 == key && edgeTypes.contains g2.graph_item_type &&
          g2.k1 != g2.k2 && g2.date_deleted.isNone && g1.k1 == g1.k2 &&
          g1.date_deleted.isNone) = [] := by
      intro l
      rw [List.filter_eq_nil_iff]
      intro g2 _ hc
      simp only [Bool.and_eq_true, beq_iff_eq, bne_iff_ne] at hc
      obtain ⟨⟨⟨⟨⟨⟨c1, c2⟩, -⟩, c4⟩, -⟩, -⟩, -⟩ := hc
      exact c4 (c2.trans (hs.1.symm.trans c1))
    rw [hf table]
    simp [h1]
  · simp only [h1, Bool.not_false, if_true]
    congr 1
    apply List.filter_congr
    intro g2 _
    by_cases h2 : g2.selfLoopAt key = true
    · have hs : g2.k1 = key ∧ g2.k2 = key := by simpa [Row.selfLoopAt] using h2
      simp [h2, hs.1, hs.2]
    · simp [h2]

/-- The downstream statement never reads a self-loop row of the queried key. -/
theorem selectDownstream_without_self (table : List Row) (key : String)
    (edgeTypes : List String) :
    selectGraphDataDownstreamDependencies (table.filter (fun r => !r.selfLoopAt key)) key
        edgeTypes =
      selectGraphDataDownstreamDependencies table key edgeTypes := by
  unfold selectGraphDataDownstreamDependencies
  rw [flatMap_filter_eq]
  apply List.flatMap_congr
  intro g1 _
  rw [List.filter_filter]
  by_cases h1 : g1.selfLoopAt key = true
  · have hs : g1.k1 = key ∧ g1.k2 = key := by simpa [Row.selfLoopAt] using h1
    have hf : ∀ l : List Row, l.filter (fun g2 =>
        g1.k2 == g2.k1 && g2.k2 == key && edgeTypes.contains g2.graph_item_type &&
          g2.k1 != g2.k2 && g2.date_deleted.isNone && g1.k1 == g1.k2 &&
          g1.date_deleted.isNone) = [] := by
      intro l
      rw [List.filter_eq_nil_iff]
      intro g2 _ hc
      simp only [Bool.and_eq_true, beq_iff_eq, bne_iff_ne] at hc
      obtain ⟨⟨⟨⟨⟨⟨c1, c2⟩, -⟩, c4⟩, -⟩, -⟩, -⟩ := hc
      exact c4 ((c1.symm.trans hs.2).trans c2.symm)
    rw [hf table]
    simp [h1]
  · simp only [h1, Bool.not_false, if_true]
    congr 1
    apply List.filter_congr
    intro g2 _
    by_cases h2 : g2.selfLoopAt key = true
    · have hs : g2.k1 = key ∧ g2.k2 = key := by simpa [Row.selfLoopAt] using h2
      simp [h2, hs.1, hs.2]
    · simp [h2]

/-- C29: the answers of `FindUpstream(key, T)` and `FindDownstream(key, T)` do
not depend on the node row of the queried key. Two stores whose tables hold
the same rows, in the same order, apart from the self-loop rows with
`k1 = k2 = key` (which may be present, absent or tombstoned in either) give
the same answer to both queries. -/
theorem C29_own_node_row_irrelevant (s1 s2 : graphStore) (key : List Byte)
    (edgeTypes : List String)
    (h : s1.dts_graphdata.filter
          (fun r => !(r.k1 == Base64encode key && r.k2 == Base64encode key)) =
        s2.dts_graphdata.filter
          (fun r => !(r.k1 == Base64encode key && r.k2 == Base64encode key))) :
    s1.FindUpstream { Key := key, EdgeTypes := edgeTypes } =
        s2.FindUpstream { Key := key, EdgeTypes := edgeTypes } ∧
      s1.FindDownstream { Key := key, EdgeTypes := edgeTypes } =
        s2.FindDownstream { Key := key, EdgeTypes := edgeTypes } := by
  have h' : s1.dts_graphdata.filter (fun r => !r.selfLoopAt (Base64encode key)) =
      s2.dts_graphdata.filter (fun r => !r.selfLoopAt (Base64encode key)) := h
  constructor
  · rw [findUpstream_eq, findUpstream_eq]
    simp only
    rw [← selectUpstream_without_self s1.dts_graphdata,
      ← selectUpstream_without_self s2.dts_graphdata, h']
  · rw [findDownstream_eq, findDownstream_eq]
    simp only
    rw [← selectDownstream_without_self s1.dts_graphdata,
      ← selectDownstream_without_self s2.dts_graphdata, h']

/-- C29 at the test store and the test store with node `3003` deleted: the
traversal from `3003` still returns its neighbour `5005`. -/
theorem C29_own_node_row_irrelevant_witness :
    testStoreNodeDeleted.FindUpstream { Key := testKey 3, EdgeTypes := ["edge"] } =
        testStore.FindUpstream { Key := testKey 3, EdgeTypes := ["edge"] } ∧
      testStoreNodeDeleted.FindUpstream { Key := testKey 3, EdgeTypes := ["edge"] } =
        .ok { Pairs := [{ Node := testItem "node" (testKey 5) (testKey 5) [],
                          Edge := testItem "edge" (testKey 3) (testKey 5) [] }] } :=
  ⟨(C29_own_node_row_irrelevant testStoreNodeDeleted testStore (testKey 3) ["edge"]
      (by decide)).1, by decide⟩

/-! ## What a read returns for an item put -/

theorem mem_listGraphData_first_page (table : List Row) (r : Row) (t : String)
    (hr : r ∈ table) (ht : r.graph_item_type = t)
    (hlen : (table.filter (fun x => x.graph_item_type == t)).length ≤ 10) :
    r.columns ∈ listGraphData table t 10 0 := by
  unfold listGraphData
  have hneg : ¬ ((10 : Int) < 0) := by decide
  simp only [hneg, if_false]
  apply List.mem_map_of_mem
  have h0 : (0 : Int).toNat = 0 := rfl
  have h10 : (10 : Int).toNat = 10 := rfl
  rw [h0, h10, List.drop_zero, List.take_of_length_le hlen]
  exact List.mem_filter.mpr ⟨hr, by simp [ht]⟩

theorem list_first_page (gs : graphStore) (t : String) :
    gs.List { Page := 1, Count := 10, Type_ := t } =
      .ok ⟨readGraphItems (listGraphData gs.dts_graphdata t 10 0)⟩ := by
  have h1 : Tracker.max 1 1 = 1 := by decide
  have h2 : Tracker.max (Tracker.min 10 100) 10 = 10 := by decide
  have h3 : wrapInt32 ((1 - 1) * 10) = 0 := by decide
  simp only [graphStore.List, h1, h2, h3]

/-- C30: `Put` followed by `List` round-trips the stored fields. After a `Put`
that returned no error, when the table holds at most ten rows of the type of
an item of the batch that no later item of the batch overwrites,
`List(type, 1, 10)` returns an item with the type, `K1`, `K2`, encoding and
payload of the item put (and an empty `K3`); and in every store the `K3` of
every item of `List` and of every node and edge of `FindUpstream` and
`FindDownstream` is empty. -/
theorem C30_put_list_roundtrip (gs : graphStore) (fault : Nat → Bool) (timestamp : Nat)
    (pre post : List GraphItem) (item : GraphItem)
    (hpost : ∀ x ∈ post, ¬ x.sameIdentity item)
    (hok : (gs.Put fault timestamp { Items := pre ++ item :: post }).2 = .ok {})
    (hlen : ((gs.Put fault timestamp { Items := pre ++ item :: post }).1.dts_graphdata.filter
      (fun r => r.graph_item_type == item.GraphItemType)).length ≤ 10) :
    (∃ items,
      (gs.Put fault timestamp { Items := pre ++ item :: post }).1.List
          { Page := 1, Count := 10, Type_ := item.GraphItemType } = .ok { Items := items } ∧
        ∃ x ∈ items, x.GraphItemType = item.GraphItemType ∧ x.K1 = item.K1 ∧
          x.K2 = item.K2 ∧ x.Encoding = item.Encoding ∧
          x.GraphItemData = item.GraphItemData ∧ x.K3 = []) ∧
    (∀ (s : graphStore) (q : ListRequest) (r : ListResponse), s.List q = .ok r →
      ∀ x ∈ r.Items, x.K3 = []) ∧
    (∀ (s : graphStore) (q : FindRequest) (r : FindResponse),
      (s.FindUpstream q = .ok r ∨ s.FindDownstream q = .ok r) →
        ∀ p ∈ r.Pairs, p.Node.K3 = [] ∧ p.Edge.K3 = []) := by
  refine ⟨?_, ?_, ?_⟩
  · refine ⟨_, list_first_page _ _, item.stored, ?_, rfl, rfl, rfl, rfl, rfl, rfl⟩
    have hmem : item.row timestamp ∈
        (gs.Put fault timestamp { Items := pre ++ item :: post }).1.dts_graphdata := by
      have hf : (gs.Put fault timestamp { Items := pre ++ item :: post }).1.dts_graphdata.filter
          (fun r => decide (r.hasIdentityOf item)) = [item.row timestamp] := by
        rw [put_ok_table hok]
        simp only [List.foldl_append, List.foldl_cons]
        rw [filter_identity_foldl_other timestamp item post _ hpost,
          filter_identity_execInsert_self]
      have : item.row timestamp ∈
          (gs.Put fault timestamp { Items := pre ++ item :: post }).1.dts_graphdata.filter
            (fun r => decide (r.hasIdentityOf item)) := by
        rw [hf]; exact List.mem_singleton.mpr rfl
      exact (List.mem_filter.mp this).1
    rw [← row_item item timestamp]
    exact List.mem_map_of_mem _ (mem_listGraphData_first_page _ _ _ hmem rfl hlen)
  · intro s q r hr x hx
    simp only [graphStore.List, Except.ok.injEq] at hr
    rw [← hr] at hx
    simp only [readGraphItems, List.mem_map] at hx
    obtain ⟨c, -, rfl⟩ := hx
    rfl
  · intro s q r hr p hp
    rcases hr with hr | hr
    · rw [findUpstream_eq, Except.ok.injEq] at hr
      rw [← hr] at hp
      simp only [readGraphItemPairs, List.mem_map] at hp
      obtain ⟨c, -, rfl⟩ := hp
      exact ⟨rfl, rfl⟩
    · rw [findDownstream_eq, Except.ok.injEq] at hr
      rw [← hr] at hp
      simp only [readGraphItemPairs, List.mem_map] at hp
      obtain ⟨c, -, rfl⟩ := hp
      exact ⟨rfl, rfl⟩

/-- C30 at the batch of the repository's test: the edge `3003 -> 5005` put
last, with `K3` `2002`, comes back from `List` with an empty `K3`. -/
theorem C30_put_list_roundtrip_witness :
    ∃ items, testStore.List { Page := 1, Count := 10, Type_ := "edge" } =
        .ok { Items := items } ∧
      ∃ x ∈ items, x.GraphItemType = "edge" ∧ x.K1 = testKey 3 ∧ x.K2 = testKey 5 ∧
        x.Encoding = 0 ∧ x.GraphItemData = [] ∧ x.K3 = [] :=
  (C30_put_list_roundtrip (NewSQLGraphStore true none) noFault 1 (testData.take 11) []
    (testItem "edge" (testKey 3) (testKey 5) (testKey 2)) (by simp) (by decide)
    (by decide)).1

/-! ## The dependency service -/

/-- When every pair decodes to a module and a dependency record, the loop
returns one `Dependency` per pair, in order. -/
theorem decodePairs_of_decodable (Decode : GraphItem → Decoded × Option String) :
    ∀ pairs : List GraphItemPair,
      (∀ p ∈ pairs, ∃ m dep, (Decode p.Node).1 = .module m ∧ (Decode p.Edge).1 = .depends dep) →
      ∃ deps, decodePairs Decode pairs = some deps ∧
        List.Forall₂ (fun p dep => (Decode p.Node).1 = .module dep.Module ∧
          (Decode p.Edge).1 = .depends dep.Depends) pairs deps := by
  intro pairs
  induction pairs with
  | nil => intro _; exact ⟨[], rfl, List.Forall₂.nil⟩
  | cons p ps ih =>
    intro h
    obtain ⟨m, dep, hm, hd⟩ := h p (List.mem_cons_self _ _)
    obtain ⟨deps, hdeps, hall⟩ := ih (fun q hq => h q (List.mem_cons_of_mem _ hq))
    refine ⟨{ Module := m, Depends := dep } :: deps, ?_, List.Forall₂.cons ⟨hm, hd⟩ hall⟩
    simp [decodePairs, decodePair, hm, hd, hdeps]

/-- C21: for every client, decoder and request: when the `FindUpstream` call
with key `keyForModule(language, organization, module)` and the single edge
type `depends` succeeds with pairs that decode to a module and a dependency
record, `ListDependencies` returns, with no error, one `Dependency` per pair
in the same order, with `Module` decoded from the node and `Depends` from the
edge, and the empty list for no pairs; that call is the one it makes: every
service whose client answers it alike returns the same. `ListDependents` does
the same with `FindDownstream`. -/
theorem C21_list_dependencies {E : Type} (d : dependencyService E)
    (Decode : GraphItem → Decoded × Option String) (req : DependencyRequest) :
    (∀ ups : List GraphItemPair,
      d.gs.FindUpstream
          { Key := keyForModule ⟨req.Language, req.Organization, req.Module, []⟩,
            EdgeTypes := ["depends"] } = .ok { Pairs := ups } →
      (∀ p ∈ ups, ∃ m dep, (Decode p.Node).1 = .module m ∧ (Decode p.Edge).1 = .depends dep) →
      ∃ deps, d.ListDependencies Decode req = .ok { Dependencies := deps } ∧
        deps.length = ups.length ∧
        List.Forall₂ (fun p dep => (Decode p.Node).1 = .module dep.Module ∧
          (Decode p.Edge).1 = .depends dep.Depends) ups deps ∧
        (ups = [] → deps = []) ∧
        ∀ d2 : dependencyService E,
          d2.gs.FindUpstream
              { Key := keyForModule ⟨req.Language, req.Organization, req.Module, []⟩,
                EdgeTypes := ["depends"] } = .ok { Pairs := ups } →
            d2.ListDependencies Decode req = .ok { Dependencies := deps }) ∧
    (∀ downs : List GraphItemPair,
      d.gs.FindDownstream
          { Key := keyForModule ⟨req.Language, req.Organization, req.Module, []⟩,
            EdgeTypes := ["depends"] } = .ok { Pairs := downs } →
      (∀ p ∈ downs, ∃ m dep, (Decode p.Node).1 = .module m ∧ (Decode p.Edge).1 = .depends dep) →
      ∃ deps, d.ListDependents Decode req = .ok { Dependents := deps } ∧
        deps.length = downs.length ∧
        List.Forall₂ (fun p dep => (Decode p.Node).1 = .module dep.Module ∧
          (Decode p.Edge).1 = .depends dep.Depends) downs deps ∧
        (downs = [] → deps = []) ∧
        ∀ d2 : dependencyService E,
          d2.gs.FindDownstream
              { Key := keyForModule ⟨req.Language, req.Organization, req.Module, []⟩,
                EdgeTypes := ["depends"] } = .ok { Pairs := downs } →
            d2.ListDependents Decode req = .ok { Dependents := deps }) := by
  constructor
  · intro ups hup hdecU
    obtain ⟨du, hdu, hallu⟩ := decodePairs_of_decodable Decode ups hdecU
    have eU : ∀ d2 : dependencyService E,
        d2.gs.FindUpstream
            { Key := keyForModule ⟨req.Language, req.Organization, req.Module, []⟩,
              EdgeTypes := ["depends"] } = .ok { Pairs := ups } →
        d2.ListDependencies Decode req = .ok { Dependencies := du } := by
      intro d2 h
      have h' : d2.gs.FindUpstream ⟨keyForDependencyRequest req, [DependsType]⟩ =
          .ok { Pairs := ups } := h
      simp only [dependencyService.ListDependencies, h', hdu]
    refine ⟨du, eU d hup, hallu.length_eq.symm, hallu, ?_, eU⟩
    intro h
    have := hallu.length_eq
    rw [h] at this
    exact List.length_eq_zero.mp this.symm
  · intro downs hdown hdecD
    obtain ⟨dd, hdd, halld⟩ := decodePairs_of_decodable Decode downs hdecD
    have eD : ∀ d2 : dependencyService E,
        d2.gs.FindDownstream
            { Key := keyForModule ⟨req.Language, req.Organization, req.Module, []⟩,
              EdgeTypes := ["depends"] } = .ok { Pairs := downs } →
        d2.ListDependents Decode req = .ok { Dependents := dd } := by
      intro d2 h
      have h' : d2.gs.FindDownstream ⟨keyForDependencyRequest req, [DependsType]⟩ =
          .ok { Pairs := downs } := h
      simp only [dependencyService.ListDependents, h', hdd]
    refine ⟨dd, eD d hdown, halld.length_eq.symm, halld, ?_, eD⟩
    intro h
    have := halld.length_eq
    rw [h] at this
    exact List.length_eq_zero.mp this.symm

/-- C21 at a client that answers with two pairs upstream and one downstream. -/
theorem C21_list_dependencies_witness :
    (∃ deps, (⟨twoPairClient⟩ : dependencyService String).ListDependencies testDecode
        { Language := asciiBytes "go", Organization := [], Module := asciiBytes "tracker" } =
        .ok { Dependencies := deps } ∧ deps.length = 2) ∧
    (∃ deps, (⟨twoPairClient⟩ : dependencyService String).ListDependents testDecode
        { Language := asciiBytes "go", Organization := [], Module := asciiBytes "tracker" } =
        .ok { Dependents := deps } ∧ deps.length = 1) := by
  have h := C21_list_dependencies (⟨twoPairClient⟩ : dependencyService String) testDecode
    { Language := asciiBytes "go", Organization := [], Module := asciiBytes "tracker" }
  obtain ⟨du, h1, h2, -⟩ := h.1 _ rfl
    (by
      intro p hp
      simp only [List.mem_cons, List.mem_singleton, List.not_mem_nil, or_false] at hp
      rcases hp with rfl | rfl <;> exact ⟨_, _, rfl, rfl⟩)
  obtain ⟨dd, h3, h4, -⟩ := h.2 _ rfl
    (by
      intro p hp
      simp only [List.mem_cons, List.mem_singleton, List.not_mem_nil, or_false] at hp
      subst hp
      exact ⟨_, _, rfl, rfl⟩)
  exact ⟨⟨du, h1, h2⟩, ⟨dd, h3, h4⟩⟩

/-- C22: `ListDependencies` (resp. `ListDependents`) returns
`ErrModuleNotFound`, with no response, exactly when its `FindUpstream` (resp.
`FindDownstream`) call returns an error, whatever the error; for a successful
call with no pairs it returns an empty response and no error. -/
theorem C22_module_not_found_iff_query_error {E : Type} (d : dependencyService E)
    (Decode : GraphItem → Decoded × Option String) (req : DependencyRequest) :
    (d.ListDependencies Decode req = .ErrModuleNotFound ↔
      ∃ e, d.gs.FindUpstream ⟨keyForDependencyRequest req, [DependsType]⟩ = .error e) ∧
    (d.ListDependents Decode req = .ErrModuleNotFound ↔
      ∃ e, d.gs.FindDownstream ⟨keyForDependencyRequest req, [DependsType]⟩ = .error e) ∧
    (d.gs.FindUpstream ⟨keyForDependencyRequest req, [DependsType]⟩ =
        .ok { Pairs := [] } →
      d.ListDependencies Decode req = .ok { Dependencies := [] }) ∧
    (d.gs.FindDownstream ⟨keyForDependencyRequest req, [DependsType]⟩ =
        .ok { Pairs := [] } →
      d.ListDependents Decode req = .ok { Dependents := [] }) := by
  refine ⟨?_, ?_, ?_, ?_⟩
  · cases h : d.gs.FindUpstream ⟨keyForDependencyRequest req, [DependsType]⟩ with
    | error e => simp [dependencyService.ListDependencies, h]
    | ok r =>
      have hne : d.ListDependencies Decode req ≠ .ErrModuleNotFound := by
        simp only [dependencyService.ListDependencies, h]
        cases decodePairs Decode r.Pairs <;> simp
      constructor
      · intro hc; exact absurd hc hne
      · rintro ⟨e, he⟩; cases he
  · cases h : d.gs.FindDownstream ⟨keyForDependencyRequest req, [DependsType]⟩ with
    | error e => simp [dependencyService.ListDependents, h]
    | ok r =>
      have hne : d.ListDependents Decode req ≠ .ErrModuleNotFound := by
        simp only [dependencyService.ListDependents, h]
        cases decodePairs Decode r.Pairs <;> simp
      constructor
      · intro hc; exact absurd hc hne
      · rintro ⟨e, he⟩; cases he
  · intro h
    simp [dependencyService.ListDependencies, h, decodePairs]
  · intro h
    simp [dependencyService.ListDependents, h, decodePairs]

/-- C22 at a client whose calls fail. -/
theorem C22_module_not_found_iff_query_error_witness :
    (⟨failingClient⟩ : dependencyService String).ListDependencies testDecode
        { Language := asciiBytes "go", Organization := [], Module := asciiBytes "tracker" } =
      .ErrModuleNotFound :=
  (C22_module_not_found_iff_query_error (⟨failingClient⟩ : dependencyService String) testDecode
    { Language := asciiBytes "go", Organization := [], Module := asciiBytes "tracker" }).1.mpr
    ⟨"unavailable", rfl⟩

/-! ## The topology traversal -/

theorem step_done {E : Type} (find : FindRequest → Except E FindResponse) (t : Traversal E)
    (h : t.phase = .Done) : Traversal.step find t = t := by
  unfold Traversal.step
  rw [h]

theorem run_done {E : Type} (find : FindRequest → Except E FindResponse) :
    ∀ (n : Nat) (t : Traversal E), t.phase = .Done → Traversal.run find n t = t := by
  intro n
  induction n with
  | zero => intro t _; rfl
  | succ k ih =>
    intro t h
    rw [Traversal.run, step_done find t h]
    exact ih t h

theorem run_add {E : Type} (find : FindRequest → Except E FindResponse) :
    ∀ (m n : Nat) (t : Traversal E),
      Traversal.run find (m + n) t = Traversal.run find n (Traversal.run find m t) := by
  intro m
  induction m with
  | zero => intro n t; simp [Traversal.run]
  | succ k ih =>
    intro n t
    rw [show k + 1 + n = (k + n) + 1 by omega, Traversal.run, ih, Traversal.run]

/-- Once a traversal is done after `m` transitions it stays as it is. -/
theorem run_of_done {E : Type} (find : FindRequest → Except E FindResponse) (m : Nat)
    (t final : Traversal E) (h : Traversal.run find m t = final) (hd : final.phase = .Done)
    (n : Nat) (hn : m ≤ n) : Traversal.run find n t = final := by
  obtain ⟨k, rfl⟩ := Nat.exists_eq_add_of_le hn
  rw [run_add, h, run_done find k final hd]

/-- The traversal of a two-node cycle, for a client that answers `[pB]` at
`A` and `[pA]` at `B`. -/
theorem run_cycle {E : Type} (find : FindRequest → Except E FindResponse)
    (A B : List Byte) (pA pB : GraphItemPair) (hAB : A ≠ B)
    (hA : find { Key := A, EdgeTypes := [DependsType] } = .ok { Pairs := [pB] })
    (hB : find { Key := B, EdgeTypes := [DependsType] } = .ok { Pairs := [pA] })
    (hpA : pA.Node.K1 = A) (hpB : pB.Node.K1 = B) :
    Traversal.run find 4 (Traversal.start A) =
      { phase := .Done, frontier := [], visited := [A, B], expanded := [A, B],
        tiers := [[pB]], failure := none } := by
  have hBA : B ≠ A := fun h => hAB h.symm
  simp [Traversal.run, Traversal.step, Traversal.start, expandLevel, discover, hA, hB, hpA, hpB,
    hAB, hBA]

theorem keyForDependencyRequest_length (req : DependencyRequest) :
    (keyForDependencyRequest req).length = 32 := by
  unfold keyForDependencyRequest keyForModule
  rw [key_eq, sum256_length]

/-- The one-hop answers of a store whose live rows are the cycle `A -> B -> A`. -/
theorem cycle_upstream (gs : graphStore) (A B : List Byte) (T : String)
    (nA nB eAB eBA : Row) (hAB : A ≠ B)
    (hnA : nA.k1 = Base64encode A ∧ nA.k2 = Base64encode A)
    (hnB : nB.k1 = Base64encode B ∧ nB.k2 = Base64encode B)
    (heAB : eAB.graph_item_type = T ∧ eAB.k1 = Base64encode A ∧ eAB.k2 = Base64encode B)
    (heBA : eBA.graph_item_type = T ∧ eBA.k1 = Base64encode B ∧ eBA.k2 = Base64encode A)
    (hlive : (gs.dts_graphdata.filter (fun r => decide r.live)).Perm [nA, nB, eAB, eBA]) :
    gs.FindUpstream { Key := A, EdgeTypes := [T] } =
        .ok { Pairs := [{ Node := nB.item, Edge := eAB.item }] } ∧
      gs.FindUpstream { Key := B, EdgeTypes := [T] } =
        .ok { Pairs := [{ Node := nA.item, Edge := eBA.item }] } ∧
      nA.item.K1 = A ∧ nB.item.K1 = B := by
  obtain ⟨a1, a2⟩ := hnA
  obtain ⟨b1, b2⟩ := hnB
  obtain ⟨x0, x1, x2⟩ := heAB
  obtain ⟨y0, y1, y2⟩ := heBA
  have hmem : ∀ r ∈ [nA, nB, eAB, eBA], r.date_deleted = none := by
    intro r hr
    have := (List.mem_filter.mp (hlive.mem_iff.mpr hr)).2
    simpa [Row.live] using this
  have lA := hmem nA (by simp)
  have lB := hmem nB (by simp)
  have lAB := hmem eAB (by simp)
  have lBA := hmem eBA (by simp)
  have hBA : B ≠ A := fun h => hAB h.symm
  have u1 : selectGraphDataUpstreamDependencies [nA, nB, eAB, eBA] (Base64encode A) [T] =
      [(nB.columns, eAB.columns)] := by
    simp [selectGraphDataUpstreamDependencies, List.filter_cons, a1, a2, b1, b2, x0, x1,
      x2, y0, y1, y2, lA, lB, lAB, lBA, Base64encode_inj, hAB, hBA]
  have u2 : selectGraphDataUpstreamDependencies [nA, nB, eAB, eBA] (Base64encode B) [T] =
      [(nA.columns, eBA.columns)] := by
    simp [selectGraphDataUpstreamDependencies, List.filter_cons, a1, a2, b1, b2, x0, x1,
      x2, y0, y1, y2, lA, lB, lAB, lBA, Base64encode_inj, hAB, hBA]
  have U1 := (selectUpstream_of_live_perm hlive (Base64encode A) [T])
  have U2 := (selectUpstream_of_live_perm hlive (Base64encode B) [T])
  rw [u1] at U1
  rw [u2] at U2
  refine ⟨?_, ?_, ?_, ?_⟩
  · rw [findUpstream_eq, U1.eq_singleton]; rfl
  · rw [findUpstream_eq, U2.eq_singleton]; rfl
  · simp [Row.item, scanGraphItem, Row.columns, a1, Base64decode_Base64encode]
  · simp [Row.item, scanGraphItem, Row.columns, b1, Base64decode_Base64encode]

/-- C23: in every store whose live rows are the self-loops of the requested
module's key `A` and of another key `B` and the two `depends` edges `A -> B`
and `B -> A`, the flat dependencies-topology traversal from `A` reaches `Done`
after four transitions and stays there; it has then queried the store for `A`
and `B` once each (`expanded = [A, B]`, without repetition), holds each of
them once in its visited set, and has streamed exactly one pair, node `B`
with the edge `A -> B`: the pair of `A` that the query at `B` returns is not
emitted and `A` is not expanded again. -/
theorem C23_cycle_safety (gs : graphStore) (req : DependencyRequest) (B : List Byte)
    (nA nB eAB eBA : Row) (hAB : keyForDependencyRequest req ≠ B)
    (hnA : nA.k1 = Base64encode (keyForDependencyRequest req) ∧
      nA.k2 = Base64encode (keyForDependencyRequest req))
    (hnB : nB.k1 = Base64encode B ∧ nB.k2 = Base64encode B)
    (heAB : eAB.graph_item_type = DependsType ∧
      eAB.k1 = Base64encode (keyForDependencyRequest req) ∧ eAB.k2 = Base64encode B)
    (heBA : eBA.graph_item_type = DependsType ∧ eBA.k1 = Base64encode B ∧
      eBA.k2 = Base64encode (keyForDependencyRequest req))
    (hlive : (gs.dts_graphdata.filter (fun r => decide r.live)).Perm [nA, nB, eAB, eBA]) :
    ∀ n, 4 ≤ n →
      dependenciesTraversal gs.client req n =
          { phase := .Done, frontier := [],
            visited := [keyForDependencyRequest req, B],
            expanded := [keyForDependencyRequest req, B],
            tiers := [[{ Node := nB.item, Edge := eAB.item }]], failure := none } ∧
        (dependenciesTraversal gs.client req n).expanded.Nodup ∧
        (dependenciesTraversal gs.client req n).visited.Nodup ∧
        GetDependenciesTopology gs.client req n =
          (.Done, [{ Node := nB.item, Edge := eAB.item }]) ∧
        nB.item.K1 = B := by
  intro n hn
  obtain ⟨f1, f2, k1, k2⟩ := cycle_upstream gs _ B DependsType nA nB eAB eBA hAB hnA hnB heAB
    heBA hlive
  have hrun := run_cycle gs.client.FindUpstream (keyForDependencyRequest req) B
    { Node := nA.item, Edge := eBA.item } { Node := nB.item, Edge := eAB.item } hAB f1 f2 k1 k2
  have hfin : dependenciesTraversal gs.client req n =
      { phase := .Done, frontier := [],
        visited := [keyForDependencyRequest req, B],
        expanded := [keyForDependencyRequest req, B],
        tiers := [[{ Node := nB.item, Edge := eAB.item }]], failure := none } :=
    run_of_done _ 4 _ _ hrun rfl n hn
  refine ⟨hfin, ?_, ?_, ?_, k2⟩
  · rw [hfin]; simp [hAB]
  · rw [hfin]; simp [hAB]
  · simp [GetDependenciesTopology, hfin]

/-- C23 at a store holding the cycle between the module `go` /
`github.com/deps-cloud` / `tracker` and the key `2002`. -/
theorem C23_cycle_safety_witness :
    dependenciesTraversal (cycleStore (keyForDependencyRequest testRequest) (testKey 2)).client
        testRequest 10 =
      { phase := .Done, frontier := [],
        visited := [keyForDependencyRequest testRequest, testKey 2],
        expanded := [keyForDependencyRequest testRequest, testKey 2],
        tiers := [[{ Node := (topologyNode (testKey 2)).item,
                     Edge := (topologyEdge (keyForDependencyRequest testRequest)
                       (testKey 2)).item }]],
        failure := none } :=
  (C23_cycle_safety (cycleStore (keyForDependencyRequest testRequest) (testKey 2)) testRequest
    (testKey 2) (topologyNode (keyForDependencyRequest testRequest)) (topologyNode (testKey 2))
    (topologyEdge (keyForDependencyRequest testRequest) (testKey 2))
    (topologyEdge (testKey 2) (keyForDependencyRequest testRequest))
    (fun h => absurd (congrArg List.length h)
      (by rw [keyForDependencyRequest_length]; decide))
    ⟨rfl, rfl⟩ ⟨rfl, rfl⟩ ⟨rfl, rfl, rfl⟩ ⟨rfl, rfl, rfl⟩ (List.Perm.of_eq rfl) 10
    (by decide)).1

theorem perm_pair_cases {α : Type} {l : List α} {a b : α} (h : l.Perm [a, b]) :
    l = [a, b] ∨ l = [b, a] := by
  have hlen := h.length_eq
  match l, hlen, h with
  | [x, y], _, h =>
    have hx := h.subset (List.mem_cons_self x [y])
    have hy := h.subset (List.mem_cons_of_mem x (List.mem_cons_self y []))
    have ha := h.symm.subset (List.mem_cons_self a [b])
    have hb := h.symm.subset (List.mem_cons_of_mem a (List.mem_cons_self b []))
    simp only [List.mem_cons, List.mem_singleton, List.not_mem_nil, or_false] at hx hy ha hb
    rcases hx with rfl | rfl <;> rcases hy with rfl | rfl <;> simp_all

/-- The traversal of `A -> B`, `A -> C`, `B -> D`, with or without `C -> D`,
for a client that answers accordingly. -/
theorem run_diamond {E : Type} (find : FindRequest → Except E FindResponse)
    (A B C D : List Byte) (pB pC pD pD2 : GraphItemPair) (t0 cs : List GraphItemPair)
    (hAB : A ≠ B) (hAC : A ≠ C) (hAD : A ≠ D) (hBC : B ≠ C) (hBD : B ≠ D) (hCD : C ≠ D)
    (hA : find { Key := A, EdgeTypes := [DependsType] } = .ok { Pairs := t0 })
    (hB : find { Key := B, EdgeTypes := [DependsType] } = .ok { Pairs := [pD] })
    (hC : find { Key := C, EdgeTypes := [DependsType] } = .ok { Pairs := cs })
    (hD : find { Key := D, EdgeTypes := [DependsType] } = .ok { Pairs := [] })
    (ht0 : t0 = [pB, pC] ∨ t0 = [pC, pB]) (hcs : cs = [] ∨ cs = [pD2])
    (hkB : pB.Node.K1 = B) (hkC : pC.Node.K1 = C) (hkD : pD.Node.K1 = D)
    (hkD2 : pD2.Node.K1 = D) :
    ∃ p, Traversal.run find 5 (Traversal.start A) =
        { phase := .Done, frontier := [],
          visited := A :: t0.map (fun q => q.Node.K1) ++ [D],
          expanded := A :: t0.map (fun q => q.Node.K1) ++ [D],
          tiers := [t0, [p]], failure := none } ∧
      (p = pD ∨ (cs = [pD2] ∧ p = pD2)) := by
  have hBA : B ≠ A := fun h => hAB h.symm
  have hCA : C ≠ A := fun h => hAC h.symm
  have hDA : D ≠ A := fun h => hAD h.symm
  have hCB : C ≠ B := fun h => hBC h.symm
  have hDB : D ≠ B := fun h => hBD h.symm
  have hDC : D ≠ C := fun h => hCD h.symm
  rcases ht0 with rfl | rfl <;> rcases hcs with rfl | rfl
  · exact ⟨pD, by
      simp [Traversal.run, Traversal.step, Traversal.start, expandLevel, discover, hA, hB, hC,
        hD, hkB, hkC, hkD, hkD2, hAB, hAC, hAD, hBC, hBD, hCD, hBA, hCA, hDA, hCB, hDB, hDC],
      Or.inl rfl⟩
  · exact ⟨pD, by
      simp [Traversal.run, Traversal.step, Traversal.start, expandLevel, discover, hA, hB, hC,
        hD, hkB, hkC, hkD, hkD2, hAB, hAC, hAD, hBC, hBD, hCD, hBA, hCA, hDA, hCB, hDB, hDC],
      Or.inl rfl⟩
  · exact ⟨pD, by
      simp [Traversal.run, Traversal.step, Traversal.start, expandLevel, discover, hA, hB, hC,
        hD, hkB, hkC, hkD, hkD2, hAB, hAC, hAD, hBC, hBD, hCD, hBA, hCA, hDA, hCB, hDB, hDC],
      Or.inl rfl⟩
  · exact ⟨pD2, by
      simp [Traversal.run, Traversal.step, Traversal.start, expandLevel, discover, hA, hB, hC,
        hD, hkB, hkC, hkD, hkD2, hAB, hAC, hAD, hBC, hBD, hCD, hBA, hCA, hDA, hCB, hDB, hDC],
      Or.inr ⟨rfl, rfl⟩⟩

/-- The one-hop answers of a store whose live rows are the nodes `A`, `B`, `C`,
`D`, the edges `A -> B`, `A -> C`, `B -> D` and the rows `extra`, which are
none or the edge `C -> D`. -/
theorem diamond_upstream (gs : graphStore) (A B C D : List Byte) (T : String)
    (nA nB nC nD eAB eAC eBD eCD : Row) (extra : List Row)
    (hAB : A ≠ B) (hAC : A ≠ C) (hAD : A ≠ D) (hBC : B ≠ C) (hBD : B ≠ D) (hCD : C ≠ D)
    (hnA : nA.k1 = Base64encode A ∧ nA.k2 = Base64encode A)
    (hnB : nB.k1 = Base64encode B ∧ nB.k2 = Base64encode B)
    (hnC : nC.k1 = Base64encode C ∧ nC.k2 = Base64encode C)
    (hnD : nD.k1 = Base64encode D ∧ nD.k2 = Base64encode D)
    (heAB : eAB.graph_item_type = T ∧ eAB.k1 = Base64encode A ∧ eAB.k2 = Base64encode B)
    (heAC : eAC.graph_item_type = T ∧ eAC.k1 = Base64encode A ∧ eAC.k2 = Base64encode C)
    (heBD : eBD.graph_item_type = T ∧ eBD.k1 = Base64encode B ∧ eBD.k2 = Base64encode D)
    (heCD : eCD.graph_item_type = T ∧ eCD.k1 = Base64encode C ∧ eCD.k2 = Base64encode D)
    (hextra : extra = [] ∨ extra = [eCD])
    (hlive : (gs.dts_graphdata.filter (fun r => decide r.live)).Perm
      ([nA, nB, nC, nD, eAB, eAC, eBD] ++ extra)) :
    ∃ t0 cs,
      gs.FindUpstream { Key := A, EdgeTypes := [T] } = .ok { Pairs := t0 } ∧
      gs.FindUpstream { Key := B, EdgeTypes := [T] } =
        .ok { Pairs := [{ Node := nD.item, Edge := eBD.item }] } ∧
      gs.FindUpstream { Key := C, EdgeTypes := [T] } = .ok { Pairs := cs } ∧
      gs.FindUpstream { Key := D, EdgeTypes := [T] } = .ok { Pairs := [] } ∧
      (t0 = [{ Node := nB.item, Edge := eAB.item }, { Node := nC.item, Edge := eAC.item }] ∨
        t0 = [{ Node := nC.item, Edge := eAC.item }, { Node := nB.item, Edge := eAB.item }]) ∧
      (cs = [] ∧ extra = [] ∨ cs = [{ Node := nD.item, Edge := eCD.item }] ∧ extra = [eCD]) ∧
      nB.item.K1 = B ∧ nC.item.K1 = C ∧ nD.item.K1 = D := by
  obtain ⟨a1, a2⟩ := hnA
  obtain ⟨b1, b2⟩ := hnB
  obtain ⟨c1, c2⟩ := hnC
  obtain ⟨d1, d2⟩ := hnD
  obtain ⟨x0, x1, x2⟩ := heAB
  obtain ⟨y0, y1, y2⟩ := heAC
  obtain ⟨z0, z1, z2⟩ := heBD
  obtain ⟨w0, w1, w2⟩ := heCD
  have hmem : ∀ r ∈ [nA, nB, nC, nD, eAB, eAC, eBD] ++ extra, r.date_deleted = none := by
    intro r hr
    have := (List.mem_filter.mp (hlive.mem_iff.mpr hr)).2
    simpa [Row.live] using this
  have lA := hmem nA (by simp)
  have lB := hmem nB (by simp)
  have lC := hmem nC (by simp)
  have lD := hmem nD (by simp)
  have lAB := hmem eAB (by simp)
  have lAC := hmem eAC (by simp)
  have lBD := hmem eBD (by simp)
  have hBA : B ≠ A := fun h => hAB h.symm
  have hCA : C ≠ A := fun h => hAC h.symm
  have hDA : D ≠ A := fun h => hAD h.symm
  have hCB : C ≠ B := fun h => hBC h.symm
  have hDB : D ≠ B := fun h => hBD h.symm
  have hDC : D ≠ C := fun h => hCD h.symm
  have kB : nB.item.K1 = B := by
    simp [Row.item, scanGraphItem, Row.columns, b1, Base64decode_Base64encode]
  have kC : nC.item.K1 = C := by
    simp [Row.item, scanGraphItem, Row.columns, c1, Base64decode_Base64encode]
  have kD : nD.item.K1 = D := by
    simp [Row.item, scanGraphItem, Row.columns, d1, Base64decode_Base64encode]
  have UA := (selectUpstream_of_live_perm hlive (Base64encode A) [T])
  have UB := (selectUpstream_of_live_perm hlive (Base64encode B) [T])
  have UC := (selectUpstream_of_live_perm hlive (Base64encode C) [T])
  have UD := (selectUpstream_of_live_perm hlive (Base64encode D) [T])
  rcases hextra with rfl | rfl
  · have uA : selectGraphDataUpstreamDependencies ([nA, nB, nC, nD, eAB, eAC, eBD] ++ [])
        (Base64encode A) [T] = [(nB.columns, eAB.columns), (nC.columns, eAC.columns)] := by
      simp [selectGraphDataUpstreamDependencies, List.filter_cons, a1, a2, b1, b2, c1, c2, d1,
        d2, x0, x1, x2, y0, y1, y2, z0, z1, z2, lA, lB, lC, lD, lAB, lAC, lBD,
        Base64encode_inj, hAB, hAC, hAD, hBC, hBD, hCD, hBA, hCA, hDA, hCB, hDB, hDC]
    have uB : selectGraphDataUpstreamDependencies ([nA, nB, nC, nD, eAB, eAC, eBD] ++ [])
        (Base64encode B) [T] = [(nD.columns, eBD.columns)] := by
      simp [selectGraphDataUpstreamDependencies, List.filter_cons, a1, a2, b1, b2, c1, c2, d1,
        d2, x0, x1, x2, y0, y1, y2, z0, z1, z2, lA, lB, lC, lD, lAB, lAC, lBD,
        Base64encode_inj, hAB, hAC, hAD, hBC, hBD, hCD, hBA, hCA, hDA, hCB, hDB, hDC]
    have uC : selectGraphDataUpstreamDependencies ([nA, nB, nC, nD, eAB, eAC, eBD] ++ [])
        (Base64encode C) [T] = [] := by
      simp [selectGraphDataUpstreamDependencies, List.filter_cons, a1, a2, b1, b2, c1, c2, d1,
        d2, x0, x1, x2, y0, y1, y2, z0, z1, z2, lA, lB, lC, lD, lAB, lAC, lBD,
        Base64encode_inj, hAB, hAC, hAD, hBC, hBD, hCD, hBA, hCA, hDA, hCB, hDB, hDC]
    have uD : selectGraphDataUpstreamDependencies ([nA, nB, nC, nD, eAB, eAC, eBD] ++ [])
        (Base64encode D) [T] = [] := by
      simp [selectGraphDataUpstreamDependencies, List.filter_cons, a1, a2, b1, b2, c1, c2, d1,
        d2, x0, x1, x2, y0, y1, y2, z0, z1, z2, lA, lB, lC, lD, lAB, lAC, lBD,
        Base64encode_inj, hAB, hAC, hAD, hBC, hBD, hCD, hBA, hCA, hDA, hCB, hDB, hDC]
    rw [uA] at UA
    rw [uB] at UB
    rw [uC] at UC
    rw [uD] at UD
    refine ⟨_, [], findUpstream_eq gs _, ?_, ?_, ?_, ?_, Or.inl ⟨rfl, rfl⟩, kB, kC, kD⟩
    · rw [findUpstream_eq, UB.eq_singleton]; rfl
    · rw [findUpstream_eq, UC.eq_nil]; rfl
    · rw [findUpstream_eq, UD.eq_nil]; rfl
    · have hp : (readGraphItemPairs (selectGraphDataUpstreamDependencies gs.dts_graphdata
          (Base64encode A) [T])).Perm
          (readGraphItemPairs [(nB.columns, eAB.columns), (nC.columns, eAC.columns)]) :=
        UA.map _
      exact perm_pair_cases hp
  · have lCD := hmem eCD (by simp)
    have uA : selectGraphDataUpstreamDependencies ([nA, nB, nC, nD, eAB, eAC, eBD] ++ [eCD])
        (Base64encode A) [T] = [(nB.columns, eAB.columns), (nC.columns, eAC.columns)] := by
      simp [selectGraphDataUpstreamDependencies, List.filter_cons, a1, a2, b1, b2, c1, c2, d1,
        d2, x0, x1, x2, y0, y1, y2, z0, z1, z2, w0, w1, w2, lA, lB, lC, lD, lAB, lAC, lBD, lCD,
        Base64encode_inj, hAB, hAC, hAD, hBC, hBD, hCD, hBA, hCA, hDA, hCB, hDB, hDC]
    have uB : selectGraphDataUpstreamDependencies ([nA, nB, nC, nD, eAB, eAC, eBD] ++ [eCD])
        (Base64encode B) [T] = [(nD.columns, eBD.columns)] := by
      simp [selectGraphDataUpstreamDependencies, List.filter_cons, a1, a2, b1, b2, c1, c2, d1,
        d2, x0, x1, x2, y0, y1, y2, z0, z1, z2, w0, w1, w2, lA, lB, lC, lD, lAB, lAC, lBD, lCD,
        Base64encode_inj, hAB, hAC, hAD, hBC, hBD, hCD, hBA, hCA, hDA, hCB, hDB, hDC]
    have uC : selectGraphDataUpstreamDependencies ([nA, nB, nC, nD, eAB, eAC, eBD] ++ [eCD])
        (Base64encode C) [T] = [(nD.columns, eCD.columns)] := by
      simp [selectGraphDataUpstreamDependencies, List.filter_cons, a1, a2, b1, b2, c1, c2, d1,
        d2, x0, x1, x2, y0, y1, y2, z0, z1, z2, w0, w1, w2, lA, lB, lC, lD, lAB, lAC, lBD, lCD,
        Base64encode_inj, hAB, hAC, hAD, hBC, hBD, hCD, hBA, hCA, hDA, hCB, hDB, hDC]
    have uD : selectGraphDataUpstreamDependencies ([nA, nB, nC, nD, eAB, eAC, eBD] ++ [eCD])
        (Base64encode D) [T] = [] := by
      simp [selectGraphDataUpstreamDependencies, List.filter_cons, a1, a2, b1, b2, c1, c2, d1,
        d2, x0, x1, x2, y0, y1, y2, z0, z1, z2, w0, w1, w2, lA, lB, lC, lD, lAB, lAC, lBD, lCD,
        Base64encode_inj, hAB, hAC, hAD, hBC, hBD, hCD, hBA, hCA, hDA, hCB, hDB, hDC]
    rw [uA] at UA
    rw [uB] at UB
    rw [uC] at UC
    rw [uD] at UD
    refine ⟨_, [{ Node := nD.item, Edge := eCD.item }], findUpstream_eq gs _, ?_, ?_, ?_, ?_,
      Or.inr ⟨rfl, rfl⟩, kB, kC, kD⟩
    · rw [findUpstream_eq, UB.eq_singleton]; rfl
    · rw [findUpstream_eq, UC.eq_singleton]; rfl
    · rw [findUpstream_eq, UD.eq_nil]; rfl
    · have hp : (readGraphItemPairs (selectGraphDataUpstreamDependencies gs.dts_graphdata
          (Base64encode A) [T])).Perm
          (readGraphItemPairs [(nB.columns, eAB.columns), (nC.columns, eAC.columns)]) :=
        UA.map _
      exact perm_pair_cases hp

/-- C24: in every store whose live rows are the self-loops of the requested
module's key `A` and of three further distinct keys `B`, `C`, `D`, the
`depends` edges `A -> B`, `A -> C`, `B -> D` and possibly the edge `C -> D`,
the tiered dependencies-topology traversal from `A` reaches `Done` after five
transitions and stays there, with exactly two tiers: tier 0 holds the pair of
`B` and the pair of `C` (in the order the store returns them) and no pair of
`D`; tier 1 holds one pair, node `D`, with the edge `B -> D` or, when
`C -> D` exists and `C` is expanded first, the edge `C -> D`. -/
theorem C24_tiering (gs : graphStore) (req : DependencyRequest) (B C D : List Byte)
    (nA nB nC nD eAB eAC eBD eCD : Row) (extra : List Row)
    (hAB : keyForDependencyRequest req ≠ B) (hAC : keyForDependencyRequest req ≠ C)
    (hAD : keyForDependencyRequest req ≠ D) (hBC : B ≠ C) (hBD : B ≠ D) (hCD : C ≠ D)
    (hnA : nA.k1 = Base64encode (keyForDependencyRequest req) ∧
      nA.k2 = Base64encode (keyForDependencyRequest req))
    (hnB : nB.k1 = Base64encode B ∧ nB.k2 = Base64encode B)
    (hnC : nC.k1 = Base64encode C ∧ nC.k2 = Base64encode C)
    (hnD : nD.k1 = Base64encode D ∧ nD.k2 = Base64encode D)
    (heAB : eAB.graph_item_type = DependsType ∧
      eAB.k1 = Base64encode (keyForDependencyRequest req) ∧ eAB.k2 = Base64encode B)
    (heAC : eAC.graph_item_type = DependsType ∧
      eAC.k1 = Base64encode (keyForDependencyRequest req) ∧ eAC.k2 = Base64encode C)
    (heBD : eBD.graph_item_type = DependsType ∧ eBD.k1 = Base64encode B ∧
      eBD.k2 = Base64encode D)
    (heCD : eCD.graph_item_type = DependsType ∧ eCD.k1 = Base64encode C ∧
      eCD.k2 = Base64encode D)
    (hextra : extra = [] ∨ extra = [eCD])
    (hlive : (gs.dts_graphdata.filter (fun r => decide r.live)).Perm
      ([nA, nB, nC, nD, eAB, eAC, eBD] ++ extra)) :
    ∀ n, 5 ≤ n → ∃ t0 e,
      GetDependenciesTopologyTiered gs.client req n =
          (.Done, [t0, [{ Node := nD.item, Edge := e }]]) ∧
        (t0 = [{ Node := nB.item, Edge := eAB.item }, { Node := nC.item, Edge := eAC.item }] ∨
          t0 = [{ Node := nC.item, Edge := eAC.item }, { Node := nB.item, Edge := eAB.item }]) ∧
        (e = eBD.item ∨ (extra = [eCD] ∧ e = eCD.item)) ∧
        (∀ q ∈ t0, q.Node.K1 ≠ D) ∧
        nB.item.K1 = B ∧ nC.item.K1 = C ∧ nD.item.K1 = D := by
  intro n hn
  obtain ⟨t0, cs, fA, fB, fC, fD, ht0, hcs, kB, kC, kD⟩ :=
    diamond_upstream gs _ B C D DependsType nA nB nC nD eAB eAC eBD eCD extra hAB hAC hAD hBC
      hBD hCD hnA hnB hnC hnD heAB heAC heBD heCD hextra hlive
  have hcs2 : cs = [] ∨ cs = [{ Node := nD.item, Edge := eCD.item }] := by
    rcases hcs with h | h
    · exact Or.inl h.1
    · exact Or.inr h.1
  obtain ⟨p, hrun, hp⟩ := run_diamond gs.client.FindUpstream (keyForDependencyRequest req) B C D
    { Node := nB.item, Edge := eAB.item } { Node := nC.item, Edge := eAC.item }
    { Node := nD.item, Edge := eBD.item } { Node := nD.item, Edge := eCD.item } t0 cs
    hAB hAC hAD hBC hBD hCD fA fB fC fD ht0 hcs2 kB kC kD kD
  have hfin := run_of_done _ 5 _ _ hrun rfl n hn
  have hnot : ∀ q ∈ t0, q.Node.K1 ≠ D := by
    intro q hq
    rcases ht0 with rfl | rfl <;>
      simp only [List.mem_cons, List.mem_singleton, List.not_mem_nil, or_false] at hq <;>
      rcases hq with rfl | rfl
    · rw [kB]; exact hBD
    · rw [kC]; exact hCD
    · rw [kC]; exact hCD
    · rw [kB]; exact hBD
  have hex : extra = [eCD] ∨ cs = [] := by
    rcases hcs with h | h
    · exact Or.inr h.1
    · exact Or.inl h.2
  rcases hp with rfl | ⟨hc, rfl⟩
  · refine ⟨t0, eBD.item, ?_, ht0, Or.inl rfl, hnot, kB, kC, kD⟩
    simp only [GetDependenciesTopologyTiered, dependenciesTraversal]
    rw [hfin]
  · refine ⟨t0, eCD.item, ?_, ht0, Or.inr ⟨?_, rfl⟩, hnot, kB, kC, kD⟩
    · simp only [GetDependenciesTopologyTiered, dependenciesTraversal]
      rw [hfin]
    · rcases hex with h | h
      · exact h
      · rw [h] at hc; exact absurd hc (by simp)

/-- C24 at the stores holding the module `go` / `github.com/deps-cloud` /
`tracker` with the edges to `2002` and `3003`, the edge `2002 -> 4004`, and
without or with the edge `3003 -> 4004`: the node `4004` is alone in tier 1. -/
theorem C24_tiering_witness :
    (∃ t0 e, GetDependenciesTopologyTiered
        (forkStore (keyForDependencyRequest testRequest) (testKey 2) (testKey 3)
          (testKey 4)).client testRequest 5 =
          (.Done, [t0, [{ Node := (topologyNode (testKey 4)).item, Edge := e }]]) ∧
        ∀ q ∈ t0, q.Node.K1 ≠ testKey 4) ∧
      (∃ t0 e, GetDependenciesTopologyTiered
        (diamondStore (keyForDependencyRequest testRequest) (testKey 2) (testKey 3)
          (testKey 4)).client testRequest 5 =
          (.Done, [t0, [{ Node := (topologyNode (testKey 4)).item, Edge := e }]]) ∧
        ∀ q ∈ t0, q.Node.K1 ≠ testKey 4) := by
  have hlen : ∀ d, keyForDependencyRequest testRequest ≠ testKey d := fun d h =>
    absurd (congrArg List.length h) (by rw [keyForDependencyRequest_length]; simp [testKey])
  constructor
  · obtain ⟨t0, e, h1, -, -, h2, -⟩ := C24_tiering
      (forkStore (keyForDependencyRequest testRequest) (testKey 2) (testKey 3) (testKey 4))
      testRequest (testKey 2) (testKey 3) (testKey 4)
      (topologyNode (keyForDependencyRequest testRequest)) (topologyNode (testKey 2))
      (topologyNode (testKey 3)) (topologyNode (testKey 4))
      (topologyEdge (keyForDependencyRequest testRequest) (testKey 2))
      (topologyEdge (keyForDependencyRequest testRequest) (testKey 3))
      (topologyEdge (testKey 2) (testKey 4)) (topologyEdge (testKey 3) (testKey 4)) []
      (hlen 2) (hlen 3) (hlen 4) (by decide) (by decide) (by decide)
      ⟨rfl, rfl⟩ ⟨rfl, rfl⟩ ⟨rfl, rfl⟩ ⟨rfl, rfl⟩ ⟨rfl, rfl, rfl⟩ ⟨rfl, rfl, rfl⟩
      ⟨rfl, rfl, rfl⟩ ⟨rfl, rfl, rfl⟩ (Or.inl rfl) (List.Perm.of_eq rfl) 5 (by decide)
    exact ⟨t0, e, h1, h2⟩
  · obtain ⟨t0, e, h1, -, -, h2, -⟩ := C24_tiering
      (diamondStore (keyForDependencyRequest testRequest) (testKey 2) (testKey 3) (testKey 4))
      testRequest (testKey 2) (testKey 3) (testKey 4)
      (topologyNode (keyForDependencyRequest testRequest)) (topologyNode (testKey 2))
      (topologyNode (testKey 3)) (topologyNode (testKey 4))
      (topologyEdge (keyForDependencyRequest testRequest) (testKey 2))
      (topologyEdge (keyForDependencyRequest testRequest) (testKey 3))
      (topologyEdge (testKey 2) (testKey 4)) (topologyEdge (testKey 3) (testKey 4))
      [topologyEdge (testKey 3) (testKey 4)]
      (hlen 2) (hlen 3) (hlen 4) (by decide) (by decide) (by decide)
      ⟨rfl, rfl⟩ ⟨rfl, rfl⟩ ⟨rfl, rfl⟩ ⟨rfl, rfl⟩ ⟨rfl, rfl, rfl⟩ ⟨rfl, rfl, rfl⟩
      ⟨rfl, rfl, rfl⟩ ⟨rfl, rfl, rfl⟩ (Or.inr rfl) (List.Perm.of_eq rfl) 5 (by decide)
    exact ⟨t0, e, h1, h2⟩

end Tracker
